import Mathlib

/-! # Golden-audio regression harness: embedding and verified properties

Shallow embedding of `include/golden_audio/GoldenAudioTestBase.h` (namespace `GoldenAudio`)
and of the example unit and test cases of `examples/simple_synth` (`SimpleSynth.h`,
`SimpleSynthTest.cpp`).

Modelling conventions

* A `double` or `float` value is modelled by the rational number `ℚ` it denotes.  Every
  arithmetic operation of the harness on such values is followed by the rounding of its exact
  result to the nearest `double` (`roundToDouble`) or `float` (`roundToFloat`), ties to even;
  each operation is rounded on its own, and the bounds on the exponent are not modelled.
  `std::sqrt` is a parameter of the functions that use it; `sqrtToFloat` is the correctly
  rounded root.  A decimal literal of the source that takes part in such arithmetic is the
  `double` or `float` nearest to it (`roundToDouble (1 / 10)` for `0.1`).
* `int` values are modelled by `Int`.  Signed overflow and out-of-range conversions are
  undefined in C++ and lie outside the embedding: the results describe runs in which every
  `int` expression stays within range.
* `juce::MidiBuffer` is a library type.  It is modelled by the list of its events in iteration
  order, and `addEvent` follows the library contract: the buffer is kept sorted by sample
  position, a new event being stored after all events already present whose position is not
  greater than its own.
* `juce::MidiMessage` values are identified by the factory call that made them
  (`noteOn` / `noteOff` with channel, note number and velocity).
* The unit under test is a record of state transitions on a state type `σ`; a `processBlock`
  call either returns or throws, and an exception either derives from `std::exception` or
  does not.
* Files are a map from paths to what is stored there.  A WAV file holds the sample rate as an
  integer, and a reader can be created for it when that rate is positive and the file has at
  least one channel.  What the WAV writer does on its own account (whether it can be created,
  how it quantises samples) is a parameter.
* A buffer constructed with a negative number of samples and a block copied outside the
  output buffer have no defined outcome in the library; `DefinedRun` names the configurations
  whose rendering meets neither.
* The example unit `SimpleSynth` is modelled by its data members; `std::sin` and
  `juce::MidiMessage::getMidiNoteInHertz` are parameters of its `processBlock`, so that what
  is proved about it holds whatever values they give.  The arithmetic of the unit on its
  phase and on its samples is exact.
* The rendering loop is split into its control part (`blockWindows`: the values of
  `sampleOffset` and `currentBufferSize` in the successive iterations, which do not depend on
  the unit) and its body (`renderBlock`).
-/

namespace GoldenAudio

/-! ## Data model -/

/-- MIDI note event for test sequences (`struct MidiNote`). -/
structure MidiNote where
  noteNumber : Int
  velocity : ℚ
  startTime : ℚ
  duration : ℚ
deriving DecidableEq, Repr

/-- Parameter state for test configuration (`struct ParameterState`). -/
structure ParameterState where
  parameterName : String
  value : ℚ
deriving DecidableEq, Repr

/-- A `juce::MidiMessage`, identified by the factory call `MidiMessage::noteOn(channel, note,
velocity)` or `MidiMessage::noteOff(channel, note, velocity)` that created it. -/
inductive MidiMessage where
  | noteOn (channel noteNumber : Int) (velocity : ℚ)
  | noteOff (channel noteNumber : Int) (velocity : ℚ)
deriving DecidableEq, Repr

/-- One entry of a `juce::MidiBuffer`: a message and its sample position. -/
structure MidiEvent where
  message : MidiMessage
  samplePosition : Int
deriving DecidableEq, Repr

/-- A `juce::MidiBuffer`: its events in iteration order. -/
abbrev MidiBuffer := List MidiEvent

/-- The library call `MidiBuffer::addEvent (message, sampleNumber)`: the new event is stored
after every leading event whose sample position is at most `sampleNumber`, so that a buffer
built by `addEvent` alone stays sorted and events with equal positions keep insertion order. -/
def MidiBuffer.addEvent : MidiBuffer → MidiMessage → Int → MidiBuffer
  | [], m, sampleNumber => [⟨m, sampleNumber⟩]
  | e :: rest, m, sampleNumber =>
    if e.samplePosition ≤ sampleNumber then
      e :: MidiBuffer.addEvent rest m sampleNumber
    else
      ⟨m, sampleNumber⟩ :: e :: rest

/-- The buffer obtained from an empty `juce::MidiBuffer` by adding the given events one after
the other with `addEvent`.  Every event buffer arises in this way. -/
def MidiBuffer.ofEvents (events : List MidiEvent) : MidiBuffer :=
  events.foldl (fun buffer event => buffer.addEvent event.message event.samplePosition) []

/-- The class invariant of `juce::MidiBuffer`: sample positions never decrease along the
buffer. -/
def MidiBuffer.Sorted (buffer : MidiBuffer) : Prop :=
  buffer.Pairwise (fun a b => a.samplePosition ≤ b.samplePosition)

/-- The conversion `static_cast<int>(x)` of a `double`: the fractional part is discarded
(rounding toward zero). -/
def castToInt (x : ℚ) : Int := Int.tdiv x.num (x.den : Int)

/-! ## Arithmetic on `double` and `float` values

A `double` or `float` value is the rational number it denotes.  An arithmetic operation of the
program on such values gives the exact result rounded to the nearest representable value, ties
going to the even significand.  The bounds on the exponent (overflow, subnormal numbers) are
not modelled. -/

/-- The power `2 ^ exponent` for an integer exponent. -/
def twoPow (exponent : Int) : ℚ :=
  if 0 ≤ exponent then ((2 ^ exponent.toNat : Nat) : ℚ)
  else 1 / ((2 ^ (-exponent).toNat : Nat) : ℚ)

/-- The number of binary digits of `n`, found by halving `n` until nothing is left; `fuel`
bounds the number of halvings, and `fuel = n` is enough. -/
def binaryDigits : Nat → Nat → Nat
  | 0, _ => 0
  | fuel + 1, n => if n = 0 then 0 else binaryDigits fuel (n / 2) + 1

/-- The binary exponent of a rational `x > 0`: the integer `e` with
`2 ^ e ≤ x < 2 ^ (e + 1)`. -/
def binaryExponent (x : ℚ) : Int :=
  let estimate : Int :=
    (binaryDigits x.num.natAbs x.num.natAbs : Int) - (binaryDigits x.den x.den : Int)
  if x < twoPow estimate then estimate - 1 else estimate

/-- The integer nearest to `x`; of two integers equally near, the even one. -/
def roundHalfEven (x : ℚ) : Int :=
  let lower := ⌊x⌋
  if x - lower < 1 / 2 then lower
  else if 1 / 2 < x - lower then lower + 1
  else if lower % 2 = 0 then lower else lower + 1

/-- The number with 53 significant binary digits nearest to a rational `x ≥ 0`, ties going to
the even significand. -/
def roundMagnitude (x : ℚ) : ℚ :=
  if x = 0 then 0
  else (roundHalfEven (x / twoPow (binaryExponent x - 52)) : ℚ) * twoPow (binaryExponent x - 52)

/-- The `double` nearest to the rational `x` (IEEE 754 binary64, rounding to nearest, ties to
even), for results within the range of the normal numbers: the bounds on the exponent are not
modelled.  A negative value, one with a negative numerator, is rounded as its opposite is. -/
def roundToDouble (x : ℚ) : ℚ :=
  match x.num with
  | Int.ofNat _ => roundMagnitude x
  | Int.negSucc _ => -roundMagnitude (-x)

/-- The number with 24 significant binary digits nearest to a rational `x ≥ 0`, ties going to
the even significand. -/
def roundMagnitudeFloat (x : ℚ) : ℚ :=
  if x = 0 then 0
  else (roundHalfEven (x / twoPow (binaryExponent x - 23)) : ℚ) * twoPow (binaryExponent x - 23)

/-- The `float` nearest to the rational `x` (IEEE 754 binary32, rounding to nearest, ties to
even), for results within the range of the normal numbers.  A negative value is rounded as
its opposite is. -/
def roundToFloat (x : ℚ) : ℚ :=
  match x.num with
  | Int.ofNat _ => roundMagnitudeFloat x
  | Int.negSucc _ => -roundMagnitudeFloat (-x)

/-- The search for an integer square root bit by bit: `root` holds the bits found so far, and
the bits below `bit` are still to be decided. -/
def sqrtBits : Nat → Nat → Nat → Nat
  | 0, root, _ => root
  | bit + 1, root, n =>
    let candidate := root + 2 ^ bit
    sqrtBits bit (if candidate * candidate ≤ n then candidate else root) n

/-- The integer part of the square root of `n`. -/
def natSqrt (n : Nat) : Nat := sqrtBits (binaryDigits n n) 0 n

/-- The `float` nearest to the square root of a rational `x > 0`, ties going to the even
significand: what `std::sqrt` gives for a `float` argument, the square root being an operation
that IEEE 754 rounds correctly.  For `x ≤ 0` the value is zero. -/
def sqrtToFloat (x : ℚ) : ℚ :=
  if x ≤ 0 then 0
  else
    let exponent : Int := binaryExponent x / 2
    let scaled : ℚ := x * twoPow (2 * (23 - exponent))
    let lower : Int := (natSqrt ⌊scaled⌋.toNat : Int)
    let middle : ℚ := (lower : ℚ) + 1 / 2
    let significand : Int :=
      if scaled < middle * middle then lower
      else if middle * middle < scaled then lower + 1
      else if lower % 2 = 0 then lower else lower + 1
    (significand : ℚ) * twoPow (exponent - 23)

/-! ## Audio buffers and the unit under test -/

/-- A `juce::AudioBuffer<float>`: its length in samples and, for each channel, the samples of
that channel. -/
structure AudioBuffer where
  numSamples : Nat
  channels : List (List ℚ)
deriving DecidableEq, Repr

namespace AudioBuffer

/-- The constructor `AudioBuffer (numChannels, numSamples)` followed by `clear ()`.  The
library requires `numSamples ≥ 0`; a call with a negative count lies outside the embedding (the
value given here for it is an empty buffer), and `DefinedRun` names the runs without such a
call. -/
def cleared (numChannels : Nat) (numSamples : Int) : AudioBuffer :=
  ⟨numSamples.toNat, List.replicate numChannels (List.replicate numSamples.toNat 0)⟩

def getNumChannels (buffer : AudioBuffer) : Nat := buffer.channels.length

def getNumSamples (buffer : AudioBuffer) : Nat := buffer.numSamples

/-- The samples behind `getReadPointer (channel)`. -/
def channel (buffer : AudioBuffer) (channel : Nat) : List ℚ := buffer.channels.getD channel []

/-- The sample `getReadPointer (channel)[sample]`. -/
def getSample (buffer : AudioBuffer) (channel sample : Nat) : ℚ :=
  (buffer.channel channel).getD sample 0

/-- The library call `copyFrom (destChannel, destStartSample, source, sourceChannel,
sourceStartSample, numSamples)`: `numSamples` samples of a channel of `source` replace the
samples of a channel of `dest` from `destStartSample` on. -/
def copyFrom (dest : AudioBuffer) (destChannel : Nat) (destStartSample : Int)
    (source : AudioBuffer) (sourceChannel : Nat) (sourceStartSample numSamples : Int) :
    AudioBuffer :=
  let copied := ((source.channel sourceChannel).drop sourceStartSample.toNat).take numSamples.toNat
  let old := dest.channel destChannel
  let updated := old.take destStartSample.toNat ++ copied
    ++ old.drop (destStartSample.toNat + numSamples.toNat)
  { dest with channels := dest.channels.set destChannel updated }

/-- A buffer of `numChannels` channels that hold `numSamples` samples each. -/
def HasShape (buffer : AudioBuffer) (numChannels numSamples : Nat) : Prop :=
  buffer.numSamples = numSamples ∧ buffer.channels.length = numChannels
    ∧ ∀ samples ∈ buffer.channels, samples.length = numSamples

end AudioBuffer

/-- What leaves `processBlock` when it does not return normally: an exception object, which
either derives from `std::exception` or does not. -/
inductive Thrown where
  | stdException (what : String)
  | other
deriving DecidableEq, Repr

deriving instance DecidableEq for Except

/-- The outcome of one `processBlock` call on a unit with state `σ`: the call returns, leaving
the unit in a new state and the buffer with new content, or an exception leaves the call. -/
inductive BlockResult (σ : Type) where
  | ok (state : σ) (buffer : AudioBuffer)
  | threw (state : σ) (exception : Thrown)
deriving DecidableEq

/-- The operations of the unit under test (`ProcessorType`) that the harness calls, as
transitions on the state `σ` of the unit.  `getParameters` lists the names
(`getName (100)`) of the exposed parameters in order, and `setValueNotifyingHost state i v`
is that call on the parameter with index `i`. -/
structure AudioProcessor (σ : Type) where
  setPlayConfigDetails : σ → Nat → Nat → ℚ → Int → σ
  prepareToPlay : σ → ℚ → Int → σ
  processBlock : σ → AudioBuffer → MidiBuffer → BlockResult σ
  getParameters : σ → List String
  setValueNotifyingHost : σ → Nat → ℚ → σ

/-! ## Files -/

/-- The content of a WAV file: the sample rate and the channel count of its header, its
length in samples, and the samples of each channel.  An `AudioFormatReader` for the file
reports these values. -/
structure AudioData where
  sampleRate : ℚ
  numChannels : Nat
  lengthInSamples : Int
  samples : List (List ℚ)
deriving DecidableEq, Repr

namespace AudioData

/-- The sample of a file at a channel and position (zero outside the stored samples). -/
def sample (data : AudioData) (channel position : Nat) : ℚ :=
  (data.samples.getD channel []).getD position 0

/-- A buffer constructed as `AudioBuffer (numChannels, numSamples)` and filled by
`reader->read (&buffer, 0, numSamples, 0, true, true)`. -/
def read (data : AudioData) (numChannels : Nat) (numSamples : Int) : AudioBuffer :=
  ⟨numSamples.toNat, (List.range numChannels).map (fun channel =>
    (List.range numSamples.toNat).map (fun position => data.sample channel position))⟩

end AudioData

/-- What there is at a path: a file with a WAV header and samples, or something that is no
audio file at all. -/
inductive FileEntry where
  | audio (data : AudioData)
  | unreadable
deriving DecidableEq, Repr

/-- The files of the machine: what there is at each path, if anything. -/
abbrev FileSystem := String → Option FileEntry

namespace FileSystem

def write (files : FileSystem) (path : String) (entry : FileEntry) : FileSystem :=
  fun p => if p = path then some entry else files p

/-- The library call `File::deleteFile`. -/
def deleteFile (files : FileSystem) (path : String) : FileSystem :=
  fun p => if p = path then none else files p

/-- The library call `createReaderFor (file)`: the reader, if one can be created.  A reader is
created for a WAV file whose header holds a positive sample rate and at least one channel, and
for nothing else. -/
def createReaderFor (files : FileSystem) (path : String) : Option AudioData :=
  match files path with
  | some (FileEntry.audio data) =>
    if 0 < data.sampleRate ∧ 0 < data.numChannels then some data else none
  | _ => none

end FileSystem

/-- The behaviour of the WAV writer that the harness does not determine:
whether `createWriterFor` yields a writer for a path, sample rate and channel count; the value
read back for a sample written with 16 bits; and whether the output stream opened for a writer
that could not be created leaves an (empty) file behind. -/
structure WavWriter where
  createWriterFor : String → ℚ → Nat → Bool
  pcm16 : ℚ → ℚ
  streamLeavesFile : String → Bool

/-- How a call ends: it returns a value, or an exception leaves it. -/
inductive Completion where
  | returned (value : Bool)
  | propagated (exception : Thrown)
deriving DecidableEq, Repr

/-- The outcome of a call of the harness on a unit with state `σ`: how the call ended, and the
unit and the files as the call left them. -/
structure CallResult (σ : Type) where
  completion : Completion
  processor : σ
  files : FileSystem

/-- The constant `0.001f`, the initial value of `comparisonTolerance`: the `float` nearest to
one thousandth. -/
def defaultTolerance : ℚ := roundToFloat (1 / 1000)

/-- The configuration held by a `GoldenAudioTestCase` object.  The two channel counts stand
for the virtual getters `getNumInputChannels` and `getNumOutputChannels`. -/
structure GoldenAudioTestCase where
  testName : String
  testDescription : String
  testDurationSeconds : ℚ := 5
  sampleRate : ℚ := 44100
  bufferSize : Int := 512
  comparisonTolerance : ℚ := defaultTolerance
  parameterStates : List ParameterState := []
  midiSequence : List MidiNote := []
  numInputChannels : Nat := 0
  numOutputChannels : Nat := 2
deriving DecidableEq, Repr

namespace GoldenAudioTestCase

/-! ## Test configuration and sequence set-up -/

def setDuration (tc : GoldenAudioTestCase) (seconds : ℚ) : GoldenAudioTestCase :=
  { tc with testDurationSeconds := seconds }

def setSampleRate (tc : GoldenAudioTestCase) (rate : ℚ) : GoldenAudioTestCase :=
  { tc with sampleRate := rate }

def setBufferSize (tc : GoldenAudioTestCase) (size : Int) : GoldenAudioTestCase :=
  { tc with bufferSize := size }

def setTolerance (tc : GoldenAudioTestCase) (tolerance : ℚ) : GoldenAudioTestCase :=
  { tc with comparisonTolerance := tolerance }

def addParameter (tc : GoldenAudioTestCase) (name : String) (value : ℚ) : GoldenAudioTestCase :=
  { tc with parameterStates := tc.parameterStates ++ [⟨name, value⟩] }

def resetAllParameters (tc : GoldenAudioTestCase) : GoldenAudioTestCase :=
  { tc with parameterStates := [] }

def addNote (tc : GoldenAudioTestCase) (noteNumber : Int) (velocity startTime duration : ℚ) :
    GoldenAudioTestCase :=
  { tc with midiSequence := tc.midiSequence ++ [⟨noteNumber, velocity, startTime, duration⟩] }

def addChord (tc : GoldenAudioTestCase) (noteNumbers : List Int)
    (velocity startTime duration : ℚ) : GoldenAudioTestCase :=
  noteNumbers.foldl (fun t noteNumber => t.addNote noteNumber velocity startTime duration) tc

def addSequence (tc : GoldenAudioTestCase) (notes : List MidiNote) : GoldenAudioTestCase :=
  { tc with midiSequence := tc.midiSequence ++ notes }

/-! ## Event scheduling -/

/-- One iteration of the loop of `createMidiBuffer`: the note-on and the note-off of `note`
are added, in that order.  The product `note.startTime * sampleRate` is rounded to a `double`
before the conversion to `int`; in `(note.startTime + note.duration) * sampleRate` the sum is
rounded, and then the product. -/
def addNoteEvents (sampleRate : ℚ) (buffer : MidiBuffer) (note : MidiNote) : MidiBuffer :=
  let startSample := castToInt (roundToDouble (note.startTime * sampleRate))
  let noteOnMessage := MidiMessage.noteOn 1 note.noteNumber note.velocity
  let buffer := buffer.addEvent noteOnMessage startSample
  let endSample :=
    castToInt (roundToDouble (roundToDouble (note.startTime + note.duration) * sampleRate))
  let noteOffMessage := MidiMessage.noteOff 1 note.noteNumber 0
  buffer.addEvent noteOffMessage endSample

/-- The private method `createMidiBuffer`. -/
def createMidiBuffer (tc : GoldenAudioTestCase) : MidiBuffer :=
  tc.midiSequence.foldl (addNoteEvents tc.sampleRate) []

/-- The two events that one iteration of `createMidiBuffer` hands to `addEvent`: the note-on
and then the note-off of `note`. -/
def noteEvents (sampleRate : ℚ) (note : MidiNote) : List MidiEvent :=
  [MidiEvent.mk (MidiMessage.noteOn 1 note.noteNumber note.velocity)
      (castToInt (roundToDouble (note.startTime * sampleRate))),
    MidiEvent.mk (MidiMessage.noteOff 1 note.noteNumber 0)
      (castToInt (roundToDouble (roundToDouble (note.startTime + note.duration) * sampleRate)))]

/-- The events of a timeline in declaration order: for each note, in the order of the
`addNote` calls, its note-on followed by its note-off. -/
def declaredEvents (tc : GoldenAudioTestCase) : List MidiEvent :=
  tc.midiSequence.flatMap (noteEvents tc.sampleRate)

/-- The private method `extractMidiForBuffer (sourceMidi, destMidi, startSample, numSamples)`;
the result is the final content of `destMidi`. -/
def extractMidiForBuffer (sourceMidi destMidi : MidiBuffer) (startSample numSamples : Int) :
    MidiBuffer :=
  let endSample := startSample + numSamples
  sourceMidi.foldl (fun dest midiIterator =>
    let eventSample := midiIterator.samplePosition
    if eventSample ≥ startSample ∧ eventSample < endSample then
      let relativeSample := eventSample - startSample
      dest.addEvent midiIterator.message relativeSample
    else dest) destMidi

/-! ## Parameter binding -/

/-- The virtual method `setupProcessor` (default implementation). -/
def setupProcessor {σ : Type} (tc : GoldenAudioTestCase) (unit : AudioProcessor σ)
    (processor : σ) : σ :=
  let processor := unit.setPlayConfigDetails processor tc.numInputChannels
    tc.numOutputChannels tc.sampleRate tc.bufferSize
  unit.prepareToPlay processor tc.sampleRate tc.bufferSize

/-- The loop of `applyParameter` over the parameters of the unit, from index `index` on: the
first parameter whose name equals `paramName` receives `value`, and the loop ends there. -/
def applyParameterFrom {σ : Type} (unit : AudioProcessor σ) (processor : σ)
    (paramName : String) (value : ℚ) : List String → Nat → σ
  | [], _ => processor
  | name :: rest, index =>
    if name = paramName then unit.setValueNotifyingHost processor index value
    else applyParameterFrom unit processor paramName value rest (index + 1)

/-- The virtual method `applyParameter` (default implementation). -/
def applyParameter {σ : Type} (unit : AudioProcessor σ) (processor : σ) (paramName : String)
    (value : ℚ) : σ :=
  applyParameterFrom unit processor paramName value (unit.getParameters processor) 0

/-- The virtual method `applyParametersToProcessor` (default implementation). -/
def applyParametersToProcessor {σ : Type} (tc : GoldenAudioTestCase) (unit : AudioProcessor σ)
    (processor : σ) : σ :=
  tc.parameterStates.foldl
    (fun processor paramState =>
      applyParameter unit processor paramState.parameterName paramState.value)
    processor

/-! ## Rendering -/

/-- The value of `totalSamples` in `generateGoldenAudio`: the product of the two `double`
values, itself a `double`, converted to `int`. -/
def totalSamples (tc : GoldenAudioTestCase) : Int :=
  castToInt (roundToDouble (tc.testDurationSeconds * tc.sampleRate))

/-- The value of `totalBuffers` in `generateGoldenAudio`; the division of two `int`s drops
the fractional part of the quotient. -/
def totalBuffers (tc : GoldenAudioTestCase) : Int :=
  Int.tdiv (tc.totalSamples + tc.bufferSize - 1) tc.bufferSize

/-- The control part of the rendering loop: the values of `sampleOffset` and
`currentBufferSize` in the next `remaining` iterations, the first of which starts at
`sampleOffset`. -/
def blockWindows (bufferSize totalSamples : Int) : Nat → Int → List (Int × Int)
  | 0, _ => []
  | remaining + 1, sampleOffset =>
    let currentBufferSize := min bufferSize (totalSamples - sampleOffset)
    (sampleOffset, currentBufferSize)
      :: blockWindows bufferSize totalSamples remaining (sampleOffset + currentBufferSize)

/-- The windows of all iterations of the rendering loop: `bufferIndex` runs from `0` up to
`totalBuffers`, and `sampleOffset` starts at `0`. -/
def renderWindows (tc : GoldenAudioTestCase) : List (Int × Int) :=
  blockWindows tc.bufferSize tc.totalSamples tc.totalBuffers.toNat 0

/-- The body of the rendering loop for one window `(sampleOffset, currentBufferSize)`: a
cleared block buffer and the events of the window go to `processBlock`, and the block is copied
into the output buffer channel by channel.  An exception ends the iteration at once. -/
def renderBlock {σ : Type} (tc : GoldenAudioTestCase) (unit : AudioProcessor σ)
    (midiBuffer : MidiBuffer) (processor : σ) (outputBuffer : AudioBuffer)
    (window : Int × Int) : Except (σ × Thrown) (σ × AudioBuffer) :=
  let sampleOffset := window.1
  let currentBufferSize := window.2
  let tempBuffer := AudioBuffer.cleared tc.numOutputChannels currentBufferSize
  let currentMidiBuffer := extractMidiForBuffer midiBuffer [] sampleOffset currentBufferSize
  match unit.processBlock processor tempBuffer currentMidiBuffer with
  | BlockResult.threw processor exception => Except.error (processor, exception)
  | BlockResult.ok processor tempBuffer =>
    Except.ok (processor,
      (List.range tc.numOutputChannels).foldl
        (fun outputBuffer channel =>
          outputBuffer.copyFrom channel sampleOffset tempBuffer channel 0 currentBufferSize)
        outputBuffer)

/-- The rendering loop over the given windows, one after the other. -/
def renderLoop {σ : Type} (tc : GoldenAudioTestCase) (unit : AudioProcessor σ)
    (midiBuffer : MidiBuffer) : List (Int × Int) → σ → AudioBuffer →
    Except (σ × Thrown) (σ × AudioBuffer)
  | [], processor, outputBuffer => Except.ok (processor, outputBuffer)
  | window :: rest, processor, outputBuffer =>
    match renderBlock tc unit midiBuffer processor outputBuffer window with
    | Except.error failure => Except.error failure
    | Except.ok (processor, outputBuffer) =>
      renderLoop tc unit midiBuffer rest processor outputBuffer

/-- The arguments of the successive `processBlock` calls of a rendering, in the order of the
calls: for each window a cleared block buffer of the size of the window and the events of the
window, re-expressed relative to its start. -/
def blockInputs (tc : GoldenAudioTestCase) : List (AudioBuffer × MidiBuffer) :=
  tc.renderWindows.map (fun window =>
    (AudioBuffer.cleared tc.numOutputChannels window.2,
      extractMidiForBuffer tc.createMidiBuffer [] window.1 window.2))

/-- The body of the `try` block of `generateGoldenAudio` up to the call of `saveToWavFile`:
the state of the unit and the output buffer after the last block, or the exception that ended
the rendering together with the state of the unit at that point. -/
def render {σ : Type} (tc : GoldenAudioTestCase) (unit : AudioProcessor σ) (processor : σ) :
    Except (σ × Thrown) (σ × AudioBuffer) :=
  let processor := tc.setupProcessor unit processor
  let processor := tc.applyParametersToProcessor unit processor
  let outputBuffer := AudioBuffer.cleared tc.numOutputChannels tc.totalSamples
  let midiBuffer := tc.createMidiBuffer
  renderLoop tc unit midiBuffer tc.renderWindows processor outputBuffer

/-! ## Golden files -/

/-- The private method `saveToWavFile`: a file already at the path is deleted; when a writer
can be created the buffer is written with 16 bits per sample and the result is `true`,
otherwise the result is `false`.  The header of the file written holds the sample rate as an
integer, the fractional part of the `double` being dropped. -/
def saveToWavFile (tc : GoldenAudioTestCase) (wav : WavWriter) (files : FileSystem)
    (buffer : AudioBuffer) (outputPath : String) : Bool × FileSystem :=
  let files := files.deleteFile outputPath
  if wav.createWriterFor outputPath tc.sampleRate buffer.getNumChannels then
    (true, files.write outputPath (FileEntry.audio
      ⟨(castToInt tc.sampleRate : ℚ), buffer.getNumChannels, buffer.getNumSamples,
        buffer.channels.map (fun samples => samples.map wav.pcm16)⟩))
  else
    (false, if wav.streamLeavesFile outputPath then files.write outputPath FileEntry.unreadable
      else files)

/-- The method `generateGoldenAudio`: the rendering followed by `saveToWavFile`; an exception
derived from `std::exception` is caught and turned into the result `false`, any other
exception leaves the call. -/
def generateGoldenAudio {σ : Type} (tc : GoldenAudioTestCase) (unit : AudioProcessor σ)
    (wav : WavWriter) (processor : σ) (files : FileSystem) (outputPath : String) :
    CallResult σ :=
  match tc.render unit processor with
  | Except.ok (processor, outputBuffer) =>
    let saved := tc.saveToWavFile wav files outputBuffer outputPath
    ⟨Completion.returned saved.1, processor, saved.2⟩
  | Except.error (processor, Thrown.stdException _) =>
    ⟨Completion.returned false, processor, files⟩
  | Except.error (processor, Thrown.other) =>
    ⟨Completion.propagated Thrown.other, processor, files⟩

/-- The constant `std::numeric_limits<float>::max ()`. -/
def floatMax : ℚ := 340282346638528859811704183484516925440

/-- The two nested loops of `calculateRMSDifference`: the running values of
`sumSquaredDifference` and `totalSamples` after all channels and samples.  The difference,
its square and the new sum are `float` values, each rounded when it is computed. -/
def accumulateDifference (buffer1 buffer2 : AudioBuffer) : ℚ × Int :=
  (List.range buffer1.getNumChannels).foldl
    (fun acc channel =>
      (List.range buffer1.getNumSamples).foldl
        (fun acc sample =>
          let difference :=
            roundToFloat (buffer1.getSample channel sample - buffer2.getSample channel sample)
          (roundToFloat (acc.1 + roundToFloat (difference * difference)), acc.2 + 1))
        acc)
    (0, 0)

/-- The private method `calculateRMSDifference`; `sqrt` stands for `std::sqrt` on `float`
values.  In `sumSquaredDifference / totalSamples` the `int` is converted to `float` and the
quotient is a `float`. -/
def calculateRMSDifference (sqrt : ℚ → ℚ) (buffer1 buffer2 : AudioBuffer) : ℚ :=
  if buffer1.getNumChannels ≠ buffer2.getNumChannels
      ∨ buffer1.getNumSamples ≠ buffer2.getNumSamples then
    floatMax
  else
    let acc := accumulateDifference buffer1 buffer2
    if acc.2 = 0 then 0 else sqrt (roundToFloat (acc.1 / roundToFloat (acc.2 : ℚ)))

/-- The part of `compareWithGoldenAudio` that follows a successful rendering into
`tempPath`: the checks on the two files, the comparison, and the deletion of the temporary
file.  The result is the value returned and the files left. -/
def compareFiles (tc : GoldenAudioTestCase) (sqrt : ℚ → ℚ) (files : FileSystem)
    (goldenPath tempPath : String) : Bool × FileSystem :=
  if (files goldenPath).isNone then
    (false, files.deleteFile tempPath)
  else
    match files.createReaderFor goldenPath, files.createReaderFor tempPath with
    | some goldenReader, some tempReader =>
      if goldenReader.sampleRate ≠ tempReader.sampleRate
          ∨ goldenReader.numChannels ≠ tempReader.numChannels
          ∨ goldenReader.lengthInSamples ≠ tempReader.lengthInSamples then
        (false, files.deleteFile tempPath)
      else
        let numSamples := goldenReader.lengthInSamples
        let goldenBuffer := goldenReader.read goldenReader.numChannels numSamples
        let tempBuffer := tempReader.read tempReader.numChannels numSamples
        let rmsDifference := calculateRMSDifference sqrt goldenBuffer tempBuffer
        let passed := decide (rmsDifference ≤ tc.comparisonTolerance)
        (passed, files.deleteFile tempPath)
    | _, _ => (false, files.deleteFile tempPath)

/-- The method `compareWithGoldenAudio`. -/
def compareWithGoldenAudio {σ : Type} (tc : GoldenAudioTestCase) (unit : AudioProcessor σ)
    (wav : WavWriter) (sqrt : ℚ → ℚ) (processor : σ) (files : FileSystem)
    (goldenPath : String) : CallResult σ :=
  let tempPath := goldenPath ++ ".temp.wav"
  let generated := tc.generateGoldenAudio unit wav processor files tempPath
  match generated.completion with
  | Completion.propagated exception =>
    ⟨Completion.propagated exception, generated.processor, generated.files⟩
  | Completion.returned false =>
    ⟨Completion.returned false, generated.processor, generated.files⟩
  | Completion.returned true =>
    let compared := tc.compareFiles sqrt generated.files goldenPath tempPath
    ⟨Completion.returned compared.1, generated.processor, compared.2⟩

end GoldenAudioTestCase

/-! ## The test suite -/

/-- Test suite manager (`class GoldenAudioTestSuite`). -/
structure GoldenAudioTestSuite where
  testCases : List GoldenAudioTestCase := []
  passedTests : Int := 0
  failedTests : Int := 0
deriving DecidableEq, Repr

/-- The outcome of a call on the suite: how the call ended, and the suite, the unit and the
files as the call left them. -/
structure SuiteResult (σ : Type) where
  completion : Completion
  suite : GoldenAudioTestSuite
  processor : σ
  files : FileSystem

namespace GoldenAudioTestSuite

def addTest (suite : GoldenAudioTestSuite) (testCase : GoldenAudioTestCase) :
    GoldenAudioTestSuite :=
  { suite with testCases := suite.testCases ++ [testCase] }

def getPassedCount (suite : GoldenAudioTestSuite) : Int := suite.passedTests

def getFailedCount (suite : GoldenAudioTestSuite) : Int := suite.failedTests

/-- The loop of `runAllTests` over the test cases still to run.  `compare testCase processor
files goldenPath` stands for the call `testCase->compareWithGoldenAudio (processor,
goldenPath)`, a virtual call through the stored pointer. -/
def runLoop {σ : Type}
    (compare : GoldenAudioTestCase → σ → FileSystem → String → CallResult σ)
    (goldenDirectory : String) :
    List GoldenAudioTestCase → Bool → GoldenAudioTestSuite → σ → FileSystem → SuiteResult σ
  | [], allPassed, suite, processor, files =>
    ⟨Completion.returned allPassed, suite, processor, files⟩
  | testCase :: rest, allPassed, suite, processor, files =>
    let goldenPath := goldenDirectory ++ "/" ++ testCase.testName ++ ".wav"
    let compared := compare testCase processor files goldenPath
    match compared.completion with
    | Completion.returned true =>
      runLoop compare goldenDirectory rest allPassed
        { suite with passedTests := suite.passedTests + 1 } compared.processor compared.files
    | Completion.returned false =>
      runLoop compare goldenDirectory rest false
        { suite with failedTests := suite.failedTests + 1 } compared.processor compared.files
    | Completion.propagated exception =>
      ⟨Completion.propagated exception, suite, compared.processor, compared.files⟩

/-- The method `runAllTests`, for test cases whose comparison is `compare`. -/
def runAllTestsWith {σ : Type} (suite : GoldenAudioTestSuite)
    (compare : GoldenAudioTestCase → σ → FileSystem → String → CallResult σ)
    (processor : σ) (files : FileSystem) (goldenDirectory : String) : SuiteResult σ :=
  runLoop compare goldenDirectory suite.testCases true
    { suite with passedTests := 0, failedTests := 0 } processor files

/-- The method `runAllTests` for test cases that use the methods of the base class. -/
def runAllTests {σ : Type} (suite : GoldenAudioTestSuite) (unit : AudioProcessor σ)
    (wav : WavWriter) (sqrt : ℚ → ℚ) (processor : σ) (files : FileSystem)
    (goldenDirectory : String) : SuiteResult σ :=
  suite.runAllTestsWith
    (fun testCase processor files goldenPath =>
      testCase.compareWithGoldenAudio unit wav sqrt processor files goldenPath)
    processor files goldenDirectory

/-- The loop of `generateAllGoldenAudio` over the test cases still to render; the messages
printed are not modelled. -/
def generateLoop {σ : Type} (unit : AudioProcessor σ) (wav : WavWriter)
    (outputDirectory : String) :
    List GoldenAudioTestCase → σ → FileSystem → CallResult σ
  | [], processor, files => ⟨Completion.returned true, processor, files⟩
  | testCase :: rest, processor, files =>
    let outputPath := outputDirectory ++ "/" ++ testCase.testName ++ ".wav"
    let generated := testCase.generateGoldenAudio unit wav processor files outputPath
    match generated.completion with
    | Completion.returned _ =>
      generateLoop unit wav outputDirectory rest generated.processor generated.files
    | Completion.propagated exception =>
      ⟨Completion.propagated exception, generated.processor, generated.files⟩

/-- The method `generateAllGoldenAudio` (its return type is `void`: the value returned is
always `true` here). -/
def generateAllGoldenAudio {σ : Type} (suite : GoldenAudioTestSuite) (unit : AudioProcessor σ)
    (wav : WavWriter) (processor : σ) (files : FileSystem) (outputDirectory : String) :
    CallResult σ :=
  generateLoop unit wav outputDirectory suite.testCases processor files

end GoldenAudioTestSuite

/-- The comparisons of a suite run as the specification words it: every test case is compared,
in registration order, each comparison starting from the unit and the files as the previous
one left them, whatever the earlier outcomes.  The result lists, for each case, whether its
comparison returned `true`, and gives the unit and the files after the last case. -/
def compareEveryCase {σ : Type}
    (compare : GoldenAudioTestCase → σ → FileSystem → String → CallResult σ)
    (goldenDirectory : String) :
    List GoldenAudioTestCase → σ → FileSystem → List Bool × σ × FileSystem
  | [], processor, files => ([], processor, files)
  | testCase :: rest, processor, files =>
    let compared := compare testCase processor files
      (goldenDirectory ++ "/" ++ testCase.testName ++ ".wav")
    let later := compareEveryCase compare goldenDirectory rest compared.processor compared.files
    (decide (compared.completion = Completion.returned true) :: later.1, later.2)

/-! ## Sequential processing, as the specification words it -/

/-- A unit given as a state-transition function `step` processes a sequence of block inputs
one after the other: the state entering a block is the state left by the block before it.
The result is the state left by the last block and the block buffers produced, in order. -/
def playBlocks {σ : Type} (step : σ → AudioBuffer → MidiBuffer → σ × AudioBuffer) :
    List (AudioBuffer × MidiBuffer) → σ → σ × List AudioBuffer
  | [], state => (state, [])
  | input :: rest, state =>
    let result := step state input.1 input.2
    let later := playBlocks step rest result.1
    (later.1, result.2 :: later.2)

/-- Windows that follow one another without a gap from sample `start` on, none of them of
negative size. -/
def ContiguousFrom : Nat → List (Int × Int) → Prop
  | _, [] => True
  | start, window :: rest =>
    window.1 = (start : Int) ∧ 0 ≤ window.2 ∧ ContiguousFrom (start + window.2.toNat) rest

/-! ## Mock units -/

/-- The unit whose `processBlock` is the state-transition function `step` (the call always
returns) and whose other operations are those of `base`. -/
def AudioProcessor.withTransition {σ : Type} (base : AudioProcessor σ)
    (step : σ → AudioBuffer → MidiBuffer → σ × AudioBuffer) : AudioProcessor σ :=
  { base with processBlock := fun state buffer midiMessages =>
      BlockResult.ok (step state buffer midiMessages).1 (step state buffer midiMessages).2 }

/-- A mock unit that ignores its configuration, exposes no parameter and leaves every block
as it is. -/
def idleUnit (σ : Type) : AudioProcessor σ where
  setPlayConfigDetails := fun state _ _ _ _ => state
  prepareToPlay := fun state _ _ => state
  processBlock := fun state buffer _ => BlockResult.ok state buffer
  getParameters := fun _ => []
  setValueNotifyingHost := fun state _ _ => state

/-- A mock unit that records its `processBlock` calls: its state is the list of the block
buffers and event buffers it has received so far, and it leaves the block buffer as it is. -/
def callRecorder : AudioProcessor (List (AudioBuffer × MidiBuffer)) where
  setPlayConfigDetails := fun calls _ _ _ _ => calls
  prepareToPlay := fun calls _ _ => calls
  processBlock := fun calls buffer midiMessages =>
    BlockResult.ok (calls ++ [(buffer, midiMessages)]) buffer
  getParameters := fun _ => []
  setValueNotifyingHost := fun calls _ _ => calls

/-- A mock unit that counts its `processBlock` calls and fails in the second one: the first
call and the calls after the second leave the block as it is, the second call throws
`exception`. -/
def faultyUnit (exception : Thrown) : AudioProcessor Nat where
  setPlayConfigDetails := fun calls _ _ _ _ => calls
  prepareToPlay := fun calls _ _ => calls
  processBlock := fun calls buffer _ =>
    if calls = 1 then BlockResult.threw (calls + 1) exception
    else BlockResult.ok (calls + 1) buffer
  getParameters := fun _ => []
  setValueNotifyingHost := fun calls _ _ => calls

/-- A writer that can always be created and reads back every sample as it was written. -/
def exactWriter : WavWriter where
  createWriterFor := fun _ _ _ => true
  pcm16 := fun sample => sample
  streamLeavesFile := fun _ => false

/-- A machine without files. -/
def noFiles : FileSystem := fun _ => none

/-- A machine whose only file is a golden file `golden.wav` of two channels at 10 Hz, all of
whose `length` samples have the value `level`. -/
def constantGolden (length : Nat) (level : ℚ) : FileSystem :=
  noFiles.write "golden.wav" (FileEntry.audio
    ⟨10, 2, length, List.replicate 2 (List.replicate length level)⟩)

/-- The transition function of a mock generator with running state: the state is the number
of samples produced so far, and sample `i` of every channel of a block is that number plus
`i`. -/
def rampStep (produced : ℚ) (buffer : AudioBuffer) (_midiMessages : MidiBuffer) :
    ℚ × AudioBuffer :=
  (produced + buffer.numSamples,
    ⟨buffer.numSamples, buffer.channels.map (fun samples =>
      (List.range samples.length).map (fun (i : Nat) => produced + (i : ℚ)))⟩)

/-- The mock generator with transition function `rampStep`. -/
def rampUnit : AudioProcessor ℚ := (idleUnit ℚ).withTransition rampStep

/-! ## Concrete test cases -/

/-- The configuration built by the constructor of `SimpleSynthBasicTest`
(`examples/simple_synth/SimpleSynthTest.cpp`). -/
def SimpleSynthBasicTest : GoldenAudioTestCase :=
  (((((GoldenAudioTestCase.mk "basic_note" "Test basic note playback" 5 44100 512 defaultTolerance
    [] [] 0 2).setDuration 2).setSampleRate 44100).setBufferSize 512).addNote 60 (4 / 5)
    (roundToDouble (1 / 10)) (3 / 2)).addParameter "gain" (7 / 10)

/-- The configuration built by the constructor of `SimpleSynthChordTest`. -/
def SimpleSynthChordTest : GoldenAudioTestCase :=
  (((GoldenAudioTestCase.mk "chord_test" "Test chord playback" 5 44100 512 defaultTolerance
    [] [] 0 2).setDuration 2).addChord [60, 64, 67] (3 / 5) (1 / 2) 1).addParameter "gain" (1 / 2)

/-- A test case whose only note starts ten microseconds before time zero:
`addNote(60, 0.8f, -0.00001, 1.0)` with the default settings. -/
def earlyNoteCase : GoldenAudioTestCase :=
  (GoldenAudioTestCase.mk "early_note" "" 5 44100 512 defaultTolerance [] [] 0 2).addNote 60 (4 / 5)
    (roundToDouble (-1 / 100000)) 1

/-- A test case whose only note starts at 0.3 s and lasts one second:
`addNote (60, 0.8f, 0.3, 1.0)` with the default settings.  The `double` nearest to 0.3 lies
below 0.3, and its product with 44100 is rounded up to 13230. -/
def roundedNoteCase : GoldenAudioTestCase :=
  (GoldenAudioTestCase.mk "rounded_note" "" 5 44100 512 defaultTolerance [] [] 0 2).addNote 60
    (4 / 5) (roundToDouble (3 / 10)) 1

/-- A test case that declares a late note first and an early note second:
`addNote(60, 0.8f, 1.0, 1.0)` and then `addNote(62, 0.8f, 0.0, 0.5)`, default settings. -/
def lateThenEarlyCase : GoldenAudioTestCase :=
  ((GoldenAudioTestCase.mk "late_then_early" "" 5 44100 512 defaultTolerance [] [] 0 2).addNote 60
    (4 / 5) 1 1).addNote 62 (4 / 5) 0 (1 / 2)

/-- A silent test case of 0.1875 s with the default settings (`setDuration (0.1875)`):
`0.1875 * 44100 = 8268.75`. -/
def fractionalDurationCase : GoldenAudioTestCase :=
  (GoldenAudioTestCase.mk "fractional_duration" "" 5 44100 512 defaultTolerance [] [] 0 2).setDuration
    (3 / 16)

/-- A silent test case of 0.3 s with the default settings (`setDuration (0.3)`): the `double`
nearest to 0.3 lies below 0.3, and its product with 44100 is rounded up to 13230. -/
def roundedUpDurationCase : GoldenAudioTestCase :=
  (GoldenAudioTestCase.mk "rounded_up_duration" "" 5 44100 512 defaultTolerance [] []
    0 2).setDuration (roundToDouble (3 / 10))

/-- A silent test case of 0.7 s with the default settings (`setDuration (0.7)`): the `double`
nearest to 0.7 lies below 0.7, and its product with 44100 is rounded to the `double` just
below 30870. -/
def roundedDownDurationCase : GoldenAudioTestCase :=
  (GoldenAudioTestCase.mk "rounded_down_duration" "" 5 44100 512 defaultTolerance [] []
    0 2).setDuration (roundToDouble (7 / 10))

/-- A silent test case of one second at 10 Hz, rendered in blocks of 4 samples: 10 samples in
blocks of 4, 4 and 2. -/
def tinyCase : GoldenAudioTestCase :=
  (((GoldenAudioTestCase.mk "tiny" "" 5 44100 512 defaultTolerance [] [] 0 2).setDuration
    1).setSampleRate 10).setBufferSize 4

/-- The test case `tinyCase` with a negative block size (`setBufferSize (-1)`). -/
def negativeBlockCase : GoldenAudioTestCase := tinyCase.setBufferSize (-1)

/-- A suite of two silent test cases, `missing` registered before `tiny`. -/
def twoCaseSuite : GoldenAudioTestSuite :=
  ((GoldenAudioTestSuite.mk [] 0 0).addTest
    { tinyCase with testName := "missing" }).addTest tinyCase

/-- A machine whose only file is a golden file for the test case `tiny`: two channels of ten
zero samples at 10 Hz, stored as `golden_files/tiny.wav`. -/
def tinyGoldenOnly : FileSystem :=
  noFiles.write "golden_files/tiny.wav" (FileEntry.audio
    ⟨10, 2, 10, List.replicate 2 (List.replicate 10 0)⟩)

/-- Three events, at samples 1024, 0 and 512, in the order in which they are added to a
buffer. -/
def boundaryEvents : List MidiEvent :=
  [MidiEvent.mk (MidiMessage.noteOff 1 60 0) 1024,
    MidiEvent.mk (MidiMessage.noteOn 1 60 (4 / 5)) 0,
    MidiEvent.mk (MidiMessage.noteOn 1 64 (4 / 5)) 512]

end GoldenAudio


namespace GoldenAudio

open GoldenAudioTestCase

/-! ## Parameter binding: observing the setter calls -/

/-- The unit `unit` with a log of its `setValueNotifyingHost` calls: the state carries, next
to the state of `unit`, the pairs (parameter index, value) of the setter calls made so far,
oldest first.  Every operation acts on the state of `unit` as `unit` does. -/
def AudioProcessor.recordingSetters {σ : Type} (unit : AudioProcessor σ) :
    AudioProcessor (σ × List (Nat × ℚ)) where
  setPlayConfigDetails := fun state ins outs rate size =>
    (unit.setPlayConfigDetails state.1 ins outs rate size, state.2)
  prepareToPlay := fun state rate size => (unit.prepareToPlay state.1 rate size, state.2)
  processBlock := fun state buffer midiMessages =>
    match unit.processBlock state.1 buffer midiMessages with
    | BlockResult.ok processor buffer => BlockResult.ok (processor, state.2) buffer
    | BlockResult.threw processor exception => BlockResult.threw (processor, state.2) exception
  getParameters := fun state => unit.getParameters state.1
  setValueNotifyingHost := fun state index value =>
    (unit.setValueNotifyingHost state.1 index value, state.2 ++ [(index, value)])

/-- The setter calls that a list of bindings stands for when the bindings are taken one after
the other in the order of their declaration: a binding whose name is the name of a parameter
gives one call, on the first parameter of that name, and a binding whose name is the name of no
parameter gives none.  The names are those the unit exposes when the binding is reached. -/
def bindingCalls {σ : Type} (unit : AudioProcessor σ) : List ParameterState → σ → List (Nat × ℚ)
  | [], _ => []
  | binding :: rest, processor =>
    match (unit.getParameters processor).indexOf? binding.parameterName with
    | none => bindingCalls unit rest processor
    | some index =>
      (index, binding.value)
        :: bindingCalls unit rest (unit.setValueNotifyingHost processor index binding.value)

/-- What the harness relies on in the parameters of a unit, `getValue state i` being the value
that parameter `i` holds in state `state`: a setter call leaves the names of the parameters as
they are, the parameter it is made on holds the value of the call afterwards, and every other
parameter holds the value it held before. -/
structure ParameterContract {σ : Type} (unit : AudioProcessor σ) (getValue : σ → Nat → ℚ) :
    Prop where
  names_fixed : ∀ state index value,
    unit.getParameters (unit.setValueNotifyingHost state index value) = unit.getParameters state
  value_set : ∀ state index value, index < (unit.getParameters state).length →
    getValue (unit.setValueNotifyingHost state index value) index = value
  value_other : ∀ state index value other, other ≠ index →
    getValue (unit.setValueNotifyingHost state index value) other = getValue state other

/-- A parameter of a mock unit: its name and the value it holds. -/
structure AudioParameter where
  name : String
  value : ℚ
deriving DecidableEq, Repr

/-- The parameters `parameters` after the value `value` has been stored in the parameter with
index `index`, if there is one. -/
def storeValue : List AudioParameter → Nat → ℚ → List AudioParameter
  | [], _, _ => []
  | parameter :: rest, 0, value => { parameter with value := value } :: rest
  | parameter :: rest, index + 1, value => parameter :: storeValue rest index value

/-- A mock unit whose state is the list of its parameters: a setter call stores the value in
the parameter with the given index, and nothing else happens in the unit. -/
def parameterUnit : AudioProcessor (List AudioParameter) where
  setPlayConfigDetails := fun parameters _ _ _ _ => parameters
  prepareToPlay := fun parameters _ _ => parameters
  processBlock := fun parameters buffer _ => BlockResult.ok parameters buffer
  getParameters := fun parameters => parameters.map (fun parameter => parameter.name)
  setValueNotifyingHost := storeValue

/-- The value held by parameter `index` of the mock unit `parameterUnit` (zero when there is
no such parameter). -/
def parameterValue (parameters : List AudioParameter) (index : Nat) : ℚ :=
  match parameters[index]? with
  | some parameter => parameter.value
  | none => 0

/-- A state of `parameterUnit` with the parameters `gain` and `cutoff`, in that order, both
holding the value 1. -/
def gainThenCutoff : List AudioParameter := [⟨"gain", 1⟩, ⟨"cutoff", 1⟩]

/-- The test case `tinyCase` with two bindings, declared in the order `cutoff`, `gain`:
`addParameter ("cutoff", 0.5f)`, then `addParameter ("gain", 0.7f)`. -/
def cutoffThenGainCase : GoldenAudioTestCase :=
  (tinyCase.addParameter "cutoff" (1 / 2)).addParameter "gain" (7 / 10)

/-- The test case `tinyCase` with a binding for a name that is the name of no parameter of
`gainThenCutoff`, declared before a binding for `gain`. -/
def unknownNameCase : GoldenAudioTestCase :=
  (tinyCase.addParameter "resonance" (1 / 4)).addParameter "gain" (7 / 10)

/-- The test case `tinyCase` with three bindings, two of them for `gain`:
`addParameter ("gain", 0.2f)`, `addParameter ("cutoff", 0.5f)`, `addParameter ("gain", 0.7f)`. -/
def repeatedGainCase : GoldenAudioTestCase :=
  ((tinyCase.addParameter "gain" (1 / 5)).addParameter "cutoff" (1 / 2)).addParameter "gain"
    (7 / 10)

/-! ## The runs of the rendering that are defined -/

/-- The values of a `double` for which `static_cast<int>` is defined: the value without its
fractional part is an `int`. -/
def InIntRange (x : ℚ) : Prop := -2147483649 < x ∧ x < 2147483648

instance (x : ℚ) : Decidable (InIntRange x) := by
  unfold InIntRange
  infer_instance

/-- The values of type `int`. -/
def IsInt (n : Int) : Prop := -2147483648 ≤ n ∧ n ≤ 2147483647

instance (n : Int) : Decidable (IsInt n) := by
  unfold IsInt
  infer_instance

/-- The runs of `generateGoldenAudio` in which every operation of the harness is defined: the
conversions to `int` of line 77 and of `createMidiBuffer` are applied to values in range, the
block size by which line 78 divides is not zero and the sums of that line are values of type
`int`, the output buffer and the block buffers are constructed with a number of samples that
is not negative, and every block that `copyFrom` copies lies inside the output buffer. -/
def GoldenAudioTestCase.DefinedRun (tc : GoldenAudioTestCase) : Prop :=
  InIntRange (roundToDouble (tc.testDurationSeconds * tc.sampleRate))
    ∧ (∀ note ∈ tc.midiSequence,
        InIntRange (roundToDouble (note.startTime * tc.sampleRate))
          ∧ InIntRange
            (roundToDouble (roundToDouble (note.startTime + note.duration) * tc.sampleRate)))
    ∧ tc.bufferSize ≠ 0
    ∧ 0 ≤ tc.totalSamples
    ∧ IsInt tc.bufferSize
    ∧ IsInt (tc.totalSamples + tc.bufferSize)
    ∧ IsInt (tc.totalSamples + tc.bufferSize - 1)
    ∧ ∀ window ∈ tc.renderWindows,
        0 ≤ window.1 ∧ 0 ≤ window.2 ∧ window.1 + window.2 ≤ tc.totalSamples

instance (tc : GoldenAudioTestCase) : Decidable tc.DefinedRun := by
  unfold GoldenAudioTestCase.DefinedRun
  infer_instance

/-- The test case `tinyCase` with a block size of -1 and a duration of 0.1 s, one sample at
10 Hz: the loop runs one iteration, for a block of -1 samples. -/
def negativeBlockOneSampleCase : GoldenAudioTestCase :=
  (tinyCase.setBufferSize (-1)).setDuration (roundToDouble (1 / 10))

/-! ## Configurations and writers for the checks on validation and on the scratch file -/

/-- The test case `tinyCase` with a note of negative duration:
`addNote (60, 0.8f, 0.5, -0.25)`. -/
def negativeDurationCase : GoldenAudioTestCase := tinyCase.addNote 60 (4 / 5) (1 / 2) (-1 / 4)

/-- The test case `tinyCase` with a sample rate of zero (`setSampleRate (0.0)`). -/
def zeroRateCase : GoldenAudioTestCase := tinyCase.setSampleRate 0

/-- A writer that can never be created, on a machine where the output stream opened for it has
created the file by then. -/
def refusingWriter : WavWriter where
  createWriterFor := fun _ _ _ => false
  pcm16 := fun sample => sample
  streamLeavesFile := fun _ => true

/-- A suite whose only test case is `tinyCase`. -/
def tinySuite : GoldenAudioTestSuite := (GoldenAudioTestSuite.mk [] 0 0).addTest tinyCase

/-- A machine whose only file is a golden file for the test case `tiny` stored under the name
`golden_files/tiny.golden`: two channels of ten zero samples at 10 Hz. -/
def tinyDotGoldenOnly : FileSystem :=
  noFiles.write "golden_files/tiny.golden" (FileEntry.audio
    ⟨10, 2, 10, List.replicate 2 (List.replicate 10 0)⟩)

/-- The test case `tinyCase` with a tolerance of zero (`setTolerance (0.0f)`). -/
def zeroToleranceCase : GoldenAudioTestCase := tinyCase.setTolerance 0

/-! ## The sum of the squared differences of two files -/

/-- The value of `sumSquaredDifference` after the two loops of `calculateRMSDifference` on the
samples of two files of the shape of `golden`: channel by channel and, within a channel, sample
by sample, the difference of the two samples is squared and added to the running sum, each of
the three results being a `float`. -/
def floatSumSquares (golden rendered : AudioData) : ℚ :=
  (List.range golden.numChannels).foldl
    (fun sum channel =>
      (List.range golden.lengthInSamples.toNat).foldl
        (fun sum position =>
          roundToFloat (sum + roundToFloat
            (roundToFloat (golden.sample channel position - rendered.sample channel position)
              * roundToFloat
                (golden.sample channel position - rendered.sample channel position))))
        sum)
    0

/-! ## Delivery of the events, as the specification words it -/

/-- The events that block `block` of a rendering receives from the event buffer `source`, as
the specification words it: the events of `source` whose sample offset `p` satisfies
`0 ≤ p < totalSamples` and `floor (p / blockSize) = block`, each at the offset
`p mod blockSize` relative to the start of the block, in the order of `source`. -/
def GoldenAudioTestCase.eventsOfBlock (tc : GoldenAudioTestCase) (source : MidiBuffer)
    (block : Nat) : MidiBuffer :=
  (source.filter (fun event =>
      decide (0 ≤ event.samplePosition ∧ event.samplePosition < tc.totalSamples
        ∧ event.samplePosition / tc.bufferSize = (block : Int)))).map
    (fun event => MidiEvent.mk event.message (event.samplePosition % tc.bufferSize))

/-- The test case `tinyCase` (10 samples in blocks of 4) with a note that starts at sample 5
and ends at sample 15, after the end of the rendering: `addNote (60, 0.8f, 0.5, 1.0)`. -/
def lateEndCase : GoldenAudioTestCase := tinyCase.addNote 60 (4 / 5) (1 / 2) 1

/-! ## The two events of a note under an arbitrary rounding -/

/-- The sample positions of the note-on and of the note-off of `note` as `createMidiBuffer`
computes them when every operation on `double` values gives its exact result rounded by
`round`: the product `note.startTime * sampleRate` is rounded once; in
`(note.startTime + note.duration) * sampleRate` the sum is rounded and then the product. -/
def roundedNoteSamples (round : ℚ → ℚ) (sampleRate : ℚ) (note : MidiNote) : Int × Int :=
  (castToInt (round (note.startTime * sampleRate)),
    castToInt (round (round (note.startTime + note.duration) * sampleRate)))

/-- A note of one sample period at 44100 Hz that starts at 4 s:
`addNote (60, 0.8f, 4.0, 1.0 / 44100.0)`.  The duration is the `double` nearest
to 1/44100, which is `6692696262570359 / 2 ^ 68`. -/
def oneSampleNote : MidiNote := ⟨60, 4 / 5, 4, 6692696262570359 / 295147905179352825856⟩

end GoldenAudio

namespace GoldenAudio

open GoldenAudioTestCase

/-! ## The example unit `SimpleSynth` (`examples/simple_synth/SimpleSynth.h`) -/

namespace AudioBuffer

/-- The library call `clear ()`: every sample becomes zero. -/
def clear (buffer : AudioBuffer) : AudioBuffer :=
  { buffer with channels := buffer.channels.map (fun samples => samples.map (fun _ => 0)) }

/-- The library call `setSample (destChannel, destSample, newValue)`. -/
def setSample (buffer : AudioBuffer) (destChannel destSample : Nat) (newValue : ℚ) :
    AudioBuffer :=
  let updated := (buffer.channel destChannel).set destSample newValue
  { buffer with channels := buffer.channels.set destChannel updated }

/-- A buffer all of whose samples are zero. -/
def Silent (buffer : AudioBuffer) : Prop :=
  ∀ samples ∈ buffer.channels, ∀ sample ∈ samples, sample = 0

end AudioBuffer

namespace MidiMessage

/-- The velocity byte that the factory calls with a `float` velocity store:
`roundToInt (velocity * 127.0f)`, limited to the range from 0 to 127. -/
def velocityByte (velocity : ℚ) : Int := max 0 (min 127 (roundHalfEven (velocity * 127)))

/-- The library call `isNoteOn ()`: a note-on message whose velocity byte is not zero. -/
def isNoteOn : MidiMessage → Bool
  | noteOn _ _ velocity => decide (velocityByte velocity ≠ 0)
  | noteOff _ _ _ => false

/-- The library call `isNoteOff ()`: a note-off message, or a note-on message whose velocity
byte is zero. -/
def isNoteOff : MidiMessage → Bool
  | noteOn _ _ velocity => decide (velocityByte velocity = 0)
  | noteOff _ _ _ => true

/-- The library call `getNoteNumber ()`: the factory calls store `noteNumber & 127`. -/
def getNoteNumber : MidiMessage → Int
  | noteOn _ noteNumber _ => noteNumber % 128
  | noteOff _ noteNumber _ => noteNumber % 128

end MidiMessage

/-- The state of a `SimpleSynth` object: the value of its parameter `gainParam`, what the base
class keeps of `setPlayConfigDetails`, the sample rate and the numbers of voices and sounds of
the member `synth`, and the four data members `currentSampleRate`, `currentPhase`,
`currentNote` and `isPlaying`. -/
structure SimpleSynth where
  gain : ℚ
  playConfigDetails : Nat × Nat × ℚ × Int
  synthSampleRate : ℚ
  synthVoices : Nat
  synthSounds : Nat
  currentSampleRate : ℚ
  currentPhase : ℚ
  currentNote : Int
  isPlaying : Bool
deriving DecidableEq, Repr

namespace SimpleSynth

/-- A newly constructed `SimpleSynth`: the parameter has its default value 0.7, and the data
members have their default member initialisers. -/
def new : SimpleSynth :=
  { gain := 7 / 10
    playConfigDetails := (0, 2, 0, 0)
    synthSampleRate := 0
    synthVoices := 0
    synthSounds := 0
    currentSampleRate := 44100
    currentPhase := 0
    currentNote := 60
    isPlaying := false }

/-- The method `prepareToPlay`: the sample rate is stored, and eight voices and a sound are
added to the member `synth`. -/
def prepareToPlay (synth : SimpleSynth) (sampleRate : ℚ) (_samplesPerBlock : Int) :
    SimpleSynth :=
  { synth with
    currentSampleRate := sampleRate
    synthSampleRate := sampleRate
    synthVoices := synth.synthVoices + 8
    synthSounds := synth.synthSounds + 1 }

/-- The body of the loop of `processBlock` over the messages of the block. -/
def handleMessage (synth : SimpleSynth) (message : MidiMessage) : SimpleSynth :=
  if message.isNoteOn then
    { synth with currentNote := message.getNoteNumber, currentPhase := 0, isPlaying := true }
  else if message.isNoteOff then
    if synth.currentNote = message.getNoteNumber then { synth with isPlaying := false }
    else synth
  else synth

/-- The body of the loop of `processBlock` over the samples of the block: the sample value is
written to every channel and the phase advances.  `sine phase` stands for
`std::sin (phase * 2.0 * pi)`. -/
def writeSample (sine : ℚ → ℚ) (phaseIncrement gain : ℚ) (state : SimpleSynth × AudioBuffer)
    (sample : Nat) : SimpleSynth × AudioBuffer :=
  let sampleValue := sine state.1.currentPhase * gain
  let buffer := (List.range state.2.getNumChannels).foldl
    (fun buffer channel => buffer.setSample channel sample sampleValue) state.2
  let currentPhase := state.1.currentPhase + phaseIncrement
  ({ state.1 with currentPhase := if currentPhase ≥ 1 then currentPhase - 1 else currentPhase },
    buffer)

/-- The method `processBlock`.  `noteInHertz` stands for
`juce::MidiMessage::getMidiNoteInHertz` and `sine phase` for `std::sin (phase * 2.0 * pi)`. -/
def processBlock (noteInHertz : Int → ℚ) (sine : ℚ → ℚ) (synth : SimpleSynth)
    (buffer : AudioBuffer) (midiMessages : MidiBuffer) : SimpleSynth × AudioBuffer :=
  let buffer := buffer.clear
  let synth := midiMessages.foldl (fun synth metadata => synth.handleMessage metadata.message)
    synth
  if synth.isPlaying then
    let frequency := noteInHertz synth.currentNote
    let phaseIncrement := frequency / synth.currentSampleRate
    let gain := synth.gain
    (List.range buffer.getNumSamples).foldl (writeSample sine phaseIncrement gain)
      (synth, buffer)
  else (synth, buffer)

end SimpleSynth

/-- The unit `SimpleSynth` as the harness sees it.  Its one parameter is constructed as
`AudioParameterFloat ("gain", "Gain", 0.0f, 1.0f, 0.7f)`: the identifier is `gain` and the
name, which `getName (100)` returns, is `Gain`; `setValueNotifyingHost` stores the value,
limited to the range of the parameter. -/
def simpleSynthUnit (noteInHertz : Int → ℚ) (sine : ℚ → ℚ) : AudioProcessor SimpleSynth where
  setPlayConfigDetails := fun synth ins outs rate size =>
    { synth with playConfigDetails := (ins, outs, rate, size) }
  prepareToPlay := SimpleSynth.prepareToPlay
  processBlock := fun synth buffer midiMessages =>
    BlockResult.ok (SimpleSynth.processBlock noteInHertz sine synth buffer midiMessages).1
      (SimpleSynth.processBlock noteInHertz sine synth buffer midiMessages).2
  getParameters := fun _ => ["Gain"]
  setValueNotifyingHost := fun synth index value =>
    if index = 0 then { synth with gain := max 0 (min 1 value) } else synth

/-- The value that parameter `index` of a `SimpleSynth` holds: the gain (`*gainParam`) for its
one parameter, and zero where there is no parameter. -/
def SimpleSynth.parameterValue (synth : SimpleSynth) (index : Nat) : ℚ :=
  if index = 0 then synth.gain else 0

/-- The value that the gain parameter of a `SimpleSynth` holds after a call of
`setValueNotifyingHost` with `value`: the value limited to the range from 0 to 1 of the
parameter. -/
def SimpleSynth.storedValue (_index : Nat) (value : ℚ) : ℚ := max 0 (min 1 value)

/-- The test case `tinyCase` with two bindings for the name `Gain`:
`addParameter ("Gain", 0.2f)`, then `addParameter ("Gain", 0.5f)`. -/
def repeatedSynthGainCase : GoldenAudioTestCase :=
  (tinyCase.addParameter "Gain" (roundToFloat (1 / 5))).addParameter "Gain" (1 / 2)

/-- The test case `tinyCase` with two bindings for the name `Gain`, the second with a value
outside the range of the parameter: `addParameter ("Gain", 0.2f)`, then
`addParameter ("Gain", 1.5f)`. -/
def outOfRangeGainCase : GoldenAudioTestCase :=
  (tinyCase.addParameter "Gain" (roundToFloat (1 / 5))).addParameter "Gain" (3 / 2)

/-- A stand-in for `juce::MidiMessage::getMidiNoteInHertz` in concrete runs: 440 Hz for
every note. -/
def concertPitch : Int → ℚ := fun _ => 440

/-- A stand-in for the sine of a phase in concrete runs: the sawtooth `2 * phase - 1`. -/
def sawtooth : ℚ → ℚ := fun phase => 2 * phase - 1

end GoldenAudio

namespace GoldenAudio

open GoldenAudioTestCase

/-! ## The conversion to `int` -/

/-- On non-negative values the conversion to `int` is the floor. -/
theorem castToInt_of_nonneg (x : ℚ) (hx : 0 ≤ x) : castToInt x = ⌊x⌋ := by
  unfold castToInt
  rw [Rat.floor_def, Int.tdiv_eq_ediv (Rat.num_nonneg.mpr hx) (Int.natCast_nonneg _)]

/-! ## Rounding to `double` is monotone -/

theorem twoPow_eq_zpow (exponent : Int) : twoPow exponent = (2 : ℚ) ^ exponent := by
  unfold twoPow
  split
  · next h =>
    obtain ⟨n, rfl⟩ := Int.eq_ofNat_of_zero_le h
    simp
  · next h =>
    obtain ⟨n, hn⟩ : ∃ n : Nat, exponent = -(n : Int) := ⟨(-exponent).toNat, by omega⟩
    subst hn
    simp

theorem twoPow_pos (exponent : Int) : 0 < twoPow exponent := by
  rw [twoPow_eq_zpow]
  positivity

theorem twoPow_le_twoPow {a b : Int} (h : a ≤ b) : twoPow a ≤ twoPow b := by
  rw [twoPow_eq_zpow, twoPow_eq_zpow]
  exact zpow_le_zpow_right₀ (by norm_num) h

theorem twoPow_add (a b : Int) : twoPow (a + b) = twoPow a * twoPow b := by
  rw [twoPow_eq_zpow, twoPow_eq_zpow, twoPow_eq_zpow, zpow_add₀ (by norm_num)]

theorem binaryDigits_bounds (fuel n : Nat) (hfuel : n ≤ fuel) (hn : n ≠ 0) :
    1 ≤ binaryDigits fuel n ∧ 2 ^ (binaryDigits fuel n - 1) ≤ n
      ∧ n < 2 ^ binaryDigits fuel n := by
  induction fuel generalizing n with
  | zero => omega
  | succ fuel ih =>
    rw [binaryDigits, if_neg hn]
    by_cases hhalf : n / 2 = 0
    · have hone : n = 1 := by omega
      subst hone
      cases fuel <;> simp [binaryDigits]
    · obtain ⟨h1, h2, h3⟩ := ih (n / 2) (by omega) hhalf
      refine ⟨by omega, ?_, ?_⟩
      · rw [Nat.add_sub_cancel]
        have hpow : 2 ^ binaryDigits fuel (n / 2) = 2 * 2 ^ (binaryDigits fuel (n / 2) - 1) := by
          rw [← pow_succ']
          congr 1
          omega
        omega
      · rw [pow_succ]
        omega

theorem binaryExponent_bounds (x : ℚ) (hx : 0 < x) :
    twoPow (binaryExponent x) ≤ x ∧ x < twoPow (binaryExponent x + 1) := by
  have hnum : 0 < x.num := Rat.num_pos.mpr hx
  have hn0 : x.num.natAbs ≠ 0 := by omega
  obtain ⟨hn1, hn2, hn3⟩ := binaryDigits_bounds x.num.natAbs x.num.natAbs le_rfl hn0
  obtain ⟨hd1, hd2, hd3⟩ := binaryDigits_bounds x.den x.den le_rfl x.den_nz
  obtain ⟨a, ha⟩ : ∃ a : Nat, binaryDigits x.num.natAbs x.num.natAbs = a + 1 :=
    ⟨binaryDigits x.num.natAbs x.num.natAbs - 1, by omega⟩
  obtain ⟨b, hb⟩ : ∃ b : Nat, binaryDigits x.den x.den = b + 1 :=
    ⟨binaryDigits x.den x.den - 1, by omega⟩
  rw [ha, Nat.add_sub_cancel] at hn2
  rw [ha] at hn3
  rw [hb, Nat.add_sub_cancel] at hd2
  rw [hb] at hd3
  have hxeq : x = (x.num.natAbs : ℚ) / (x.den : ℚ) := by
    have hcast : ((x.num.natAbs : Nat) : ℚ) = ((x.num : Int) : ℚ) := by
      rw [← Int.cast_natCast, Int.natAbs_of_nonneg (le_of_lt hnum)]
    rw [hcast]
    exact (Rat.num_div_den x).symm
  have hdpos : (0 : ℚ) < (x.den : ℚ) := by exact_mod_cast x.den_pos
  have hestimate : ((binaryDigits x.num.natAbs x.num.natAbs : Nat) : Int)
      - ((binaryDigits x.den x.den : Nat) : Int) = (a : Int) - (b : Int) := by
    rw [ha, hb]
    push_cast
    ring
  have hlower : twoPow ((a : Int) - (b : Int) - 1) ≤ x := by
    have hpow : twoPow ((a : Int) - (b : Int) - 1) = (2 : ℚ) ^ a / (2 : ℚ) ^ (b + 1) := by
      rw [twoPow_eq_zpow, show (a : Int) - (b : Int) - 1 = (a : Int) - ((b + 1 : Nat) : Int) by
        push_cast; ring, zpow_sub₀ (by norm_num), zpow_natCast, zpow_natCast]
    rw [hpow, hxeq, div_le_div_iff₀ (by positivity) hdpos]
    have h1 : ((2 : ℚ) ^ a) ≤ (x.num.natAbs : ℚ) := by exact_mod_cast hn2
    have h2 : (x.den : ℚ) ≤ (2 : ℚ) ^ (b + 1) := by exact_mod_cast le_of_lt hd3
    exact mul_le_mul h1 h2 (le_of_lt hdpos) (by positivity)
  have hupper : x < twoPow ((a : Int) - (b : Int) + 1) := by
    have hpow : twoPow ((a : Int) - (b : Int) + 1) = (2 : ℚ) ^ (a + 1) / (2 : ℚ) ^ b := by
      rw [twoPow_eq_zpow, show (a : Int) - (b : Int) + 1 = ((a + 1 : Nat) : Int) - (b : Int) by
        push_cast; ring, zpow_sub₀ (by norm_num), zpow_natCast, zpow_natCast]
    rw [hpow, hxeq, div_lt_div_iff₀ hdpos (by positivity)]
    have h1 : (x.num.natAbs : ℚ) < (2 : ℚ) ^ (a + 1) := by exact_mod_cast hn3
    have h2 : ((2 : ℚ) ^ b) ≤ (x.den : ℚ) := by exact_mod_cast hd2
    exact mul_lt_mul h1 h2 (by positivity) (by positivity)
  simp only [binaryExponent, hestimate]
  split_ifs with hbelow
  · exact ⟨hlower, by rw [sub_add_cancel]; exact hbelow⟩
  · exact ⟨not_lt.mp hbelow, hupper⟩

theorem roundHalfEven_bounds (x : ℚ) :
    ⌊x⌋ ≤ roundHalfEven x ∧ roundHalfEven x ≤ ⌊x⌋ + 1 := by
  unfold roundHalfEven
  simp only
  split_ifs <;> omega

theorem roundHalfEven_intCast (m : Int) : roundHalfEven (m : ℚ) = m := by
  unfold roundHalfEven
  simp

theorem roundHalfEven_mono {x y : ℚ} (h : x ≤ y) : roundHalfEven x ≤ roundHalfEven y := by
  by_cases hfloor : ⌊x⌋ = ⌊y⌋
  · unfold roundHalfEven
    simp only [hfloor]
    split_ifs <;> first | omega | (exfalso; linarith)
  · have hlt : ⌊x⌋ < ⌊y⌋ := lt_of_le_of_ne (Int.floor_le_floor h) hfloor
    have h1 := (roundHalfEven_bounds x).2
    have h2 := (roundHalfEven_bounds y).1
    omega

theorem twoPow_fifty_two : twoPow 52 = ((4503599627370496 : Int) : ℚ) := by
  rw [twoPow_eq_zpow]
  norm_num

theorem twoPow_fifty_three : twoPow 53 = ((9007199254740992 : Int) : ℚ) := by
  rw [twoPow_eq_zpow]
  norm_num

theorem roundMagnitude_bounds (x : ℚ) (hx : 0 < x) :
    twoPow (binaryExponent x) ≤ roundMagnitude x
      ∧ roundMagnitude x ≤ twoPow (binaryExponent x + 1) := by
  obtain ⟨hlow, hhigh⟩ := binaryExponent_bounds x hx
  have hscale := twoPow_pos (binaryExponent x - 52)
  have hsplit : twoPow (binaryExponent x) = twoPow 52 * twoPow (binaryExponent x - 52) := by
    rw [← twoPow_add]
    congr 1
    ring
  have hsplit2 : twoPow (binaryExponent x + 1)
      = twoPow 53 * twoPow (binaryExponent x - 52) := by
    rw [← twoPow_add]
    congr 1
    ring
  rw [roundMagnitude, if_neg (ne_of_gt hx)]
  constructor
  · rw [hsplit, twoPow_fifty_two]
    apply mul_le_mul_of_nonneg_right _ (le_of_lt hscale)
    have hle : ((4503599627370496 : Int) : ℚ) ≤ x / twoPow (binaryExponent x - 52) := by
      rw [le_div_iff₀ hscale, ← twoPow_fifty_two, ← hsplit]
      exact hlow
    have hmono := roundHalfEven_mono hle
    rw [roundHalfEven_intCast] at hmono
    exact_mod_cast hmono
  · rw [hsplit2, twoPow_fifty_three]
    apply mul_le_mul_of_nonneg_right _ (le_of_lt hscale)
    have hle : x / twoPow (binaryExponent x - 52) ≤ ((9007199254740992 : Int) : ℚ) := by
      rw [div_le_iff₀ hscale, ← twoPow_fifty_three, ← hsplit2]
      exact le_of_lt hhigh
    have hmono := roundHalfEven_mono hle
    rw [roundHalfEven_intCast] at hmono
    exact_mod_cast hmono

theorem roundMagnitude_nonneg (x : ℚ) (hx : 0 ≤ x) : 0 ≤ roundMagnitude x := by
  rcases eq_or_lt_of_le hx with h0 | hpos
  · rw [← h0, roundMagnitude, if_pos rfl]
  · exact le_trans (le_of_lt (twoPow_pos _)) (roundMagnitude_bounds x hpos).1

theorem roundMagnitude_mono {x y : ℚ} (hx : 0 ≤ x) (h : x ≤ y) :
    roundMagnitude x ≤ roundMagnitude y := by
  rcases eq_or_lt_of_le hx with h0 | hpos
  · rw [← h0, roundMagnitude, if_pos rfl]
    exact roundMagnitude_nonneg y (le_trans hx h)
  · have hypos : 0 < y := lt_of_lt_of_le hpos h
    obtain ⟨hxlow, hxhigh⟩ := binaryExponent_bounds x hpos
    obtain ⟨hylow, hyhigh⟩ := binaryExponent_bounds y hypos
    have hexp : binaryExponent x ≤ binaryExponent y := by
      by_contra hcon
      have hstep : binaryExponent y + 1 ≤ binaryExponent x := by omega
      have := twoPow_le_twoPow hstep
      linarith
    rcases eq_or_lt_of_le hexp with heq | hlt
    · rw [roundMagnitude, if_neg (ne_of_gt hpos), roundMagnitude, if_neg (ne_of_gt hypos), ← heq]
      have hscale := twoPow_pos (binaryExponent x - 52)
      apply mul_le_mul_of_nonneg_right _ (le_of_lt hscale)
      have hdiv : x / twoPow (binaryExponent x - 52) ≤ y / twoPow (binaryExponent x - 52) :=
        div_le_div_of_nonneg_right h (le_of_lt hscale)
      exact_mod_cast roundHalfEven_mono hdiv
    · have hstep : binaryExponent x + 1 ≤ binaryExponent y := by omega
      exact le_trans (roundMagnitude_bounds x hpos).2
        (le_trans (twoPow_le_twoPow hstep) (roundMagnitude_bounds y hypos).1)

/-- The rounding of a negative value is the opposite of the rounding of its opposite. -/
theorem roundToDouble_eq (x : ℚ) :
    roundToDouble x = if x < 0 then -roundMagnitude (-x) else roundMagnitude x := by
  unfold roundToDouble
  split
  · next n hnum =>
    have hx : ¬ x < 0 := by
      rw [← Rat.num_neg, hnum]
      exact not_lt.mpr (Int.ofNat_nonneg n)
    rw [if_neg hx]
  · next n hnum =>
    have hx : x < 0 := by
      rw [← Rat.num_neg, hnum]
      exact Int.negSucc_lt_zero n
    rw [if_pos hx]

theorem roundToFloat_eq (x : ℚ) :
    roundToFloat x = if x < 0 then -roundMagnitudeFloat (-x) else roundMagnitudeFloat x := by
  unfold roundToFloat
  split
  · next n hnum =>
    have hx : ¬ x < 0 := by
      rw [← Rat.num_neg, hnum]
      exact not_lt.mpr (Int.ofNat_nonneg n)
    rw [if_neg hx]
  · next n hnum =>
    have hx : x < 0 := by
      rw [← Rat.num_neg, hnum]
      exact Int.negSucc_lt_zero n
    rw [if_pos hx]

/-- Rounding to the nearest `double` keeps the order of the values it rounds. -/
theorem roundToDouble_monotone : Monotone roundToDouble := by
  intro x y h
  rw [roundToDouble_eq, roundToDouble_eq]
  split_ifs with hx hy hy
  · exact neg_le_neg (roundMagnitude_mono (by linarith) (by linarith))
  · exact le_trans (neg_nonpos.mpr (roundMagnitude_nonneg (-x) (by linarith)))
      (roundMagnitude_nonneg y (by linarith))
  · linarith
  · exact roundMagnitude_mono (by linarith) h

theorem castToInt_neg (x : ℚ) : castToInt (-x) = -castToInt x := by
  unfold castToInt
  simp [Int.neg_tdiv]

theorem castToInt_mono {x y : ℚ} (h : x ≤ y) : castToInt x ≤ castToInt y := by
  rcases le_or_lt 0 x with hx | hx
  · rw [castToInt_of_nonneg x hx, castToInt_of_nonneg y (le_trans hx h)]
    exact Int.floor_le_floor h
  · have hxneg : castToInt x = -⌊-x⌋ := by
      have := castToInt_neg (-x)
      rw [neg_neg] at this
      rw [this, castToInt_of_nonneg (-x) (by linarith)]
    rcases le_or_lt 0 y with hy | hy
    · rw [hxneg, castToInt_of_nonneg y hy]
      have h1 : 0 ≤ ⌊-x⌋ := Int.floor_nonneg.mpr (by linarith)
      have h2 : 0 ≤ ⌊y⌋ := Int.floor_nonneg.mpr hy
      omega
    · have hyneg : castToInt y = -⌊-y⌋ := by
        have := castToInt_neg (-y)
        rw [neg_neg] at this
        rw [this, castToInt_of_nonneg (-y) (by linarith)]
      rw [hxneg, hyneg]
      have := Int.floor_le_floor (neg_le_neg h)
      omega

theorem castToInt_lt_of_add_one_le {a b : ℚ} (ha : 0 ≤ a) (hab : a + 1 ≤ b) :
    castToInt a < castToInt b := by
  rw [castToInt_of_nonneg a ha, castToInt_of_nonneg b (by linarith)]
  have h := Int.floor_le_floor hab
  rw [Int.floor_add_one] at h
  omega

/-! ## Values that the rounding leaves as they are -/

theorem roundToDouble_zero : roundToDouble 0 = 0 := by
  simp [roundToDouble_eq, roundMagnitude]

theorem roundToFloat_zero : roundToFloat 0 = 0 := by
  simp [roundToFloat_eq, roundMagnitudeFloat]

theorem castToInt_intCast (m : Int) : castToInt (m : ℚ) = m := by
  simp [castToInt]

theorem roundMagnitude_intCast (m : Int) (hpos : 0 < m) (hm : (m : ℚ) < twoPow 53) :
    roundMagnitude (m : ℚ) = m := by
  have hq : (0 : ℚ) < m := by exact_mod_cast hpos
  obtain ⟨hlow, _⟩ := binaryExponent_bounds (m : ℚ) hq
  have he : binaryExponent (m : ℚ) ≤ 52 := by
    by_contra hcon
    have h53 : twoPow 53 ≤ twoPow (binaryExponent (m : ℚ)) := twoPow_le_twoPow (by omega)
    linarith
  obtain ⟨k, hk⟩ : ∃ k : Nat, binaryExponent (m : ℚ) - 52 = -(k : Int) :=
    ⟨(52 - binaryExponent (m : ℚ)).toNat, by omega⟩
  have hscaled : (m : ℚ) / (2 : ℚ) ^ (-(k : Int)) = ((m * 2 ^ k : Int) : ℚ) := by
    rw [zpow_neg, zpow_natCast]
    push_cast
    field_simp
  rw [roundMagnitude, if_neg (ne_of_gt hq), hk, twoPow_eq_zpow, hscaled, roundHalfEven_intCast]
  push_cast
  rw [zpow_neg, zpow_natCast]
  field_simp

/-- An integer below `2 ^ 53` in absolute value is a `double`. -/
theorem roundToDouble_intCast (m : Int) (hlow : -twoPow 53 < (m : ℚ))
    (hhigh : (m : ℚ) < twoPow 53) : roundToDouble (m : ℚ) = m := by
  rcases lt_trichotomy m 0 with hneg | hzero | hpos
  · have hq : (m : ℚ) < 0 := by exact_mod_cast hneg
    have h := roundMagnitude_intCast (-m) (by omega) (by push_cast; linarith)
    rw [roundToDouble_eq, if_pos hq]
    push_cast at h
    rw [h, neg_neg]
  · subst hzero
    simpa using roundToDouble_zero
  · have hq : ¬ (m : ℚ) < 0 := by
      have : (0 : ℚ) < m := by exact_mod_cast hpos
      linarith
    rw [roundToDouble_eq, if_neg hq]
    exact roundMagnitude_intCast m hpos hhigh

/-- The conversion to `int` of a rounded value that is not negative and within the range of
`int` gives the floor of the exact value or, when the rounding reaches the next integer, its
ceiling. -/
theorem castToInt_roundToDouble_bounds (x : ℚ) (hx : 0 ≤ x) (hbound : x < 2147483648) :
    ⌊x⌋ ≤ castToInt (roundToDouble x) ∧ castToInt (roundToDouble x) ≤ ⌈x⌉ := by
  have h53 : twoPow 53 = 9007199254740992 := by
    rw [twoPow_fifty_three]
    norm_num
  have hfloor0 : 0 ≤ ⌊x⌋ := Int.floor_nonneg.mpr hx
  have hfloorx : ((⌊x⌋ : Int) : ℚ) ≤ x := Int.floor_le x
  have hceilx : x ≤ ((⌈x⌉ : Int) : ℚ) := Int.le_ceil x
  have hceil : ⌈x⌉ ≤ 2147483648 := Int.ceil_le.mpr (by push_cast; linarith)
  have hceil0 : 0 ≤ ⌈x⌉ := Int.ceil_nonneg hx
  have hceilq : ((⌈x⌉ : Int) : ℚ) ≤ 2147483648 := by exact_mod_cast hceil
  have hceil0q : (0 : ℚ) ≤ ((⌈x⌉ : Int) : ℚ) := by exact_mod_cast hceil0
  have hfloor0q : (0 : ℚ) ≤ ((⌊x⌋ : Int) : ℚ) := by exact_mod_cast hfloor0
  have hlow := roundToDouble_intCast ⌊x⌋ (by rw [h53]; linarith) (by rw [h53]; linarith)
  have hhigh := roundToDouble_intCast ⌈x⌉ (by rw [h53]; linarith) (by rw [h53]; linarith)
  constructor
  · have h := castToInt_mono (roundToDouble_monotone hfloorx)
    rwa [hlow, castToInt_intCast] at h
  · have h := castToInt_mono (roundToDouble_monotone hceilx)
    rwa [hhigh, castToInt_intCast] at h

/-- A rounded value that is not negative stays so. -/
theorem roundToDouble_nonneg (x : ℚ) (hx : 0 ≤ x) : 0 ≤ roundToDouble x := by
  have h := roundToDouble_monotone hx
  rwa [roundToDouble_zero] at h

end GoldenAudio

namespace GoldenAudio

open GoldenAudioTestCase

/-! ## Facts about the library buffer -/

theorem MidiBuffer.mem_addEvent (buffer : MidiBuffer) (m : MidiMessage) (p : Int) (x : MidiEvent) :
    x ∈ buffer.addEvent m p ↔ x = ⟨m, p⟩ ∨ x ∈ buffer := by
  induction buffer with
  | nil => simp [MidiBuffer.addEvent]
  | cons e rest ih =>
    unfold MidiBuffer.addEvent
    split
    · simp only [List.mem_cons, ih]; tauto
    · simp only [List.mem_cons]

theorem MidiBuffer.addEvent_of_le (buffer : MidiBuffer) (m : MidiMessage) (p : Int)
    (h : ∀ e ∈ buffer, e.samplePosition ≤ p) : buffer.addEvent m p = buffer ++ [⟨m, p⟩] := by
  induction buffer with
  | nil => rfl
  | cons e rest ih =>
    have he : e.samplePosition ≤ p := h e (List.mem_cons_self _ _)
    have hrest : ∀ x ∈ rest, x.samplePosition ≤ p := fun x hx => h x (List.mem_cons_of_mem _ hx)
    simp [MidiBuffer.addEvent, he, ih hrest]

theorem MidiBuffer.addEvent_perm (buffer : MidiBuffer) (m : MidiMessage) (p : Int) :
    (buffer.addEvent m p).Perm (buffer ++ [⟨m, p⟩]) := by
  induction buffer with
  | nil => exact List.Perm.refl _
  | cons e rest ih =>
    unfold MidiBuffer.addEvent
    split
    · exact ih.cons e
    · exact (List.perm_append_comm :
        ([MidiEvent.mk m p] ++ (e :: rest)).Perm ((e :: rest) ++ [MidiEvent.mk m p]))

theorem MidiBuffer.addEvent_sorted (buffer : MidiBuffer) (m : MidiMessage) (p : Int)
    (h : buffer.Sorted) : (buffer.addEvent m p).Sorted := by
  induction buffer with
  | nil => simp [MidiBuffer.addEvent, MidiBuffer.Sorted]
  | cons e rest ih =>
    have hrest : MidiBuffer.Sorted rest := (List.pairwise_cons.mp h).2
    have hhead := (List.pairwise_cons.mp h).1
    unfold MidiBuffer.addEvent
    split
    · rename_i hle
      refine List.pairwise_cons.mpr ⟨?_, ih hrest⟩
      intro x hx
      rcases (MidiBuffer.mem_addEvent rest m p x).mp hx with rfl | hx
      · exact hle
      · exact hhead x hx
    · rename_i hgt
      refine List.pairwise_cons.mpr ⟨?_, h⟩
      intro x hx
      have hlt : p < e.samplePosition := not_le.mp hgt
      rcases List.mem_cons.mp hx with rfl | hx
      · exact le_of_lt hlt
      · exact le_trans (le_of_lt hlt) (hhead x hx)

/-- Events that share a sample position keep the order in which they were added. -/
theorem MidiBuffer.filter_addEvent (buffer : MidiBuffer) (m : MidiMessage) (p q : Int)
    (h : buffer.Sorted) :
    (buffer.addEvent m p).filter (fun e => decide (e.samplePosition = q))
      = (buffer ++ [MidiEvent.mk m p]).filter (fun e => decide (e.samplePosition = q)) := by
  induction buffer with
  | nil => rfl
  | cons e rest ih =>
    have hrest : MidiBuffer.Sorted rest := (List.pairwise_cons.mp h).2
    have hhead := (List.pairwise_cons.mp h).1
    unfold MidiBuffer.addEvent
    split
    · simp only [List.filter_cons, List.cons_append, ih hrest]
    · rename_i hgt
      have hlt : p < e.samplePosition := not_le.mp hgt
      by_cases hpq : p = q
      · subst hpq
        have hnone : (e :: rest).filter (fun x => decide (x.samplePosition = p)) = [] := by
          apply List.filter_eq_nil_iff.mpr
          intro x hx
          have : p < x.samplePosition := by
            rcases List.mem_cons.mp hx with rfl | hx
            · exact hlt
            · exact lt_of_lt_of_le hlt (hhead x hx)
          simp; omega
        rw [List.filter_append, hnone]
        simp [List.filter_cons, hnone]
      · rw [List.filter_append]
        simp [List.filter_cons, hpq]

/-! ## Event scheduling -/

theorem foldl_addNoteEvents (sampleRate : ℚ) (notes : List MidiNote) (buffer : MidiBuffer)
    (hsorted : buffer.Sorted) :
    (notes.foldl (addNoteEvents sampleRate) buffer).Sorted
    ∧ (notes.foldl (addNoteEvents sampleRate) buffer).Perm
        (buffer ++ notes.flatMap (noteEvents sampleRate))
    ∧ ∀ q : Int, (notes.foldl (addNoteEvents sampleRate) buffer).filter
          (fun e => decide (e.samplePosition = q))
        = (buffer ++ notes.flatMap (noteEvents sampleRate)).filter
          (fun e => decide (e.samplePosition = q)) := by
  induction notes generalizing buffer with
  | nil => simpa using hsorted
  | cons note rest ih =>
    have h1 := MidiBuffer.addEvent_sorted buffer (MidiMessage.noteOn 1 note.noteNumber note.velocity)
      (castToInt (roundToDouble (note.startTime * sampleRate))) hsorted
    have h2 := MidiBuffer.addEvent_sorted _ (MidiMessage.noteOff 1 note.noteNumber 0)
      (castToInt (roundToDouble (roundToDouble (note.startTime + note.duration) * sampleRate)))
      h1
    obtain ⟨ihs, ihp, ihf⟩ := ih (addNoteEvents sampleRate buffer note) h2
    have hperm : (addNoteEvents sampleRate buffer note).Perm
        (buffer ++ noteEvents sampleRate note) := by
      refine (MidiBuffer.addEvent_perm _ _ _).trans ?_
      refine ((MidiBuffer.addEvent_perm buffer _ _).append_right _).trans ?_
      simp [noteEvents]
    have hfilter : ∀ q : Int, (addNoteEvents sampleRate buffer note).filter
          (fun e => decide (e.samplePosition = q))
        = (buffer ++ noteEvents sampleRate note).filter
          (fun e => decide (e.samplePosition = q)) := by
      intro q
      show ((buffer.addEvent _ _).addEvent _ _).filter _ = _
      rw [MidiBuffer.filter_addEvent _ _ _ q h1, List.filter_append,
        MidiBuffer.filter_addEvent _ _ _ q hsorted]
      simp only [List.filter_append, noteEvents, List.append_assoc]
      rw [← List.filter_append]
      rfl
    refine ⟨by simpa using ihs, ?_, ?_⟩
    · simp only [List.foldl_cons, List.flatMap_cons]
      refine ihp.trans ?_
      rw [← List.append_assoc]
      exact hperm.append_right _
    · intro q
      simp only [List.foldl_cons, List.flatMap_cons]
      rw [ihf q, List.filter_append, hfilter q, ← List.filter_append, List.append_assoc]

theorem createMidiBuffer_sorted (tc : GoldenAudioTestCase) : tc.createMidiBuffer.Sorted :=
  (foldl_addNoteEvents tc.sampleRate tc.midiSequence [] List.Pairwise.nil).1

/-- C2 (amended). For every timeline of `n` notes and every sample rate, `createMidiBuffer`
produces exactly `2 n` events: for each note a note-on with that note's number and velocity at
sample `trunc (fl (startTime * sampleRate))` and a note-off with that note's number at sample
`trunc (fl (fl (startTime + duration) * sampleRate))`, where `fl` rounds the exact result of
an operation to the nearest `double` and `trunc` drops the fractional part.  For
`startTime ≥ 0`, `duration ≥ 0` and `sampleRate > 0` these positions are the floors of the
rounded values; they are `floor (startTime * sampleRate)` and
`floor ((startTime + duration) * sampleRate)` when the sum and the products are `double`
values, and in any case the position of the note-on is the floor or the ceiling of
`startTime * sampleRate` when that product is below `2 ^ 31`. -/
theorem createMidiBuffer_two_events_per_note (tc : GoldenAudioTestCase) :
    tc.createMidiBuffer.length = 2 * tc.midiSequence.length
    ∧ tc.createMidiBuffer.Perm (tc.midiSequence.flatMap (fun note =>
        [MidiEvent.mk (MidiMessage.noteOn 1 note.noteNumber note.velocity)
            (castToInt (roundToDouble (note.startTime * tc.sampleRate))),
          MidiEvent.mk (MidiMessage.noteOff 1 note.noteNumber 0)
            (castToInt
              (roundToDouble (roundToDouble (note.startTime + note.duration) * tc.sampleRate)))]))
    ∧ ∀ note ∈ tc.midiSequence, 0 ≤ note.startTime → 0 ≤ note.duration → 0 < tc.sampleRate →
        castToInt (roundToDouble (note.startTime * tc.sampleRate))
            = ⌊roundToDouble (note.startTime * tc.sampleRate)⌋
        ∧ castToInt
              (roundToDouble (roundToDouble (note.startTime + note.duration) * tc.sampleRate))
            = ⌊roundToDouble (roundToDouble (note.startTime + note.duration) * tc.sampleRate)⌋
        ∧ (roundToDouble (note.startTime * tc.sampleRate) = note.startTime * tc.sampleRate →
            castToInt (roundToDouble (note.startTime * tc.sampleRate))
              = ⌊note.startTime * tc.sampleRate⌋)
        ∧ (roundToDouble (note.startTime + note.duration) = note.startTime + note.duration →
            roundToDouble ((note.startTime + note.duration) * tc.sampleRate)
              = (note.startTime + note.duration) * tc.sampleRate →
            castToInt
                (roundToDouble (roundToDouble (note.startTime + note.duration) * tc.sampleRate))
              = ⌊(note.startTime + note.duration) * tc.sampleRate⌋)
        ∧ (note.startTime * tc.sampleRate < 2147483648 →
            ⌊note.startTime * tc.sampleRate⌋
                ≤ castToInt (roundToDouble (note.startTime * tc.sampleRate))
              ∧ castToInt (roundToDouble (note.startTime * tc.sampleRate))
                ≤ ⌈note.startTime * tc.sampleRate⌉) := by
  have hperm := (foldl_addNoteEvents tc.sampleRate tc.midiSequence [] List.Pairwise.nil).2.1
  simp only [List.nil_append] at hperm
  refine ⟨?_, hperm, ?_⟩
  · have hlen := hperm.length_eq
    rw [show tc.createMidiBuffer = tc.midiSequence.foldl (addNoteEvents tc.sampleRate) [] from rfl,
      hlen]
    generalize tc.midiSequence = notes
    induction notes with
    | nil => rfl
    | cons note rest ih =>
      simp only [List.flatMap_cons, List.length_append, ih, List.length_cons, noteEvents,
        List.length_nil]
      omega
  · intro note _ hstart hdur hrate
    have hon : 0 ≤ note.startTime * tc.sampleRate := mul_nonneg hstart hrate.le
    have hsum : 0 ≤ roundToDouble (note.startTime + note.duration) :=
      roundToDouble_nonneg _ (add_nonneg hstart hdur)
    have hoff : 0 ≤ roundToDouble (note.startTime + note.duration) * tc.sampleRate :=
      mul_nonneg hsum hrate.le
    refine ⟨castToInt_of_nonneg _ (roundToDouble_nonneg _ hon),
      castToInt_of_nonneg _ (roundToDouble_nonneg _ hoff), ?_, ?_, ?_⟩
    · intro hexact
      rw [hexact]
      exact castToInt_of_nonneg _ hon
    · intro hexactSum hexactProduct
      rw [hexactSum, hexactProduct]
      exact castToInt_of_nonneg _ (mul_nonneg (add_nonneg hstart hdur) hrate.le)
    · intro hrange
      exact castToInt_roundToDouble_bounds _ hon hrange

/-- C8 (amended). The buffer built by `createMidiBuffer` is ordered by sample offset, not by
declaration: offsets never decrease along the buffer, the buffer holds exactly the declared
events, and events that share an offset appear in declaration order. -/
theorem createMidiBuffer_sorted_stable (tc : GoldenAudioTestCase) :
    tc.createMidiBuffer.Pairwise (fun a b => a.samplePosition ≤ b.samplePosition)
    ∧ tc.createMidiBuffer.Perm tc.declaredEvents
    ∧ ∀ q : Int, tc.createMidiBuffer.filter (fun e => decide (e.samplePosition = q))
        = tc.declaredEvents.filter (fun e => decide (e.samplePosition = q)) := by
  have h := foldl_addNoteEvents tc.sampleRate tc.midiSequence [] List.Pairwise.nil
  simp only [List.nil_append] at h
  exact ⟨h.1, h.2.1, h.2.2⟩

theorem extractMidiForBuffer_append (sourceMidi destMidi : MidiBuffer) (startSample numSamples : Int)
    (hsorted : sourceMidi.Sorted)
    (hdest : ∀ d ∈ destMidi, ∀ e ∈ sourceMidi, startSample ≤ e.samplePosition →
      d.samplePosition ≤ e.samplePosition - startSample) :
    extractMidiForBuffer sourceMidi destMidi startSample numSamples
      = destMidi ++ (sourceMidi.filter (fun e => decide (startSample ≤ e.samplePosition ∧
          e.samplePosition < startSample + numSamples))).map
          (fun e => MidiEvent.mk e.message (e.samplePosition - startSample)) := by
  induction sourceMidi generalizing destMidi with
  | nil => simp [extractMidiForBuffer]
  | cons e rest ih =>
    have hrest : MidiBuffer.Sorted rest := (List.pairwise_cons.mp hsorted).2
    have hhead := (List.pairwise_cons.mp hsorted).1
    have hstep : extractMidiForBuffer (e :: rest) destMidi startSample numSamples
        = extractMidiForBuffer rest
            (if e.samplePosition ≥ startSample ∧ e.samplePosition < startSample + numSamples then
              destMidi.addEvent e.message (e.samplePosition - startSample) else destMidi)
            startSample numSamples := by
      simp [extractMidiForBuffer]
    rw [hstep]
    by_cases hin : e.samplePosition ≥ startSample ∧ e.samplePosition < startSample + numSamples
    · have hadd : destMidi.addEvent e.message (e.samplePosition - startSample)
          = destMidi ++ [MidiEvent.mk e.message (e.samplePosition - startSample)] :=
        MidiBuffer.addEvent_of_le _ _ _
          (fun d hd => hdest d hd e (List.mem_cons_self _ _) hin.1)
      rw [if_pos hin, hadd, ih _ hrest]
      · have hin2 : startSample ≤ e.samplePosition ∧ e.samplePosition < startSample + numSamples := hin
        simp [List.filter_cons, hin2]
      · intro d hd x hx hxs
        rcases List.mem_append.mp hd with hd | hd
        · exact hdest d hd x (List.mem_cons_of_mem _ hx) hxs
        · have hd2 : d = MidiEvent.mk e.message (e.samplePosition - startSample) := by simpa using hd
          have := hhead x hx
          rw [hd2]
          show e.samplePosition - startSample ≤ x.samplePosition - startSample
          omega
    · rw [if_neg hin, ih _ hrest]
      · have hin2 : ¬ (startSample ≤ e.samplePosition ∧ e.samplePosition < startSample + numSamples) := hin
        simp [List.filter_cons, hin2]
      · intro d hd x hx hxs
        exact hdest d hd x (List.mem_cons_of_mem _ hx) hxs

theorem MidiBuffer.ofEvents_sorted (events : List MidiEvent) :
    (MidiBuffer.ofEvents events).Sorted := by
  have h : ∀ buffer : MidiBuffer, buffer.Sorted →
      MidiBuffer.Sorted (events.foldl
        (fun buffer event => buffer.addEvent event.message event.samplePosition) buffer) := by
    induction events with
    | nil => intro buffer hb; exact hb
    | cons e rest ih =>
      intro buffer hb
      exact ih _ (MidiBuffer.addEvent_sorted buffer _ _ hb)
  exact h [] List.Pairwise.nil

/-- A sorted list of events is the buffer obtained by adding its events in order. -/
theorem MidiBuffer.ofEvents_of_sorted (buffer : MidiBuffer) (h : buffer.Sorted) :
    MidiBuffer.ofEvents buffer = buffer := by
  have key : ∀ (rest start : MidiBuffer), MidiBuffer.Sorted (start ++ rest) →
      rest.foldl (fun buffer event => buffer.addEvent event.message event.samplePosition) start
        = start ++ rest := by
    intro rest
    induction rest with
    | nil => intro start _; simp
    | cons e tail ih =>
      intro start hs
      have hle : ∀ x ∈ start, x.samplePosition ≤ e.samplePosition := by
        intro x hx
        exact (List.pairwise_append.mp hs).2.2 x hx e (List.mem_cons_self _ _)
      simp only [List.foldl_cons]
      rw [MidiBuffer.addEvent_of_le start e.message e.samplePosition hle, ih]
      · simp
      · simpa using hs
  simpa using key buffer [] (by simpa using h)

/-- C1. For every event buffer, window start `s` and window length `n`, `extractMidiForBuffer`
into an empty destination yields exactly the events of the buffer with `s ≤ p < s + n`, each at
offset `p - s`, in the order of the source buffer.  An event at offset exactly `s + n` is not
delivered in this window (every delivered offset is below `n`), and it is delivered, at offset
`0`, in every non-empty window that starts at `s + n`. -/
theorem extractMidiForBuffer_half_open_window (events : List MidiEvent)
    (startSample numSamples : Int) :
    extractMidiForBuffer (MidiBuffer.ofEvents events) [] startSample numSamples
      = ((MidiBuffer.ofEvents events).filter (fun e => decide (startSample ≤ e.samplePosition ∧
          e.samplePosition < startSample + numSamples))).map
          (fun e => MidiEvent.mk e.message (e.samplePosition - startSample))
    ∧ (∀ d ∈ extractMidiForBuffer (MidiBuffer.ofEvents events) [] startSample numSamples,
        0 ≤ d.samplePosition ∧ d.samplePosition < numSamples)
    ∧ (∀ e ∈ MidiBuffer.ofEvents events, e.samplePosition = startSample + numSamples →
        MidiEvent.mk e.message numSamples ∉
          extractMidiForBuffer (MidiBuffer.ofEvents events) [] startSample numSamples
        ∧ ∀ nextSamples : Int, 0 < nextSamples →
          MidiEvent.mk e.message 0 ∈
            extractMidiForBuffer (MidiBuffer.ofEvents events) []
              (startSample + numSamples) nextSamples) := by
  have hsorted := MidiBuffer.ofEvents_sorted events
  generalize MidiBuffer.ofEvents events = sourceMidi at hsorted
  have hmain : ∀ s n : Int, extractMidiForBuffer sourceMidi [] s n
      = (sourceMidi.filter (fun e => decide (s ≤ e.samplePosition ∧
          e.samplePosition < s + n))).map
          (fun e => MidiEvent.mk e.message (e.samplePosition - s)) := by
    intro s n
    have := extractMidiForBuffer_append sourceMidi [] s n hsorted (by simp)
    simpa using this
  have hrange : ∀ d ∈ extractMidiForBuffer sourceMidi [] startSample numSamples,
      0 ≤ d.samplePosition ∧ d.samplePosition < numSamples := by
    intro d hd
    rw [hmain] at hd
    obtain ⟨e, he, rfl⟩ := List.mem_map.mp hd
    have hwin := (List.mem_filter.mp he).2
    simp only [decide_eq_true_eq] at hwin
    constructor <;> simp only <;> omega
  refine ⟨hmain _ _, hrange, ?_⟩
  intro e he hpos
  constructor
  · intro hmem
    have := (hrange _ hmem).2
    simp at this
  · intro nextSamples hnext
    rw [hmain]
    refine List.mem_map.mpr ⟨e, List.mem_filter.mpr ⟨he, ?_⟩, ?_⟩
    · simp only [decide_eq_true_eq]; omega
    · simp [hpos]

theorem extractMidiForBuffer_half_open_window_witness :
    MidiBuffer.ofEvents boundaryEvents
        = [MidiEvent.mk (MidiMessage.noteOn 1 60 (4 / 5)) 0,
            MidiEvent.mk (MidiMessage.noteOn 1 64 (4 / 5)) 512,
            MidiEvent.mk (MidiMessage.noteOff 1 60 0) 1024]
    ∧ extractMidiForBuffer (MidiBuffer.ofEvents boundaryEvents) [] 0 512
        = [MidiEvent.mk (MidiMessage.noteOn 1 60 (4 / 5)) 0]
    ∧ MidiEvent.mk (MidiMessage.noteOn 1 64 (4 / 5)) 512 ∉
        extractMidiForBuffer (MidiBuffer.ofEvents boundaryEvents) [] 0 512
    ∧ MidiEvent.mk (MidiMessage.noteOn 1 64 (4 / 5)) 0 ∈
        extractMidiForBuffer (MidiBuffer.ofEvents boundaryEvents) [] (0 + 512) 512 := by
  have h := extractMidiForBuffer_half_open_window boundaryEvents 0 512
  refine ⟨by decide!, ?_, ?_, ?_⟩
  · rw [h.1]; decide!
  · exact (h.2.2 (MidiEvent.mk (MidiMessage.noteOn 1 64 (4 / 5)) 512) (by decide!) (by decide)).1
  · exact (h.2.2 (MidiEvent.mk (MidiMessage.noteOn 1 64 (4 / 5)) 512) (by decide!) (by decide)).2
      512 (by decide)

/-- Witness for C2: the note of `SimpleSynthBasicTest`, `addNote (60, 0.8f, 0.1, 1.5)`, at
44100 Hz gives the note-on at sample 4410 and the note-off at sample 70560. -/
theorem createMidiBuffer_two_events_per_note_witness :
    SimpleSynthBasicTest.createMidiBuffer
        = [MidiEvent.mk (MidiMessage.noteOn 1 60 (4 / 5)) 4410,
            MidiEvent.mk (MidiMessage.noteOff 1 60 0) 70560]
    ∧ SimpleSynthBasicTest.createMidiBuffer.length = 2 * 1
    ∧ castToInt (roundToDouble (roundToDouble (1 / 10) * 44100))
        = ⌊roundToDouble (roundToDouble (1 / 10) * 44100)⌋
    ∧ castToInt (roundToDouble (roundToDouble (roundToDouble (1 / 10) + 3 / 2) * 44100))
        = ⌊roundToDouble (roundToDouble (roundToDouble (1 / 10) + 3 / 2) * 44100)⌋
    ∧ ⌊roundToDouble (1 / 10) * 44100⌋
        ≤ castToInt (roundToDouble (roundToDouble (1 / 10) * 44100))
    ∧ castToInt (roundToDouble (roundToDouble (1 / 10) * 44100))
        ≤ ⌈roundToDouble (1 / 10) * 44100⌉ := by
  have h := createMidiBuffer_two_events_per_note SimpleSynthBasicTest
  have hnote := h.2.2 (MidiNote.mk 60 (4 / 5) (roundToDouble (1 / 10)) (3 / 2)) (by decide!)
    (by decide!) (by norm_num) (by decide!)
  exact ⟨by decide!, h.1, hnote.1, hnote.2.1, (hnote.2.2.2.2 (by decide!)).1,
    (hnote.2.2.2.2 (by decide!)).2⟩

/-- C2, as stated, fails in two ways.  For a note that starts before time zero the conversion
to `int` is not the floor: the note-on of `earlyNoteCase` is stored at sample `0`, whereas
`floor (startTime * sampleRate)` is `-1`.  For a note whose products are not `double` values
the rounding can reach the next integer: the note `addNote (60, 0.8f, 0.3, 1.0)` of
`roundedNoteCase` has its note-on at sample 13230 and its note-off at sample 57330, whereas
the floors of the exact products of the stored values are 13229 and 57329. -/
theorem createMidiBuffer_floor_counterexample :
    earlyNoteCase.createMidiBuffer
        = [MidiEvent.mk (MidiMessage.noteOn 1 60 (4 / 5)) 0,
            MidiEvent.mk (MidiMessage.noteOff 1 60 0) 44099]
    ∧ ⌊roundToDouble (-1 / 100000) * 44100⌋ = -1
    ∧ (¬ ∃ e ∈ earlyNoteCase.createMidiBuffer,
        e.message = MidiMessage.noteOn 1 60 (4 / 5)
        ∧ e.samplePosition = ⌊roundToDouble (-1 / 100000) * 44100⌋)
    ∧ roundedNoteCase.createMidiBuffer
        = [MidiEvent.mk (MidiMessage.noteOn 1 60 (4 / 5)) 13230,
            MidiEvent.mk (MidiMessage.noteOff 1 60 0) 57330]
    ∧ ⌊roundToDouble (3 / 10) * 44100⌋ = 13229
    ∧ ⌊(roundToDouble (3 / 10) + 1) * 44100⌋ = 57329
    ∧ (¬ ∃ e ∈ roundedNoteCase.createMidiBuffer,
        e.message = MidiMessage.noteOn 1 60 (4 / 5)
        ∧ e.samplePosition = ⌊roundToDouble (3 / 10) * 44100⌋)
    ∧ ¬ ∃ e ∈ roundedNoteCase.createMidiBuffer,
        e.message = MidiMessage.noteOff 1 60 0
        ∧ e.samplePosition = ⌊(roundToDouble (3 / 10) + 1) * 44100⌋ := by
  have hvalue : roundToDouble (-1 / 100000)
      = -(5902958103587057 / 590295810358705651712 : ℚ) := by decide!
  have hthird : roundToDouble (3 / 10) = (5404319552844595 / 18014398509481984 : ℚ) := by
    decide!
  have hfloor : ⌊roundToDouble (-1 / 100000) * 44100⌋ = -1 := by
    rw [hvalue, Int.floor_eq_iff]; norm_num
  have hon : ⌊roundToDouble (3 / 10) * 44100⌋ = 13229 := by
    rw [hthird, Int.floor_eq_iff]; norm_num
  have hoff : ⌊(roundToDouble (3 / 10) + 1) * 44100⌋ = 57329 := by
    rw [hthird, Int.floor_eq_iff]; norm_num
  refine ⟨by decide!, hfloor, ?_, by decide!, hon, hoff, ?_, ?_⟩
  · rw [hfloor]
    decide!
  · rw [hon]
    decide!
  · rw [hoff]
    decide!

/-- C8, as stated, fails: in `lateThenEarlyCase` the two events of the note declared second
come before the two events of the note declared first, so the buffer differs from the
declaration-order list. -/
theorem createMidiBuffer_declaration_order_counterexample :
    lateThenEarlyCase.declaredEvents
        = [MidiEvent.mk (MidiMessage.noteOn 1 60 (4 / 5)) 44100,
            MidiEvent.mk (MidiMessage.noteOff 1 60 0) 88200,
            MidiEvent.mk (MidiMessage.noteOn 1 62 (4 / 5)) 0,
            MidiEvent.mk (MidiMessage.noteOff 1 62 0) 22050]
    ∧ lateThenEarlyCase.createMidiBuffer
        = [MidiEvent.mk (MidiMessage.noteOn 1 62 (4 / 5)) 0,
            MidiEvent.mk (MidiMessage.noteOff 1 62 0) 22050,
            MidiEvent.mk (MidiMessage.noteOn 1 60 (4 / 5)) 44100,
            MidiEvent.mk (MidiMessage.noteOff 1 60 0) 88200]
    ∧ lateThenEarlyCase.createMidiBuffer ≠ lateThenEarlyCase.declaredEvents := by
  refine ⟨by decide!, by decide!, by decide!⟩

end GoldenAudio

namespace GoldenAudio

open GoldenAudioTestCase

/-! ## The block schedule of the rendering loop -/

theorem length_blockWindows (bufferSize totalSamples : Int) (remaining : Nat) (sampleOffset : Int) :
    (blockWindows bufferSize totalSamples remaining sampleOffset).length = remaining := by
  induction remaining generalizing sampleOffset with
  | zero => rfl
  | succ k ih => simp [blockWindows, ih]

theorem blockWindows_getElem_opt (bufferSize totalSamples : Int) (remaining : Nat) (first : Int)
    (hfull : ∀ m : Int, first ≤ m → m + 1 < first + remaining → (m + 1) * bufferSize ≤ totalSamples)
    (i : Nat) (hi : i < remaining) :
    (blockWindows bufferSize totalSamples remaining (first * bufferSize))[i]?
      = some ((first + i) * bufferSize,
          min bufferSize (totalSamples - (first + i) * bufferSize)) := by
  induction remaining generalizing first i with
  | zero => omega
  | succ k ih =>
    cases i with
    | zero => simp [blockWindows]
    | succ i =>
      have hk : i < k := by omega
      have hnext := hfull first (le_refl _) (by push_cast; omega)
      have hmin : min bufferSize (totalSamples - first * bufferSize) = bufferSize := by
        apply min_eq_left; linarith
      have hoff : first * bufferSize + bufferSize = (first + 1) * bufferSize := by ring
      simp only [blockWindows, hmin, List.getElem?_cons_succ, hoff]
      rw [ih (first + 1) (fun m hm hlt => hfull m (by omega) (by push_cast; omega)) i hk]
      push_cast
      congr 2 <;> ring_nf

theorem sum_blockWindows (bufferSize totalSamples : Int) (remaining : Nat) (first : Int)
    (hfull : ∀ m : Int, first ≤ m → m + 1 < first + (remaining + 1 : Nat) →
      (m + 1) * bufferSize ≤ totalSamples)
    (hlast : totalSamples ≤ (first + (remaining + 1 : Nat)) * bufferSize) :
    ((blockWindows bufferSize totalSamples (remaining + 1) (first * bufferSize)).map Prod.snd).sum
      = totalSamples - first * bufferSize := by
  induction remaining generalizing first with
  | zero =>
    have hmin : min bufferSize (totalSamples - first * bufferSize)
        = totalSamples - first * bufferSize := by
      apply min_eq_right
      have : (first + ((0 + 1 : Nat) : Int)) * bufferSize = first * bufferSize + bufferSize := by
        push_cast; ring
      linarith
    simp [blockWindows, hmin]
  | succ k ih =>
    have hnext := hfull first (le_refl _) (by push_cast; omega)
    have hmin : min bufferSize (totalSamples - first * bufferSize) = bufferSize := by
      apply min_eq_left; linarith
    have hoff : first * bufferSize + bufferSize = (first + 1) * bufferSize := by ring
    have hrec := ih (first + 1) (fun m hm hlt => hfull m (by omega) (by push_cast; push_cast at hlt; omega))
      (by have := hlast; push_cast at this ⊢; linarith)
    rw [blockWindows]
    simp only [hmin, hoff, List.map_cons, List.sum_cons, hrec]
    ring

/-- The quotient computed for `totalBuffers` is the ceiling of `totalSamples / bufferSize`. -/
theorem totalBuffers_bounds (tc : GoldenAudioTestCase) (htotal : 0 ≤ tc.totalSamples)
    (hsize : 0 < tc.bufferSize) :
    0 ≤ tc.totalBuffers ∧ (tc.totalBuffers - 1) * tc.bufferSize < tc.totalSamples
      ∧ tc.totalSamples ≤ tc.totalBuffers * tc.bufferSize := by
  have hdiv : tc.totalBuffers = (tc.totalSamples + tc.bufferSize - 1) / tc.bufferSize := by
    unfold totalBuffers
    exact Int.tdiv_eq_ediv (by omega) (by omega)
  have h1 := Int.ediv_mul_le (tc.totalSamples + tc.bufferSize - 1) (ne_of_gt hsize)
  have h2 := Int.lt_ediv_add_one_mul_self (tc.totalSamples + tc.bufferSize - 1) hsize
  rw [← hdiv] at h1 h2
  have h0 : 0 ≤ tc.totalBuffers := by
    rw [hdiv]; exact Int.ediv_nonneg (by omega) (by omega)
  refine ⟨h0, ?_, ?_⟩
  · have : (tc.totalBuffers - 1) * tc.bufferSize = tc.totalBuffers * tc.bufferSize - tc.bufferSize := by
      ring
    omega
  · have : (tc.totalBuffers + 1) * tc.bufferSize = tc.totalBuffers * tc.bufferSize + tc.bufferSize := by
      ring
    omega

/-- The window sizes of the rendering loop add up to `totalSamples`. -/
theorem renderWindows_sum (tc : GoldenAudioTestCase) (htotal : 0 ≤ tc.totalSamples)
    (hsize : 0 < tc.bufferSize) :
    (tc.renderWindows.map Prod.snd).sum = tc.totalSamples := by
  obtain ⟨hn0, hlow, hhigh⟩ := totalBuffers_bounds tc htotal hsize
  have hcast : ((tc.totalBuffers.toNat : Nat) : Int) = tc.totalBuffers := Int.toNat_of_nonneg hn0
  have hfull : ∀ m : Int, 0 ≤ m → m + 1 < tc.totalBuffers →
      (m + 1) * tc.bufferSize ≤ tc.totalSamples := by
    intro m _ hm
    have : (m + 1) * tc.bufferSize ≤ (tc.totalBuffers - 1) * tc.bufferSize :=
      Int.mul_le_mul_of_nonneg_right (by omega) (le_of_lt hsize)
    linarith
  unfold renderWindows
  rcases Nat.eq_zero_or_pos tc.totalBuffers.toNat with hzero | hposn
  · have hz : tc.totalBuffers = 0 := by omega
    rw [hz] at hhigh
    rw [hzero]
    simp only [blockWindows, List.map_nil, List.sum_nil]
    omega
  · obtain ⟨k, hk⟩ : ∃ k, tc.totalBuffers.toNat = k + 1 := ⟨tc.totalBuffers.toNat - 1, by omega⟩
    have hsum := sum_blockWindows tc.bufferSize tc.totalSamples k 0
      (fun m hm hlt => hfull m hm (by rw [← hk] at hlt; omega))
      (by rw [← hk, hcast]; simpa using hhigh)
    rw [hk]
    simpa using hsum

theorem applyParametersToProcessor_callRecorder (tc : GoldenAudioTestCase)
    (calls : List (AudioBuffer × MidiBuffer)) :
    tc.applyParametersToProcessor callRecorder calls = calls := by
  unfold applyParametersToProcessor
  generalize tc.parameterStates = states
  induction states with
  | nil => rfl
  | cons p rest ih => simp [applyParameter, applyParameterFrom, callRecorder]

theorem renderLoop_callRecorder (tc : GoldenAudioTestCase) (midiBuffer : MidiBuffer)
    (windows : List (Int × Int)) (calls : List (AudioBuffer × MidiBuffer))
    (outputBuffer : AudioBuffer) :
    ∃ finalBuffer, renderLoop tc callRecorder midiBuffer windows calls outputBuffer
      = Except.ok (calls ++ windows.map (fun window =>
          (AudioBuffer.cleared tc.numOutputChannels window.2,
            extractMidiForBuffer midiBuffer [] window.1 window.2)), finalBuffer) := by
  induction windows generalizing calls outputBuffer with
  | nil => exact ⟨outputBuffer, by simp [renderLoop]⟩
  | cons window rest ih =>
    simp only [renderLoop, renderBlock, callRecorder]
    obtain ⟨finalBuffer, h⟩ := ih (calls ++ [(AudioBuffer.cleared tc.numOutputChannels window.2,
      extractMidiForBuffer midiBuffer [] window.1 window.2)])
      ((List.range tc.numOutputChannels).foldl
        (fun outputBuffer channel =>
          outputBuffer.copyFrom channel window.1
            (AudioBuffer.cleared tc.numOutputChannels window.2) channel 0 window.2)
        outputBuffer)
    refine ⟨finalBuffer, ?_⟩
    simp only [callRecorder] at h
    rw [h]
    simp

theorem render_callRecorder (tc : GoldenAudioTestCase) :
    ∃ finalBuffer, tc.render callRecorder []
        = Except.ok (tc.renderWindows.map (fun window =>
            (AudioBuffer.cleared tc.numOutputChannels window.2,
              extractMidiForBuffer tc.createMidiBuffer [] window.1 window.2)), finalBuffer) := by
  unfold render
  obtain ⟨finalBuffer, h⟩ := renderLoop_callRecorder tc tc.createMidiBuffer tc.renderWindows []
    (AudioBuffer.cleared tc.numOutputChannels tc.totalSamples)
  refine ⟨finalBuffer, ?_⟩
  simp only [List.nil_append] at h
  have hsetup : tc.setupProcessor callRecorder [] = [] := rfl
  simp only [hsetup, applyParametersToProcessor_callRecorder]
  exact h

/-- C3 (amended). For `totalSamples ≥ 0` and `bufferSize > 0` the rendering loop of
`generateGoldenAudio` runs `ceil (totalSamples / bufferSize)` iterations; iteration `i` works
on the window that starts at `i * bufferSize` and has size
`min (bufferSize, totalSamples - i * bufferSize)`, which is at least `1` and at most
`bufferSize` and lies within `[0, totalSamples)`; each window starts where the previous one
ends, and the sizes add up to `totalSamples`.  A unit that records its calls is invoked exactly
once per window, in this order, with a block of that size.  For a duration of 2 s at 44100 Hz
and blocks of 512 samples this gives 88200 samples, 173 blocks and a final block of 136
samples. -/
theorem renderWindows_cover (tc : GoldenAudioTestCase) (htotal : 0 ≤ tc.totalSamples)
    (hsize : 0 < tc.bufferSize) :
    (tc.renderWindows.length : Int) = ⌈(tc.totalSamples : ℚ) / (tc.bufferSize : ℚ)⌉
    ∧ (∀ i : Nat, i < tc.renderWindows.length →
        tc.renderWindows[i]? = some ((i : Int) * tc.bufferSize,
          min tc.bufferSize (tc.totalSamples - (i : Int) * tc.bufferSize))
        ∧ 1 ≤ min tc.bufferSize (tc.totalSamples - (i : Int) * tc.bufferSize)
        ∧ min tc.bufferSize (tc.totalSamples - (i : Int) * tc.bufferSize) ≤ tc.bufferSize
        ∧ 0 ≤ (i : Int) * tc.bufferSize
        ∧ (i : Int) * tc.bufferSize
            + min tc.bufferSize (tc.totalSamples - (i : Int) * tc.bufferSize) ≤ tc.totalSamples)
    ∧ (∀ i : Nat, i + 1 < tc.renderWindows.length →
        ((i + 1 : Nat) : Int) * tc.bufferSize = (i : Int) * tc.bufferSize
          + min tc.bufferSize (tc.totalSamples - (i : Int) * tc.bufferSize))
    ∧ (tc.renderWindows.map Prod.snd).sum = tc.totalSamples
    ∧ (∃ finalBuffer, tc.render callRecorder []
        = Except.ok (tc.renderWindows.map (fun window =>
            (AudioBuffer.cleared tc.numOutputChannels window.2,
              extractMidiForBuffer tc.createMidiBuffer [] window.1 window.2)), finalBuffer))
    ∧ (tc.testDurationSeconds = 2 → tc.sampleRate = 44100 → tc.bufferSize = 512 →
        tc.totalSamples = 88200 ∧ tc.renderWindows.length = 173
          ∧ tc.renderWindows.drop 172 = [(88064, 136)]) := by
  obtain ⟨hn0, hlow, hhigh⟩ := totalBuffers_bounds tc htotal hsize
  have hlen : tc.renderWindows.length = tc.totalBuffers.toNat := length_blockWindows _ _ _ _
  have hcast : ((tc.totalBuffers.toNat : Nat) : Int) = tc.totalBuffers := Int.toNat_of_nonneg hn0
  have hfull : ∀ m : Int, 0 ≤ m → m + 1 < tc.totalBuffers →
      (m + 1) * tc.bufferSize ≤ tc.totalSamples := by
    intro m _ hm
    have : (m + 1) * tc.bufferSize ≤ (tc.totalBuffers - 1) * tc.bufferSize :=
      Int.mul_le_mul_of_nonneg_right (by omega) (le_of_lt hsize)
    linarith
  have hstart : ∀ i : Nat, (i : Int) < tc.totalBuffers →
      (i : Int) * tc.bufferSize < tc.totalSamples := by
    intro i hi
    have : (i : Int) * tc.bufferSize ≤ (tc.totalBuffers - 1) * tc.bufferSize :=
      Int.mul_le_mul_of_nonneg_right (by omega) (le_of_lt hsize)
    linarith
  refine ⟨?_, ?_, ?_, ?_, ?_, ?_⟩
  · rw [hlen, hcast, eq_comm, Int.ceil_eq_iff]
    have hq : (0 : ℚ) < (tc.bufferSize : ℚ) := by exact_mod_cast hsize
    constructor
    · rw [lt_div_iff₀ hq]
      have : ((tc.totalBuffers - 1) * tc.bufferSize : Int) < tc.totalSamples := hlow
      exact_mod_cast this
    · rw [div_le_iff₀ hq]
      exact_mod_cast hhigh
  · intro i hi
    rw [hlen] at hi
    have hi2 : (i : Int) < tc.totalBuffers := by omega
    have hget := blockWindows_getElem_opt tc.bufferSize tc.totalSamples tc.totalBuffers.toNat 0
      (fun m hm hlt => hfull m hm (by omega)) i hi
    simp only [zero_mul, zero_add] at hget
    have hpos := hstart i hi2
    have hnonneg : 0 ≤ (i : Int) * tc.bufferSize :=
      Int.mul_nonneg (Int.natCast_nonneg i) (le_of_lt hsize)
    refine ⟨hget, ?_, min_le_left _ _, hnonneg, ?_⟩
    · exact le_min (by omega) (by omega)
    · have := min_le_right tc.bufferSize (tc.totalSamples - (i : Int) * tc.bufferSize)
      omega
  · intro i hi
    rw [hlen] at hi
    have hfit := hfull i (Int.natCast_nonneg i) (by omega)
    have hmin : min tc.bufferSize (tc.totalSamples - (i : Int) * tc.bufferSize) = tc.bufferSize := by
      apply min_eq_left; linarith
    rw [hmin]; push_cast; ring
  · exact renderWindows_sum tc htotal hsize
  · exact render_callRecorder tc
  · intro hduration hrate hblock
    have h88200 : tc.totalSamples = 88200 := by
      unfold totalSamples
      rw [hduration, hrate]
      decide!
    have hwindows : tc.renderWindows = blockWindows 512 88200 173 0 := by
      unfold renderWindows totalBuffers
      rw [h88200, hblock]
      rfl
    rw [hwindows]
    exact ⟨h88200, by decide!, by decide!⟩

theorem renderWindows_cover_witness :
    SimpleSynthBasicTest.totalSamples = 88200
    ∧ SimpleSynthBasicTest.renderWindows.length = 173
    ∧ SimpleSynthBasicTest.renderWindows.drop 172 = [(88064, 136)]
    ∧ SimpleSynthBasicTest.renderWindows[172]? = some (88064, 136)
    ∧ (SimpleSynthBasicTest.renderWindows.length : Int) = ⌈((88200 : Int) : ℚ) / ((512 : Int) : ℚ)⌉
    ∧ (SimpleSynthBasicTest.renderWindows.map Prod.snd).sum = 88200 := by
  have htotal : SimpleSynthBasicTest.totalSamples = 88200 := by decide!
  have hsize : SimpleSynthBasicTest.bufferSize = 512 := by decide!
  have h := renderWindows_cover SimpleSynthBasicTest (by rw [htotal]; decide)
    (by rw [hsize]; decide)
  obtain ⟨hceil, hentries, _, hsum, _, hexample⟩ := h
  obtain ⟨_, hlen, hdrop⟩ := hexample (by decide!) (by decide!) hsize
  have hlast := (hentries 172 (by rw [hlen]; decide)).1
  rw [htotal, hsize] at hceil hlast
  rw [htotal] at hsum
  exact ⟨htotal, hlen, hdrop, by simpa using hlast, hceil, hsum⟩

/-- C3, as stated, fails in its worked example: for a duration of 2 s at 44100 Hz with blocks of
512 samples the rendering has 88200 samples and 173 blocks, but the final block holds
`88200 - 172 * 512 = 136` samples, not 56. -/
theorem renderWindows_final_block_counterexample :
    SimpleSynthBasicTest.totalSamples = 88200
    ∧ SimpleSynthBasicTest.renderWindows.length = 173
    ∧ SimpleSynthBasicTest.renderWindows.drop 172 = [(88064, 136)]
    ∧ SimpleSynthBasicTest.renderWindows.drop 172 ≠ [(88064, 56)]
    ∧ (88200 : Int) - 172 * 512 ≠ 56 := by
  refine ⟨by decide!, by decide!, by decide!, by decide!, by decide⟩

/-! ## The length of the rendering -/

theorem numSamples_copyFrom_foldl (channels : List Nat) (outputBuffer tempBuffer : AudioBuffer)
    (sampleOffset currentBufferSize : Int) :
    (channels.foldl (fun outputBuffer channel =>
        outputBuffer.copyFrom channel sampleOffset tempBuffer channel 0 currentBufferSize)
      outputBuffer).numSamples = outputBuffer.numSamples := by
  induction channels generalizing outputBuffer with
  | nil => rfl
  | cons c rest ih => simp only [List.foldl_cons, ih]; rfl

theorem numSamples_renderLoop {σ : Type} (tc : GoldenAudioTestCase) (unit : AudioProcessor σ)
    (midiBuffer : MidiBuffer) (windows : List (Int × Int)) (processor finalState : σ)
    (outputBuffer finalBuffer : AudioBuffer)
    (h : renderLoop tc unit midiBuffer windows processor outputBuffer
      = Except.ok (finalState, finalBuffer)) :
    finalBuffer.numSamples = outputBuffer.numSamples := by
  induction windows generalizing processor outputBuffer with
  | nil =>
    simp only [renderLoop, Except.ok.injEq, Prod.mk.injEq] at h
    rw [h.2]
  | cons window rest ih =>
    simp only [renderLoop, renderBlock] at h
    cases hblock : unit.processBlock processor
        (AudioBuffer.cleared tc.numOutputChannels window.2)
        (extractMidiForBuffer midiBuffer [] window.1 window.2) with
    | threw s e => simp [hblock] at h
    | ok s tempBuffer =>
      simp only [hblock] at h
      rw [ih _ _ h, numSamples_copyFrom_foldl]

/-- C4 (amended). For every test case with `duration ≥ 0` and `sampleRate > 0` the number of
samples per channel rendered by `generateGoldenAudio` is `floor (fl (duration * sampleRate))`,
where `fl` rounds the product to the nearest `double`: the product is cut off toward zero, not
rounded to the nearest integer.  The number is `floor (duration * sampleRate)` when the
product is a `double`, and for a product below `2 ^ 31` it is the floor or the ceiling of
`duration * sampleRate` in any case. -/
theorem totalSamples_eq_floor (tc : GoldenAudioTestCase) (hduration : 0 ≤ tc.testDurationSeconds)
    (hrate : 0 < tc.sampleRate) :
    tc.totalSamples = ⌊roundToDouble (tc.testDurationSeconds * tc.sampleRate)⌋
    ∧ (roundToDouble (tc.testDurationSeconds * tc.sampleRate)
          = tc.testDurationSeconds * tc.sampleRate →
        tc.totalSamples = ⌊tc.testDurationSeconds * tc.sampleRate⌋)
    ∧ (tc.testDurationSeconds * tc.sampleRate < 2147483648 →
        ⌊tc.testDurationSeconds * tc.sampleRate⌋ ≤ tc.totalSamples
          ∧ tc.totalSamples ≤ ⌈tc.testDurationSeconds * tc.sampleRate⌉)
    ∧ ∀ (σ : Type) (unit : AudioProcessor σ) (processor finalState : σ)
        (outputBuffer : AudioBuffer),
        tc.render unit processor = Except.ok (finalState, outputBuffer) →
        (outputBuffer.getNumSamples : Int)
          = ⌊roundToDouble (tc.testDurationSeconds * tc.sampleRate)⌋ := by
  have hproduct : 0 ≤ tc.testDurationSeconds * tc.sampleRate := mul_nonneg hduration hrate.le
  have hfloor : tc.totalSamples = ⌊roundToDouble (tc.testDurationSeconds * tc.sampleRate)⌋ :=
    castToInt_of_nonneg _ (roundToDouble_nonneg _ hproduct)
  refine ⟨hfloor, ?_, ?_, ?_⟩
  · intro hexact
    rw [hfloor, hexact]
  · intro hrange
    exact castToInt_roundToDouble_bounds _ hproduct hrange
  · intro σ unit processor finalState outputBuffer h
    have hlen := numSamples_renderLoop tc unit _ _ _ _ _ _ h
    have hnonneg : 0 ≤ tc.totalSamples := by
      rw [hfloor]
      exact Int.floor_nonneg.mpr (roundToDouble_nonneg _ hproduct)
    rw [← hfloor]
    show ((outputBuffer.numSamples : Nat) : Int) = tc.totalSamples
    rw [hlen]
    exact Int.toNat_of_nonneg hnonneg

/-- Witness for C4: 0.1875 s at 44100 Hz, where the product 8268.75 is a `double`, gives 8268
samples per channel; 0.3 s at 44100 Hz, where the product of the stored values lies just below
13230 and is rounded to 13230, gives 13230 samples, the ceiling of the exact product. -/
theorem totalSamples_eq_floor_witness :
    fractionalDurationCase.totalSamples = 8268
    ∧ ⌊fractionalDurationCase.testDurationSeconds * fractionalDurationCase.sampleRate⌋ = 8268
    ∧ (∃ calls outputBuffer,
        fractionalDurationCase.render callRecorder [] = Except.ok (calls, outputBuffer)
        ∧ (outputBuffer.getNumSamples : Int) = 8268)
    ∧ roundedUpDurationCase.totalSamples = 13230
    ∧ ⌊roundedUpDurationCase.testDurationSeconds * roundedUpDurationCase.sampleRate⌋
        ≤ roundedUpDurationCase.totalSamples
    ∧ roundedUpDurationCase.totalSamples
        ≤ ⌈roundedUpDurationCase.testDurationSeconds * roundedUpDurationCase.sampleRate⌉ := by
  have h := totalSamples_eq_floor fractionalDurationCase (by decide!) (by decide!)
  have hup := totalSamples_eq_floor roundedUpDurationCase (by decide!) (by decide!)
  have htotal : fractionalDurationCase.totalSamples = 8268 := by decide!
  have hexact := h.2.1 (by decide!)
  obtain ⟨finalBuffer, hrender⟩ := render_callRecorder fractionalDurationCase
  refine ⟨htotal, by rw [← hexact]; exact htotal, ⟨_, finalBuffer, hrender, ?_⟩, by decide!,
    (hup.2.2.1 (by decide!)).1, (hup.2.2.1 (by decide!)).2⟩
  rw [h.2.2.2 _ callRecorder [] _ finalBuffer hrender, ← h.1]
  exact htotal

/-- C4, as stated, fails: for a duration of 0.1875 s at 44100 Hz the product is 8268.75, which
rounds to 8269, but the rendering has 8268 samples per channel; and for a duration of 0.7 s
the product of the stored values, rounded to a `double`, is 30869.999999999996, which rounds
to 30870, but the rendering has 30869 samples per channel. -/
theorem totalSamples_round_counterexample :
    fractionalDurationCase.testDurationSeconds * fractionalDurationCase.sampleRate = 33075 / 4
    ∧ fractionalDurationCase.totalSamples = 8268
    ∧ round (fractionalDurationCase.testDurationSeconds * fractionalDurationCase.sampleRate)
        = 8269
    ∧ fractionalDurationCase.totalSamples
        ≠ round (fractionalDurationCase.testDurationSeconds * fractionalDurationCase.sampleRate)
    ∧ roundToDouble
          (roundedDownDurationCase.testDurationSeconds * roundedDownDurationCase.sampleRate)
        = 8485480987361279 / 274877906944
    ∧ roundedDownDurationCase.totalSamples = 30869
    ∧ round (roundedDownDurationCase.testDurationSeconds * roundedDownDurationCase.sampleRate)
        = 30870
    ∧ round (roundToDouble
          (roundedDownDurationCase.testDurationSeconds * roundedDownDurationCase.sampleRate))
        = 30870 := by
  have hprod : fractionalDurationCase.testDurationSeconds * fractionalDurationCase.sampleRate
      = 33075 / 4 := by decide!
  have hround : round (33075 / 4 : ℚ) = 8269 := by
    rw [round_eq, Int.floor_eq_iff]; norm_num
  have htotal : fractionalDurationCase.totalSamples = 8268 := by decide!
  have hdown : roundedDownDurationCase.testDurationSeconds * roundedDownDurationCase.sampleRate
      = 3152519739159347 / 4503599627370496 * 44100 := by decide!
  have hdouble : roundToDouble
      (roundedDownDurationCase.testDurationSeconds * roundedDownDurationCase.sampleRate)
        = 8485480987361279 / 274877906944 := by decide!
  refine ⟨hprod, htotal, by rw [hprod]; exact hround, ?_, hdouble, by decide!, ?_, ?_⟩
  · rw [hprod, hround, htotal]
    decide
  · rw [hdown, round_eq, Int.floor_eq_iff]; norm_num
  · rw [hdouble, round_eq, Int.floor_eq_iff]; norm_num

end GoldenAudio

namespace GoldenAudio

open GoldenAudioTestCase

/-! ## Comparison with the golden file -/

theorem foldl_accumulate_samples (g : ℚ → Nat → ℚ) (samples : List Nat) (acc : ℚ × Int) :
    samples.foldl (fun acc sample => (g acc.1 sample, acc.2 + 1)) acc
      = (samples.foldl g acc.1, acc.2 + (samples.length : Int)) := by
  induction samples generalizing acc with
  | nil => simp
  | cons sample rest ih =>
    rw [List.foldl_cons, ih]
    simp only [List.foldl_cons, List.length_cons, Prod.mk.injEq, true_and]
    push_cast
    ring

theorem foldl_accumulate_channels (g : Nat → ℚ → Nat → ℚ) (samples channels : List Nat)
    (acc : ℚ × Int) :
    channels.foldl
        (fun acc channel =>
          samples.foldl (fun acc sample => (g channel acc.1 sample, acc.2 + 1)) acc)
        acc
      = (channels.foldl (fun sum channel => samples.foldl (g channel) sum) acc.1,
          acc.2 + (channels.length : Int) * (samples.length : Int)) := by
  induction channels generalizing acc with
  | nil => simp
  | cons channel rest ih =>
    rw [List.foldl_cons, foldl_accumulate_samples, ih]
    simp only [List.foldl_cons, List.length_cons, Prod.mk.injEq, true_and]
    push_cast
    ring

theorem foldl_congr_mem {α β : Type} (f g : α → β → α) (l : List β)
    (h : ∀ a, ∀ b ∈ l, f a b = g a b) (init : α) : l.foldl f init = l.foldl g init := by
  induction l generalizing init with
  | nil => rfl
  | cons b rest ih =>
    rw [List.foldl_cons, List.foldl_cons, h init b (List.mem_cons_self _ _)]
    exact ih (fun a x hx => h a x (List.mem_cons_of_mem _ hx)) _

theorem AudioData.getSample_read (data : AudioData) (numChannels : Nat) (numSamples : Int)
    (c i : Nat) (hc : c < numChannels) (hi : i < numSamples.toNat) :
    (data.read numChannels numSamples).getSample c i = data.sample c i := by
  simp [AudioData.read, AudioBuffer.getSample, AudioBuffer.channel, List.getD_eq_getElem?_getD,
    hc, hi]

/-- The accumulators of `calculateRMSDifference` on two buffers read from files: the sum of
the squared differences as the loops compute it in `float` arithmetic, and the number of
samples. -/
theorem accumulateDifference_read (golden rendered : AudioData) (numSamples : Int)
    (hlength : golden.lengthInSamples = numSamples) :
    accumulateDifference (golden.read golden.numChannels numSamples)
        (rendered.read golden.numChannels numSamples)
      = (floatSumSquares golden rendered,
          (golden.numChannels : Int) * (numSamples.toNat : Int)) := by
  unfold accumulateDifference floatSumSquares
  have hch : (golden.read golden.numChannels numSamples).getNumChannels
      = golden.numChannels := by
    simp [AudioData.read, AudioBuffer.getNumChannels]
  have hns : (golden.read golden.numChannels numSamples).getNumSamples = numSamples.toNat := rfl
  rw [hch, hns, hlength]
  have h := foldl_accumulate_channels
    (fun channel sum sample =>
      roundToFloat (sum + roundToFloat
        (roundToFloat ((golden.read golden.numChannels numSamples).getSample channel sample
            - (rendered.read golden.numChannels numSamples).getSample channel sample)
          * roundToFloat ((golden.read golden.numChannels numSamples).getSample channel sample
            - (rendered.read golden.numChannels numSamples).getSample channel sample))))
    (List.range numSamples.toNat) (List.range golden.numChannels) (0, 0)
  simp only [zero_add, List.length_range] at h
  rw [h]
  congr 1
  apply foldl_congr_mem
  intro sum channel hchannel
  apply foldl_congr_mem
  intro sum position hposition
  rw [AudioData.getSample_read _ _ _ _ _ (List.mem_range.mp hchannel)
      (List.mem_range.mp hposition),
    AudioData.getSample_read _ _ _ _ _ (List.mem_range.mp hchannel)
      (List.mem_range.mp hposition)]

theorem append_temp_ne (goldenPath : String) : goldenPath ≠ goldenPath ++ ".temp.wav" := by
  intro h
  have hlen := congrArg String.length h
  rw [String.length_append] at hlen
  have : (".temp.wav" : String).length = 9 := by decide
  omega

/-- The method `generateGoldenAudio` changes no file other than the one at its output path. -/
theorem generateGoldenAudio_files_other {σ : Type} (tc : GoldenAudioTestCase)
    (unit : AudioProcessor σ) (wav : WavWriter) (processor : σ) (files : FileSystem)
    (outputPath path : String) (hpath : path ≠ outputPath) :
    (tc.generateGoldenAudio unit wav processor files outputPath).files path = files path := by
  unfold generateGoldenAudio
  cases hrender : tc.render unit processor with
  | error failure =>
    obtain ⟨p, e⟩ := failure
    cases e <;> rfl
  | ok result =>
    obtain ⟨p, out⟩ := result
    simp only [saveToWavFile]
    split <;> try split
    all_goals simp [FileSystem.write, FileSystem.deleteFile, hpath]

/-- C6. Whenever the rendering call returns, `compareWithGoldenAudio` returns `false` if the
golden file is absent or cannot be read, and if the golden file and the rendered file differ in
sample rate, in channel count or in length, whatever their samples and whatever the
tolerance. -/
theorem compareWithGoldenAudio_shape_mismatch {σ : Type} (tc : GoldenAudioTestCase)
    (unit : AudioProcessor σ) (wav : WavWriter) (sqrt : ℚ → ℚ) (processor : σ)
    (files : FileSystem) (goldenPath : String) (value : Bool)
    (hgenerated : (tc.generateGoldenAudio unit wav processor files
      (goldenPath ++ ".temp.wav")).completion = Completion.returned value)
    (hcase : files goldenPath = none
      ∨ files goldenPath = some FileEntry.unreadable
      ∨ ∃ golden rendered, files goldenPath = some (FileEntry.audio golden)
          ∧ (tc.generateGoldenAudio unit wav processor files
              (goldenPath ++ ".temp.wav")).files (goldenPath ++ ".temp.wav")
            = some (FileEntry.audio rendered)
          ∧ (golden.sampleRate ≠ rendered.sampleRate
            ∨ golden.numChannels ≠ rendered.numChannels
            ∨ golden.lengthInSamples ≠ rendered.lengthInSamples)) :
    (tc.compareWithGoldenAudio unit wav sqrt processor files goldenPath).completion
      = Completion.returned false := by
  have hsame := generateGoldenAudio_files_other tc unit wav processor files
    (goldenPath ++ ".temp.wav") goldenPath (append_temp_ne goldenPath)
  cases value with
  | false => simp only [compareWithGoldenAudio, hgenerated]
  | true =>
    simp only [compareWithGoldenAudio, hgenerated, compareFiles]
    rcases hcase with habsent | hunreadable | ⟨golden, rendered, hgolden, hrendered, hshape⟩
    · rw [hsame, habsent]
      rfl
    · simp only [FileSystem.createReaderFor, hsame, hunreadable]
      simp
    · simp only [FileSystem.createReaderFor, hsame, hgolden, hrendered, Option.isNone_some]
      by_cases hgoldenReader : 0 < golden.sampleRate ∧ 0 < golden.numChannels
      · by_cases hrenderedReader : 0 < rendered.sampleRate ∧ 0 < rendered.numChannels
        · simp only [if_pos hgoldenReader, if_pos hrenderedReader, if_pos hshape]
          simp
        · simp only [if_pos hgoldenReader, if_neg hrenderedReader]
          simp
      · simp only [if_neg hgoldenReader]
        simp

theorem compareWithGoldenAudio_shape_mismatch_witness :
    (tinyCase.compareWithGoldenAudio (idleUnit Nat) exactWriter Rat.sqrt 0
        (constantGolden 11 0) "golden.wav").completion = Completion.returned false
    ∧ (tinyCase.compareWithGoldenAudio (idleUnit Nat) exactWriter Rat.sqrt 0
        noFiles "golden.wav").completion = Completion.returned false
    ∧ (tinyCase.generateGoldenAudio (idleUnit Nat) exactWriter 0 (constantGolden 11 0)
        ("golden.wav" ++ ".temp.wav")).files ("golden.wav" ++ ".temp.wav")
        = some (FileEntry.audio ⟨10, 2, 10, List.replicate 2 (List.replicate 10 0)⟩)
    ∧ constantGolden 11 0 "golden.wav"
        = some (FileEntry.audio ⟨10, 2, 11, List.replicate 2 (List.replicate 11 0)⟩) := by
  have hrendered : (tinyCase.generateGoldenAudio (idleUnit Nat) exactWriter 0
      (constantGolden 11 0) ("golden.wav" ++ ".temp.wav")).files ("golden.wav" ++ ".temp.wav")
      = some (FileEntry.audio ⟨10, 2, 10, List.replicate 2 (List.replicate 10 0)⟩) := by
    decide!
  have hgolden : constantGolden 11 0 "golden.wav"
      = some (FileEntry.audio ⟨10, 2, 11, List.replicate 2 (List.replicate 11 0)⟩) := by
    decide!
  refine ⟨?_, ?_, hrendered, hgolden⟩
  · exact compareWithGoldenAudio_shape_mismatch tinyCase (idleUnit Nat) exactWriter Rat.sqrt 0
      (constantGolden 11 0) "golden.wav" true (by decide!)
      (Or.inr (Or.inr ⟨_, _, hgolden, hrendered, Or.inr (Or.inr (by decide))⟩))
  · exact compareWithGoldenAudio_shape_mismatch tinyCase (idleUnit Nat) exactWriter Rat.sqrt 0
      noFiles "golden.wav" true (by decide!) (Or.inl rfl)

end GoldenAudio

namespace GoldenAudio

open GoldenAudioTestCase

/-! ## Assembly of the output buffer -/

theorem AudioBuffer.channel_copyFrom (dest source : AudioBuffer) (destChannel : Nat)
    (destStartSample numSamples : Int) (c : Nat) (hlen : destChannel < dest.channels.length) :
    (dest.copyFrom destChannel destStartSample source destChannel 0 numSamples).channel c
      = if c = destChannel then
          (dest.channel c).take destStartSample.toNat ++ (source.channel c).take numSamples.toNat
            ++ (dest.channel c).drop (destStartSample.toNat + numSamples.toNat)
        else dest.channel c := by
  unfold AudioBuffer.copyFrom AudioBuffer.channel
  simp only [Int.toNat_zero, List.drop_zero, List.getD_eq_getElem?_getD, List.getElem?_set]
  by_cases hc : c = destChannel
  · subst hc; simp [hlen]
  · have hc2 : ¬ destChannel = c := fun h => hc h.symm
    simp [hc, hc2]

theorem AudioBuffer.copyFrom_channels (outputBuffer tempBuffer : AudioBuffer)
    (sampleOffset currentBufferSize : Int) (count : Nat)
    (hcount : count ≤ outputBuffer.channels.length) :
    ((List.range count).foldl (fun outputBuffer channel =>
        outputBuffer.copyFrom channel sampleOffset tempBuffer channel 0 currentBufferSize)
      outputBuffer).channels.length = outputBuffer.channels.length
    ∧ ∀ c, ((List.range count).foldl (fun outputBuffer channel =>
        outputBuffer.copyFrom channel sampleOffset tempBuffer channel 0 currentBufferSize)
      outputBuffer).channel c
      = if c < count then
          (outputBuffer.channel c).take sampleOffset.toNat
            ++ (tempBuffer.channel c).take currentBufferSize.toNat
            ++ (outputBuffer.channel c).drop (sampleOffset.toNat + currentBufferSize.toNat)
        else outputBuffer.channel c := by
  induction count with
  | zero => simp
  | succ k ih =>
    obtain ⟨ihlen, ihch⟩ := ih (by omega)
    rw [List.range_succ, List.foldl_append]
    simp only [List.foldl_cons, List.foldl_nil]
    constructor
    · rw [← ihlen]
      simp only [AudioBuffer.copyFrom, List.length_set]
    · intro c
      rw [AudioBuffer.channel_copyFrom _ _ _ _ _ _ (by rw [ihlen]; omega)]
      by_cases hc : c = k
      · subst hc
        simp [ihch]
      · rw [if_neg hc, ihch c]
        by_cases hlt : c < k
        · simp [hlt, Nat.lt_succ_of_lt hlt]
        · have : ¬ c < k + 1 := by omega
          simp [hlt, this]

theorem AudioBuffer.hasShape_cleared (numChannels : Nat) (numSamples : Int) :
    (AudioBuffer.cleared numChannels numSamples).HasShape numChannels numSamples.toNat := by
  refine ⟨rfl, by simp [AudioBuffer.cleared], ?_⟩
  intro samples hmem
  simp only [AudioBuffer.cleared] at hmem
  rw [(List.mem_replicate.mp hmem).2]
  simp

theorem AudioBuffer.length_channel_of_hasShape (buffer : AudioBuffer) (numChannels numSamples c : Nat)
    (h : buffer.HasShape numChannels numSamples) (hc : c < numChannels) :
    (buffer.channel c).length = numSamples := by
  obtain ⟨_, hlen, hall⟩ := h
  apply hall
  unfold AudioBuffer.channel
  rw [List.getD_eq_getElem?_getD, List.getElem?_eq_getElem (by omega)]
  exact List.getElem_mem _

theorem AudioBuffer.channel_cleared (numChannels : Nat) (numSamples : Int) (c : Nat)
    (hc : c < numChannels) :
    (AudioBuffer.cleared numChannels numSamples).channel c = List.replicate numSamples.toNat 0 := by
  unfold AudioBuffer.channel AudioBuffer.cleared
  simp [List.getD_eq_getElem?_getD, hc]

/-! ## The rendering loop threads the state of the unit -/

theorem renderLoop_playBlocks {σ : Type} (tc : GoldenAudioTestCase) (unit : AudioProcessor σ)
    (step : σ → AudioBuffer → MidiBuffer → σ × AudioBuffer)
    (hstep : ∀ s b m, unit.processBlock s b m = BlockResult.ok (step s b m).1 (step s b m).2)
    (hshape : ∀ s b m c n, b.HasShape c n → (step s b m).2.HasShape c n)
    (midiBuffer : MidiBuffer) (windows : List (Int × Int)) (start : Nat) (processor : σ)
    (outputBuffer : AudioBuffer) (written : Nat → List ℚ)
    (hwindows : ContiguousFrom start windows)
    (hlen : outputBuffer.channels.length = tc.numOutputChannels)
    (hout : ∀ c < tc.numOutputChannels, (written c).length = start
      ∧ outputBuffer.channel c
          = written c ++ List.replicate ((windows.map (fun w => w.2.toNat)).sum) 0) :
    ∃ finalBuffer,
      renderLoop tc unit midiBuffer windows processor outputBuffer
        = Except.ok ((playBlocks step (windows.map (fun window =>
            (AudioBuffer.cleared tc.numOutputChannels window.2,
              extractMidiForBuffer midiBuffer [] window.1 window.2))) processor).1, finalBuffer)
      ∧ finalBuffer.channels.length = tc.numOutputChannels
      ∧ ∀ c < tc.numOutputChannels, finalBuffer.channel c
          = written c ++ ((playBlocks step (windows.map (fun window =>
            (AudioBuffer.cleared tc.numOutputChannels window.2,
              extractMidiForBuffer midiBuffer [] window.1 window.2))) processor).2.map
              (fun block => block.channel c)).flatten := by
  induction windows generalizing start processor outputBuffer written with
  | nil =>
    refine ⟨outputBuffer, rfl, hlen, ?_⟩
    intro c hc
    simpa [playBlocks] using (hout c hc).2
  | cons window rest ih =>
    obtain ⟨hstart, hnonneg, hrest⟩ := hwindows
    have hblock := hstep processor (AudioBuffer.cleared tc.numOutputChannels window.2)
      (extractMidiForBuffer midiBuffer [] window.1 window.2)
    have htemp := hshape processor (AudioBuffer.cleared tc.numOutputChannels window.2)
      (extractMidiForBuffer midiBuffer [] window.1 window.2) _ _
      (AudioBuffer.hasShape_cleared tc.numOutputChannels window.2)
    obtain ⟨hcopylen, hcopy⟩ := AudioBuffer.copyFrom_channels outputBuffer
      (step processor (AudioBuffer.cleared tc.numOutputChannels window.2)
        (extractMidiForBuffer midiBuffer [] window.1 window.2)).2
      window.1 window.2 tc.numOutputChannels (by omega)
    have hoff : window.1.toNat = start := by omega
    obtain ⟨finalBuffer, hloop, hfinallen, hfinal⟩ := ih (start + window.2.toNat)
      (step processor (AudioBuffer.cleared tc.numOutputChannels window.2)
        (extractMidiForBuffer midiBuffer [] window.1 window.2)).1
      ((List.range tc.numOutputChannels).foldl (fun outputBuffer channel =>
        outputBuffer.copyFrom channel window.1
          (step processor (AudioBuffer.cleared tc.numOutputChannels window.2)
            (extractMidiForBuffer midiBuffer [] window.1 window.2)).2 channel 0 window.2)
        outputBuffer)
      (fun c => written c ++ (step processor (AudioBuffer.cleared tc.numOutputChannels window.2)
        (extractMidiForBuffer midiBuffer [] window.1 window.2)).2.channel c)
      hrest (by rw [hcopylen, hlen])
      (by
        intro c hc
        have hblocklen := AudioBuffer.length_channel_of_hasShape _ _ _ c htemp hc
        obtain ⟨hwlen, hwout⟩ := hout c hc
        refine ⟨by simp [hwlen, hblocklen], ?_⟩
        rw [hcopy c, if_pos hc, hwout, hoff]
        simp only [List.map_cons, List.sum_cons]
        rw [List.take_left' hwlen, List.take_of_length_le (by omega),
          List.drop_append_eq_append_drop, List.drop_of_length_le (by omega)]
        rw [hwlen, Nat.add_sub_cancel_left, List.drop_replicate, Nat.add_sub_cancel_left,
          List.nil_append])
    refine ⟨finalBuffer, ?_, hfinallen, ?_⟩
    · simp only [renderLoop, renderBlock, hblock, List.map_cons, playBlocks]
      exact hloop
    · intro c hc
      rw [hfinal c hc]
      simp [playBlocks, List.append_assoc]

theorem contiguousFrom_blockWindows (bufferSize totalSamples : Int) (hsize : 0 < bufferSize)
    (remaining start : Nat) (hstart : (start : Int) ≤ totalSamples) :
    ContiguousFrom start (blockWindows bufferSize totalSamples remaining start) := by
  induction remaining generalizing start with
  | zero => trivial
  | succ k ih =>
    have hnonneg : 0 ≤ min bufferSize (totalSamples - (start : Int)) := le_min (by omega) (by omega)
    have hle := min_le_right bufferSize (totalSamples - (start : Int))
    refine ⟨rfl, hnonneg, ?_⟩
    have hcast : (((start + (min bufferSize (totalSamples - (start : Int))).toNat : Nat)) : Int)
        = (start : Int) + min bufferSize (totalSamples - (start : Int)) := by
      push_cast
      rw [Int.toNat_of_nonneg hnonneg]
    have := ih (start + (min bufferSize (totalSamples - (start : Int))).toNat)
      (by rw [hcast]; omega)
    rw [hcast] at this
    exact this

theorem sum_toNat_of_contiguousFrom (windows : List (Int × Int)) (start : Nat)
    (h : ContiguousFrom start windows) :
    (((windows.map (fun w => w.2.toNat)).sum : Nat) : Int) = (windows.map Prod.snd).sum := by
  induction windows generalizing start with
  | nil => rfl
  | cons window rest ih =>
    obtain ⟨_, hnonneg, hrest⟩ := h
    simp only [List.map_cons, List.sum_cons]
    rw [Nat.cast_add, ih _ hrest, Int.toNat_of_nonneg hnonneg]

/-- C7 (amended). For every unit given as a state-transition function that fills the block
buffer it receives, and every test case with `bufferSize > 0` and `totalSamples ≥ 0`, the
rendering returns, the unit ends in the state reached by processing the blocks one after the
other in increasing sample order, each block entered in the state the previous one left, and
every channel of the output buffer is the concatenation of that channel of the produced
blocks.  The unit is set up and its parameters are bound once, before the first block. -/
theorem render_threads_state {σ : Type} (tc : GoldenAudioTestCase) (base : AudioProcessor σ)
    (step : σ → AudioBuffer → MidiBuffer → σ × AudioBuffer)
    (hshape : ∀ s b m c n, b.HasShape c n → (step s b m).2.HasShape c n)
    (hsize : 0 < tc.bufferSize) (htotal : 0 ≤ tc.totalSamples) (processor : σ) :
    ∃ outputBuffer,
      tc.render (base.withTransition step) processor
        = Except.ok ((playBlocks step tc.blockInputs
            (tc.applyParametersToProcessor (base.withTransition step)
              (tc.setupProcessor (base.withTransition step) processor))).1, outputBuffer)
      ∧ outputBuffer.getNumChannels = tc.numOutputChannels
      ∧ (outputBuffer.getNumSamples : Int) = tc.totalSamples
      ∧ ∀ channel < tc.numOutputChannels, outputBuffer.channel channel
          = ((playBlocks step tc.blockInputs
              (tc.applyParametersToProcessor (base.withTransition step)
                (tc.setupProcessor (base.withTransition step) processor))).2.map
              (fun block => block.channel channel)).flatten := by
  have hcont : ContiguousFrom 0 tc.renderWindows :=
    contiguousFrom_blockWindows tc.bufferSize tc.totalSamples hsize _ 0 (by simpa using htotal)
  have hsum : (tc.renderWindows.map (fun w => w.2.toNat)).sum = tc.totalSamples.toNat := by
    have h1 := sum_toNat_of_contiguousFrom tc.renderWindows 0 hcont
    rw [renderWindows_sum tc htotal hsize] at h1
    omega
  obtain ⟨finalBuffer, hloop, hlen, hchannels⟩ := renderLoop_playBlocks tc
    (base.withTransition step) step (fun _ _ _ => rfl) hshape tc.createMidiBuffer tc.renderWindows 0
    (tc.applyParametersToProcessor (base.withTransition step)
      (tc.setupProcessor (base.withTransition step) processor))
    (AudioBuffer.cleared tc.numOutputChannels tc.totalSamples) (fun _ => [])
    hcont (by simp [AudioBuffer.cleared])
    (by
      intro c hc
      refine ⟨rfl, ?_⟩
      rw [AudioBuffer.channel_cleared _ _ _ hc, hsum, List.nil_append])
  refine ⟨finalBuffer, hloop, hlen, ?_, ?_⟩
  · have := numSamples_renderLoop tc _ _ _ _ _ _ _ hloop
    show ((finalBuffer.numSamples : Nat) : Int) = tc.totalSamples
    rw [this]
    exact Int.toNat_of_nonneg htotal
  · intro channel hc
    simpa using hchannels channel hc

theorem rampStep_hasShape (s : ℚ) (b : AudioBuffer) (m : MidiBuffer) (c n : Nat)
    (h : b.HasShape c n) : (rampStep s b m).2.HasShape c n := by
  obtain ⟨hn, hc, hall⟩ := h
  refine ⟨hn, by simp [rampStep, hc], ?_⟩
  intro samples hmem
  simp only [rampStep, List.mem_map] at hmem
  obtain ⟨old, hold, rfl⟩ := hmem
  rw [List.length_map, List.length_range]
  exact hall old hold

theorem render_threads_state_witness :
    tinyCase.render rampUnit 0
      = Except.ok (10, AudioBuffer.mk 10
          [[0, 1, 2, 3, 4, 5, 6, 7, 8, 9], [0, 1, 2, 3, 4, 5, 6, 7, 8, 9]])
    ∧ (playBlocks rampStep tinyCase.blockInputs 0).1 = 10
    ∧ (playBlocks rampStep tinyCase.blockInputs 0).2
        = [AudioBuffer.mk 4 [[0, 1, 2, 3], [0, 1, 2, 3]],
            AudioBuffer.mk 4 [[4, 5, 6, 7], [4, 5, 6, 7]],
            AudioBuffer.mk 2 [[8, 9], [8, 9]]]
    ∧ ∃ outputBuffer,
        tinyCase.render rampUnit 0
          = Except.ok ((playBlocks rampStep tinyCase.blockInputs 0).1, outputBuffer)
        ∧ outputBuffer.channel 1
          = ((playBlocks rampStep tinyCase.blockInputs 0).2.map
              (fun block => block.channel 1)).flatten := by
  have h := render_threads_state tinyCase (idleUnit ℚ) rampStep rampStep_hasShape
    (by decide!) (by decide!) 0
  obtain ⟨outputBuffer, hrender, _, _, hchannels⟩ := h
  refine ⟨by decide!, by decide!, by decide!, outputBuffer, hrender, ?_⟩
  exact hchannels 1 (by decide!)

/-- C7, as stated, fails for a test case with a negative block size: `negativeBlockCase`
renders ten zero samples per channel although the unit, here the call recorder, is never
invoked and so produces no block at all. -/
theorem render_negative_block_size_counterexample :
    negativeBlockCase.bufferSize = -1
    ∧ negativeBlockCase.blockInputs = []
    ∧ negativeBlockCase.render callRecorder []
        = Except.ok ([], AudioBuffer.mk 10
            [[0, 0, 0, 0, 0, 0, 0, 0, 0, 0], [0, 0, 0, 0, 0, 0, 0, 0, 0, 0]])
    ∧ (AudioBuffer.mk 10
          [[0, 0, 0, 0, 0, 0, 0, 0, 0, 0], [0, 0, 0, 0, 0, 0, 0, 0, 0, 0]]).channel 0
        ≠ (([] : List AudioBuffer).map (fun block => block.channel 0)).flatten := by
  refine ⟨by decide!, by decide!, by decide!, by decide!⟩

end GoldenAudio

namespace GoldenAudio

open GoldenAudioTestCase GoldenAudioTestSuite

/-! ## Aggregation over the suite -/

theorem runLoop_eq_compareEveryCase {σ : Type}
    (compare : GoldenAudioTestCase → σ → FileSystem → String → CallResult σ)
    (hreturns : ∀ testCase processor files goldenPath,
      ∃ value, (compare testCase processor files goldenPath).completion
        = Completion.returned value)
    (goldenDirectory : String) (cases : List GoldenAudioTestCase) (allPassed : Bool)
    (suite : GoldenAudioTestSuite) (processor : σ) (files : FileSystem) :
    (runLoop compare goldenDirectory cases allPassed suite processor files).completion
      = Completion.returned (allPassed
          && (compareEveryCase compare goldenDirectory cases processor files).1.all id)
    ∧ (runLoop compare goldenDirectory cases allPassed suite processor files).suite.passedTests
      = suite.passedTests
          + (compareEveryCase compare goldenDirectory cases processor files).1.count true
    ∧ (runLoop compare goldenDirectory cases allPassed suite processor files).suite.failedTests
      = suite.failedTests
          + (compareEveryCase compare goldenDirectory cases processor files).1.count false
    ∧ (runLoop compare goldenDirectory cases allPassed suite processor files).suite.testCases
      = suite.testCases
    ∧ (runLoop compare goldenDirectory cases allPassed suite processor files).processor
      = (compareEveryCase compare goldenDirectory cases processor files).2.1
    ∧ (runLoop compare goldenDirectory cases allPassed suite processor files).files
      = (compareEveryCase compare goldenDirectory cases processor files).2.2 := by
  induction cases generalizing allPassed suite processor files with
  | nil => simp [runLoop, compareEveryCase]
  | cons testCase rest ih =>
    obtain ⟨value, hvalue⟩ := hreturns testCase processor files
      (goldenDirectory ++ "/" ++ testCase.testName ++ ".wav")
    cases value with
    | true =>
      simp only [runLoop, hvalue, compareEveryCase]
      obtain ⟨h1, h2, h3, h4, h5, h6⟩ := ih allPassed
        { suite with passedTests := suite.passedTests + 1 }
        (compare testCase processor files
          (goldenDirectory ++ "/" ++ testCase.testName ++ ".wav")).processor
        (compare testCase processor files
          (goldenDirectory ++ "/" ++ testCase.testName ++ ".wav")).files
      refine ⟨?_, ?_, ?_, h4, h5, h6⟩
      · rw [h1]; simp
      · rw [h2]; simp only [decide_True, List.count_cons_self]; push_cast; ring
      · rw [h3]; simp
    | false =>
      simp only [runLoop, hvalue, compareEveryCase]
      obtain ⟨h1, h2, h3, h4, h5, h6⟩ := ih false
        { suite with failedTests := suite.failedTests + 1 }
        (compare testCase processor files
          (goldenDirectory ++ "/" ++ testCase.testName ++ ".wav")).processor
        (compare testCase processor files
          (goldenDirectory ++ "/" ++ testCase.testName ++ ".wav")).files
      refine ⟨?_, ?_, ?_, h4, h5, h6⟩
      · rw [h1]; simp
      · rw [h2]; simp
      · rw [h3]
        simp only [Completion.returned.injEq, Bool.false_eq_true, decide_False,
          List.count_cons_self]
        push_cast; ring

theorem length_compareEveryCase {σ : Type}
    (compare : GoldenAudioTestCase → σ → FileSystem → String → CallResult σ)
    (goldenDirectory : String) (cases : List GoldenAudioTestCase) (processor : σ)
    (files : FileSystem) :
    (compareEveryCase compare goldenDirectory cases processor files).1.length = cases.length := by
  induction cases generalizing processor files with
  | nil => rfl
  | cons testCase rest ih => simp [compareEveryCase, ih]

theorem count_true_add_count_false (outcomes : List Bool) :
    outcomes.count true + outcomes.count false = outcomes.length := by
  induction outcomes with
  | nil => rfl
  | cons b rest ih => cases b <;> simp [List.count_cons] <;> omega

theorem renderLoop_ne_other {σ : Type} (tc : GoldenAudioTestCase) (unit : AudioProcessor σ)
    (hunit : ∀ s b m st, unit.processBlock s b m ≠ BlockResult.threw st Thrown.other)
    (midiBuffer : MidiBuffer) (windows : List (Int × Int)) (processor st : σ)
    (outputBuffer : AudioBuffer) :
    renderLoop tc unit midiBuffer windows processor outputBuffer
      ≠ Except.error (st, Thrown.other) := by
  induction windows generalizing processor outputBuffer with
  | nil => simp [renderLoop]
  | cons window rest ih =>
    simp only [renderLoop, renderBlock]
    cases hblock : unit.processBlock processor
        (AudioBuffer.cleared tc.numOutputChannels window.2)
        (extractMidiForBuffer midiBuffer [] window.1 window.2) with
    | threw s e =>
      simp only [ne_eq, Except.error.injEq, Prod.mk.injEq, not_and]
      intro hs he
      subst hs he
      exact hunit _ _ _ _ hblock
    | ok s tempBuffer => exact ih _ _

/-- A comparison on a unit that throws nothing but exceptions derived from `std::exception`
returns. -/
theorem compareWithGoldenAudio_returns {σ : Type} (tc : GoldenAudioTestCase)
    (unit : AudioProcessor σ)
    (hunit : ∀ s b m st, unit.processBlock s b m ≠ BlockResult.threw st Thrown.other)
    (wav : WavWriter) (sqrt : ℚ → ℚ) (processor : σ) (files : FileSystem)
    (goldenPath : String) :
    ∃ value, (tc.compareWithGoldenAudio unit wav sqrt processor files goldenPath).completion
      = Completion.returned value := by
  have hgen : ∃ value, (tc.generateGoldenAudio unit wav processor files
      (goldenPath ++ ".temp.wav")).completion = Completion.returned value := by
    unfold generateGoldenAudio
    cases hrender : tc.render unit processor with
    | ok result => exact ⟨_, rfl⟩
    | error failure =>
      obtain ⟨st, e⟩ := failure
      cases e with
      | stdException what => exact ⟨false, rfl⟩
      | other => exact absurd hrender (renderLoop_ne_other tc unit hunit _ _ _ _ _)
  obtain ⟨value, hvalue⟩ := hgen
  cases value with
  | true =>
    refine ⟨(tc.compareFiles sqrt (tc.generateGoldenAudio unit wav processor files
      (goldenPath ++ ".temp.wav")).files goldenPath (goldenPath ++ ".temp.wav")).1, ?_⟩
    simp only [compareWithGoldenAudio, hvalue]
  | false => exact ⟨false, by simp only [compareWithGoldenAudio, hvalue]⟩

/-- C9. For every list of registered test cases and every outcome of the comparisons (each of
which returns), `runAllTests` returns `true` exactly if every comparison returned `true`; every
case is compared, in registration order and whatever the earlier outcomes; and afterwards,
whatever the counters were before the call, the passed count is the number of comparisons that
returned `true` and the passed and failed counts add up to the number of registered cases. -/
theorem runAllTests_aggregates {σ : Type} (suite : GoldenAudioTestSuite)
    (compare : GoldenAudioTestCase → σ → FileSystem → String → CallResult σ)
    (hreturns : ∀ testCase processor files goldenPath,
      ∃ value, (compare testCase processor files goldenPath).completion
        = Completion.returned value)
    (processor : σ) (files : FileSystem) (goldenDirectory : String) :
    (suite.runAllTestsWith compare processor files goldenDirectory).completion
      = Completion.returned
          ((compareEveryCase compare goldenDirectory suite.testCases processor files).1.all id)
    ∧ ((suite.runAllTestsWith compare processor files goldenDirectory).completion
        = Completion.returned true
      ↔ ∀ outcome ∈ (compareEveryCase compare goldenDirectory suite.testCases processor files).1,
          outcome = true)
    ∧ (compareEveryCase compare goldenDirectory suite.testCases processor files).1.length
      = suite.testCases.length
    ∧ (suite.runAllTestsWith compare processor files goldenDirectory).processor
      = (compareEveryCase compare goldenDirectory suite.testCases processor files).2.1
    ∧ (suite.runAllTestsWith compare processor files goldenDirectory).files
      = (compareEveryCase compare goldenDirectory suite.testCases processor files).2.2
    ∧ (suite.runAllTestsWith compare processor files goldenDirectory).suite.getPassedCount
      = (compareEveryCase compare goldenDirectory suite.testCases processor files).1.count true
    ∧ (suite.runAllTestsWith compare processor files goldenDirectory).suite.getPassedCount
        + (suite.runAllTestsWith compare processor files goldenDirectory).suite.getFailedCount
      = suite.testCases.length
    ∧ (suite.runAllTestsWith compare processor files goldenDirectory).suite.testCases
      = suite.testCases := by
  obtain ⟨h1, h2, h3, h4, h5, h6⟩ := runLoop_eq_compareEveryCase compare hreturns
    goldenDirectory suite.testCases true { suite with passedTests := 0, failedTests := 0 }
    processor files
  have hlen := length_compareEveryCase compare goldenDirectory suite.testCases processor files
  have hcount := count_true_add_count_false
    (compareEveryCase compare goldenDirectory suite.testCases processor files).1
  simp only [Bool.true_and, zero_add] at h1 h2 h3
  refine ⟨h1, ?_, hlen, h5, h6, h2, ?_, h4⟩
  · unfold runAllTestsWith
    rw [h1]
    simp [List.all_eq_true]
  · unfold runAllTestsWith getPassedCount getFailedCount
    rw [h2, h3, ← hlen, ← hcount]
    push_cast
    rfl

theorem runAllTests_aggregates_witness :
    (compareEveryCase
        (fun testCase processor files goldenPath =>
          testCase.compareWithGoldenAudio (idleUnit Nat) exactWriter Rat.sqrt processor files
            goldenPath)
        "golden_files" twoCaseSuite.testCases 0 tinyGoldenOnly).1 = [false, true]
    ∧ (twoCaseSuite.runAllTests (idleUnit Nat) exactWriter Rat.sqrt 0 tinyGoldenOnly
        "golden_files").completion = Completion.returned false
    ∧ (twoCaseSuite.runAllTests (idleUnit Nat) exactWriter Rat.sqrt 0 tinyGoldenOnly
        "golden_files").suite.getPassedCount = 1
    ∧ (twoCaseSuite.runAllTests (idleUnit Nat) exactWriter Rat.sqrt 0 tinyGoldenOnly
        "golden_files").suite.getPassedCount
        + (twoCaseSuite.runAllTests (idleUnit Nat) exactWriter Rat.sqrt 0 tinyGoldenOnly
          "golden_files").suite.getFailedCount = 2 := by
  have houtcomes : (compareEveryCase
      (fun testCase processor files goldenPath =>
        testCase.compareWithGoldenAudio (idleUnit Nat) exactWriter Rat.sqrt processor files
          goldenPath)
      "golden_files" twoCaseSuite.testCases 0 tinyGoldenOnly).1 = [false, true] := by decide!
  have h := runAllTests_aggregates twoCaseSuite
    (fun testCase processor files goldenPath =>
      testCase.compareWithGoldenAudio (idleUnit Nat) exactWriter Rat.sqrt processor files
        goldenPath)
    (fun testCase processor files goldenPath =>
      compareWithGoldenAudio_returns testCase (idleUnit Nat)
        (fun _ _ _ _ hthrew => by simp [idleUnit] at hthrew) exactWriter Rat.sqrt processor
        files goldenPath)
    0 tinyGoldenOnly "golden_files"
  rw [houtcomes] at h
  obtain ⟨hcompletion, _, _, _, _, hpassed, hsum, _⟩ := h
  exact ⟨houtcomes, hcompletion, hpassed, hsum⟩

end GoldenAudio

namespace GoldenAudio

open GoldenAudioTestCase

/-! ## Faults of the unit -/

theorem renderLoop_append {σ : Type} (tc : GoldenAudioTestCase) (unit : AudioProcessor σ)
    (midiBuffer : MidiBuffer) (before after : List (Int × Int)) (processor : σ)
    (outputBuffer : AudioBuffer) :
    renderLoop tc unit midiBuffer (before ++ after) processor outputBuffer
      = match renderLoop tc unit midiBuffer before processor outputBuffer with
        | Except.error failure => Except.error failure
        | Except.ok (processor, outputBuffer) =>
          renderLoop tc unit midiBuffer after processor outputBuffer := by
  induction before generalizing processor outputBuffer with
  | nil => simp [renderLoop]
  | cons window rest ih =>
    simp only [List.cons_append, renderLoop]
    cases hblock : renderBlock tc unit midiBuffer processor outputBuffer window with
    | error failure => rfl
    | ok next => exact ih next.1 next.2

/-- C10 (amended). If the unit throws an exception derived from `std::exception` while
processing a block, after the blocks before it were processed, the rendering is aborted:
`generateGoldenAudio` returns `false`, the unit is left in the state in which the faulting call
left it, so that no later block is processed, and the files are left exactly as they were, so
that nothing is saved at the output path; `compareWithGoldenAudio` returns `false` as well, with
the same unit state and files. -/
theorem generateGoldenAudio_aborts_on_fault {σ : Type} (tc : GoldenAudioTestCase)
    (unit : AudioProcessor σ) (wav : WavWriter) (sqrt : ℚ → ℚ) (processor : σ)
    (files : FileSystem) (path : String)
    (before after : List (Int × Int)) (window : Int × Int) (state faulted : σ)
    (partialBuffer : AudioBuffer) (what : String)
    (hwindows : tc.renderWindows = before ++ window :: after)
    (hbefore : renderLoop tc unit tc.createMidiBuffer before
        (tc.applyParametersToProcessor unit (tc.setupProcessor unit processor))
        (AudioBuffer.cleared tc.numOutputChannels tc.totalSamples)
      = Except.ok (state, partialBuffer))
    (hfault : unit.processBlock state (AudioBuffer.cleared tc.numOutputChannels window.2)
        (extractMidiForBuffer tc.createMidiBuffer [] window.1 window.2)
      = BlockResult.threw faulted (Thrown.stdException what)) :
    tc.render unit processor = Except.error (faulted, Thrown.stdException what)
    ∧ (tc.generateGoldenAudio unit wav processor files path).completion
        = Completion.returned false
    ∧ (tc.generateGoldenAudio unit wav processor files path).processor = faulted
    ∧ (tc.generateGoldenAudio unit wav processor files path).files = files
    ∧ (tc.compareWithGoldenAudio unit wav sqrt processor files path).completion
        = Completion.returned false
    ∧ (tc.compareWithGoldenAudio unit wav sqrt processor files path).processor = faulted
    ∧ (tc.compareWithGoldenAudio unit wav sqrt processor files path).files = files := by
  have hrender : tc.render unit processor = Except.error (faulted, Thrown.stdException what) := by
    unfold render
    simp only [hwindows]
    rw [renderLoop_append, hbefore]
    simp only [renderLoop, renderBlock, hfault]
  have hgen : ∀ p : String, tc.generateGoldenAudio unit wav processor files p
      = ⟨Completion.returned false, faulted, files⟩ := by
    intro p
    unfold generateGoldenAudio
    rw [hrender]
  refine ⟨hrender, by rw [hgen], by rw [hgen], by rw [hgen], ?_, ?_, ?_⟩ <;>
    simp only [compareWithGoldenAudio, hgen]

theorem generateGoldenAudio_aborts_on_fault_witness :
    tinyCase.renderWindows = [(0, 4)] ++ (4, 4) :: [(8, 2)]
    ∧ tinyCase.render (faultyUnit (Thrown.stdException "fault")) 0
        = Except.error (2, Thrown.stdException "fault")
    ∧ (tinyCase.generateGoldenAudio (faultyUnit (Thrown.stdException "fault")) exactWriter 0
        noFiles "out.wav").completion = Completion.returned false
    ∧ (tinyCase.generateGoldenAudio (faultyUnit (Thrown.stdException "fault")) exactWriter 0
        noFiles "out.wav").processor = 2
    ∧ (tinyCase.generateGoldenAudio (faultyUnit (Thrown.stdException "fault")) exactWriter 0
        noFiles "out.wav").files "out.wav" = none
    ∧ (tinyCase.compareWithGoldenAudio (faultyUnit (Thrown.stdException "fault")) exactWriter
        Rat.sqrt 0 noFiles "golden.wav").completion = Completion.returned false := by
  have hwindows : tinyCase.renderWindows = [(0, 4)] ++ (4, 4) :: [(8, 2)] := by decide!
  have h := generateGoldenAudio_aborts_on_fault tinyCase (faultyUnit (Thrown.stdException "fault"))
    exactWriter Rat.sqrt 0 noFiles "out.wav" [(0, 4)] [(8, 2)] (4, 4) 1 2
    (AudioBuffer.mk 10 [[0, 0, 0, 0, 0, 0, 0, 0, 0, 0], [0, 0, 0, 0, 0, 0, 0, 0, 0, 0]])
    "fault" hwindows (by decide!) (by decide!)
  have h2 := generateGoldenAudio_aborts_on_fault tinyCase
    (faultyUnit (Thrown.stdException "fault"))
    exactWriter Rat.sqrt 0 noFiles "golden.wav" [(0, 4)] [(8, 2)] (4, 4) 1 2
    (AudioBuffer.mk 10 [[0, 0, 0, 0, 0, 0, 0, 0, 0, 0], [0, 0, 0, 0, 0, 0, 0, 0, 0, 0]])
    "fault" hwindows (by decide!) (by decide!)
  refine ⟨hwindows, h.1, h.2.1, h.2.2.1, ?_, h2.2.2.2.2.1⟩
  rw [h.2.2.2.1]
  rfl

/-- C10, as stated, fails for a fault that is not derived from `std::exception`: the
exception is not caught, so neither `generateGoldenAudio` nor `compareWithGoldenAudio` returns
`false`; the exception leaves both calls. -/
theorem generateGoldenAudio_uncaught_fault_counterexample :
    tinyCase.render (faultyUnit Thrown.other) 0 = Except.error (2, Thrown.other)
    ∧ (tinyCase.generateGoldenAudio (faultyUnit Thrown.other) exactWriter 0 noFiles
        "golden.wav.temp.wav").completion = Completion.propagated Thrown.other
    ∧ (tinyCase.compareWithGoldenAudio (faultyUnit Thrown.other) exactWriter Rat.sqrt 0 noFiles
        "golden.wav").completion = Completion.propagated Thrown.other
    ∧ (tinyCase.compareWithGoldenAudio (faultyUnit Thrown.other) exactWriter Rat.sqrt 0 noFiles
        "golden.wav").completion ≠ Completion.returned false := by
  refine ⟨by decide!, by decide!, by decide!, by decide!⟩

end GoldenAudio

namespace GoldenAudio

open GoldenAudioTestCase

/-! ## Parameter binding -/

theorem applyParameterFrom_eq {σ : Type} (unit : AudioProcessor σ) (processor : σ)
    (paramName : String) (value : ℚ) (names : List String) (index : Nat) :
    applyParameterFrom unit processor paramName value names index
      = match names.findIdx? (fun name => name == paramName) index with
        | none => processor
        | some found => unit.setValueNotifyingHost processor found value := by
  induction names generalizing index with
  | nil => rfl
  | cons name rest ih =>
    rw [applyParameterFrom, List.findIdx?_cons]
    by_cases h : name = paramName
    · simp [h]
    · simp [h, ih]

theorem applyParameter_eq {σ : Type} (unit : AudioProcessor σ) (processor : σ)
    (paramName : String) (value : ℚ) :
    applyParameter unit processor paramName value
      = match (unit.getParameters processor).indexOf? paramName with
        | none => processor
        | some index => unit.setValueNotifyingHost processor index value := by
  rw [applyParameter, applyParameterFrom_eq]
  rfl

theorem indexOf_opt_eq_some {names : List String} {name : String} {index : Nat}
    (h : names.indexOf? name = some index) : names[index]? = some name := by
  unfold List.indexOf? at h
  rw [List.findIdx?_eq_some_iff_getElem] at h
  obtain ⟨hlt, hp, _⟩ := h
  rw [List.getElem?_eq_getElem hlt]
  simpa using hp

theorem indexOf_opt_eq_none {names : List String} {name : String}
    (h : names.indexOf? name = none) : name ∉ names := by
  unfold List.indexOf? at h
  rw [List.findIdx?_eq_none_iff] at h
  intro hmem
  simpa using h name hmem

theorem applyParameter_recordingSetters {σ : Type} (unit : AudioProcessor σ) (processor : σ)
    (log : List (Nat × ℚ)) (paramName : String) (value : ℚ) :
    applyParameter unit.recordingSetters (processor, log) paramName value
      = (applyParameter unit processor paramName value,
          log ++ match (unit.getParameters processor).indexOf? paramName with
            | none => []
            | some index => [(index, value)]) := by
  rw [applyParameter_eq, applyParameter_eq]
  show (match (unit.getParameters processor).indexOf? paramName with
    | none => (processor, log)
    | some index => unit.recordingSetters.setValueNotifyingHost (processor, log) index value) = _
  cases (unit.getParameters processor).indexOf? paramName with
  | none => simp
  | some index => rfl

theorem foldl_applyParameter_recordingSetters {σ : Type} (unit : AudioProcessor σ)
    (bindings : List ParameterState) (processor : σ) (log : List (Nat × ℚ)) :
    bindings.foldl
        (fun processor paramState =>
          applyParameter unit.recordingSetters processor paramState.parameterName
            paramState.value)
        (processor, log)
      = (bindings.foldl
          (fun processor paramState =>
            applyParameter unit processor paramState.parameterName paramState.value)
          processor,
        log ++ bindingCalls unit bindings processor) := by
  induction bindings generalizing processor log with
  | nil => simp [bindingCalls]
  | cons binding rest ih =>
    rw [List.foldl_cons, List.foldl_cons, applyParameter_recordingSetters, ih, bindingCalls,
      applyParameter_eq]
    cases (unit.getParameters processor).indexOf? binding.parameterName with
    | none => simp
    | some index => simp

theorem getParameters_applyParameter {σ : Type} (unit : AudioProcessor σ)
    (hnames : ∀ state index value,
      unit.getParameters (unit.setValueNotifyingHost state index value)
        = unit.getParameters state)
    (processor : σ) (paramName : String) (value : ℚ) :
    unit.getParameters (applyParameter unit processor paramName value)
      = unit.getParameters processor := by
  rw [applyParameter_eq]
  cases (unit.getParameters processor).indexOf? paramName with
  | none => rfl
  | some index => exact hnames processor index value

theorem getParameters_foldl_applyParameter {σ : Type} (unit : AudioProcessor σ)
    (hnames : ∀ state index value,
      unit.getParameters (unit.setValueNotifyingHost state index value)
        = unit.getParameters state)
    (bindings : List ParameterState) (processor : σ) :
    unit.getParameters (bindings.foldl
        (fun processor paramState =>
          applyParameter unit processor paramState.parameterName paramState.value)
        processor)
      = unit.getParameters processor := by
  induction bindings generalizing processor with
  | nil => rfl
  | cons binding rest ih =>
    rw [List.foldl_cons, ih, getParameters_applyParameter unit hnames]

theorem bindingCalls_eq_filterMap {σ : Type} (unit : AudioProcessor σ)
    (hnames : ∀ state index value,
      unit.getParameters (unit.setValueNotifyingHost state index value)
        = unit.getParameters state)
    (bindings : List ParameterState) (processor : σ) (names : List String)
    (hprocessor : unit.getParameters processor = names) :
    bindingCalls unit bindings processor
      = bindings.filterMap (fun binding =>
          (names.indexOf? binding.parameterName).map (fun index => (index, binding.value))) := by
  induction bindings generalizing processor with
  | nil => rfl
  | cons binding rest ih =>
    rw [bindingCalls, List.filterMap_cons, hprocessor]
    cases hfound : names.indexOf? binding.parameterName with
    | none => simpa using ih processor hprocessor
    | some index =>
      simpa using ih _ ((hnames processor index binding.value).trans hprocessor)

theorem applyParameter_of_not_mem {σ : Type} (unit : AudioProcessor σ) (processor : σ)
    (paramName : String) (value : ℚ) (hname : paramName ∉ unit.getParameters processor) :
    applyParameter unit processor paramName value = processor := by
  rw [applyParameter_eq]
  cases hfound : (unit.getParameters processor).indexOf? paramName with
  | none => rfl
  | some index => exact absurd (List.getElem?_mem (indexOf_opt_eq_some hfound)) hname

theorem foldl_applyParameter_of_not_mem {σ : Type} (unit : AudioProcessor σ)
    (bindings : List ParameterState) (processor : σ)
    (hnone : ∀ binding ∈ bindings, binding.parameterName ∉ unit.getParameters processor) :
    bindings.foldl
        (fun processor paramState =>
          applyParameter unit processor paramState.parameterName paramState.value)
        processor
      = processor := by
  induction bindings with
  | nil => rfl
  | cons binding rest ih =>
    rw [List.foldl_cons, applyParameter_of_not_mem unit processor _ _
      (hnone binding (List.mem_cons_self _ _))]
    exact ih (fun b hb => hnone b (List.mem_cons_of_mem _ hb))

theorem foldl_applyParameter_filter {σ : Type} (unit : AudioProcessor σ)
    (hnames : ∀ state index value,
      unit.getParameters (unit.setValueNotifyingHost state index value)
        = unit.getParameters state)
    (bindings : List ParameterState) (processor : σ) (names : List String)
    (hprocessor : unit.getParameters processor = names) :
    bindings.foldl
        (fun processor paramState =>
          applyParameter unit processor paramState.parameterName paramState.value)
        processor
      = (bindings.filter (fun binding => decide (binding.parameterName ∈ names))).foldl
        (fun processor paramState =>
          applyParameter unit processor paramState.parameterName paramState.value)
        processor := by
  induction bindings generalizing processor with
  | nil => rfl
  | cons binding rest ih =>
    by_cases hmem : binding.parameterName ∈ names
    · rw [List.filter_cons_of_pos (by simpa using hmem), List.foldl_cons, List.foldl_cons]
      exact ih _ ((getParameters_applyParameter unit hnames processor _ _).trans hprocessor)
    · rw [List.filter_cons_of_neg (by simpa using hmem), List.foldl_cons,
        applyParameter_of_not_mem unit processor _ _ (by rw [hprocessor]; exact hmem)]
      exact ih processor hprocessor

theorem getValue_applyParameter_other {σ : Type} (unit : AudioProcessor σ)
    (getValue : σ → Nat → ℚ)
    (hother : ∀ state index value other, other ≠ index →
      getValue (unit.setValueNotifyingHost state index value) other = getValue state other)
    (processor : σ)
    (paramName : String) (value : ℚ) (index : Nat) (name : String)
    (hindex : (unit.getParameters processor)[index]? = some name) (hname : paramName ≠ name) :
    getValue (applyParameter unit processor paramName value) index = getValue processor index := by
  rw [applyParameter_eq]
  cases hfound : (unit.getParameters processor).indexOf? paramName with
  | none => rfl
  | some found =>
    have hat := indexOf_opt_eq_some hfound
    apply hother
    rintro rfl
    rw [hindex] at hat
    exact hname (Option.some.inj hat).symm

theorem getValue_foldl_applyParameter_other {σ : Type} (unit : AudioProcessor σ)
    (getValue : σ → Nat → ℚ)
    (hnamesFixed : ∀ state index value,
      unit.getParameters (unit.setValueNotifyingHost state index value)
        = unit.getParameters state)
    (hother : ∀ state index value other, other ≠ index →
      getValue (unit.setValueNotifyingHost state index value) other = getValue state other)
    (bindings : List ParameterState) (processor : σ) (index : Nat) (name : String)
    (hindex : (unit.getParameters processor)[index]? = some name)
    (hnames : ∀ binding ∈ bindings, binding.parameterName ≠ name) :
    getValue (bindings.foldl
        (fun processor paramState =>
          applyParameter unit processor paramState.parameterName paramState.value)
        processor) index
      = getValue processor index := by
  induction bindings generalizing processor with
  | nil => rfl
  | cons binding rest ih =>
    rw [List.foldl_cons, ih]
    · exact getValue_applyParameter_other unit getValue hother processor _ _ index name hindex
        (hnames binding (List.mem_cons_self _ _))
    · rw [getParameters_applyParameter unit hnamesFixed]
      exact hindex
    · exact fun b hb => hnames b (List.mem_cons_of_mem _ hb)

/-- The value that the parameter of the first binding of a name holds after all bindings, for
a unit whose setter keeps the names, changes no other parameter and stores `stored index value`
for a call with `value` on parameter `index`: what is stored for the last binding of the
name. -/
theorem getValue_foldl_applyParameter_last {σ : Type} (unit : AudioProcessor σ)
    (getValue : σ → Nat → ℚ) (stored : Nat → ℚ → ℚ)
    (hnamesFixed : ∀ state index value,
      unit.getParameters (unit.setValueNotifyingHost state index value)
        = unit.getParameters state)
    (hother : ∀ state index value other, other ≠ index →
      getValue (unit.setValueNotifyingHost state index value) other = getValue state other)
    (hstored : ∀ state index value, index < (unit.getParameters state).length →
      getValue (unit.setValueNotifyingHost state index value) index = stored index value)
    (earlier later : List ParameterState) (binding : ParameterState) (index : Nat)
    (processor : σ)
    (hlater : ∀ other ∈ later, other.parameterName ≠ binding.parameterName)
    (hfound : (unit.getParameters processor).indexOf? binding.parameterName = some index) :
    getValue ((earlier ++ binding :: later).foldl
        (fun processor paramState =>
          applyParameter unit processor paramState.parameterName paramState.value)
        processor) index
      = stored index binding.value := by
  have hnames := getParameters_foldl_applyParameter unit hnamesFixed earlier processor
  rw [List.foldl_append, List.foldl_cons]
  have hat := indexOf_opt_eq_some hfound
  have hstep : applyParameter unit
      (earlier.foldl (fun processor paramState =>
        applyParameter unit processor paramState.parameterName paramState.value) processor)
      binding.parameterName binding.value
      = unit.setValueNotifyingHost
        (earlier.foldl (fun processor paramState =>
          applyParameter unit processor paramState.parameterName paramState.value) processor)
        index binding.value := by
    rw [applyParameter_eq, hnames, hfound]
  rw [hstep, getValue_foldl_applyParameter_other unit getValue hnamesFixed hother later _ index
    binding.parameterName (by rw [hnamesFixed, hnames]; exact hat) hlater]
  apply hstored
  rw [hnames]
  exact (List.getElem?_eq_some_iff.mp hat).1

theorem simpleSynthUnit_value_other (noteInHertz : Int → ℚ) (sine : ℚ → ℚ)
    (state : SimpleSynth) (index : Nat) (value : ℚ) (other : Nat) (hother : other ≠ index) :
    ((simpleSynthUnit noteInHertz sine).setValueNotifyingHost state index value).parameterValue
        other
      = state.parameterValue other := by
  show (if index = 0 then { state with gain := max 0 (min 1 value) } else state).parameterValue
    other = state.parameterValue other
  by_cases hindex : index = 0
  · have hne : other ≠ 0 := fun h => hother (h.trans hindex.symm)
    simp [hindex, SimpleSynth.parameterValue, hne]
  · simp [hindex]

theorem simpleSynthUnit_value_stored (noteInHertz : Int → ℚ) (sine : ℚ → ℚ)
    (state : SimpleSynth) (index : Nat) (value : ℚ)
    (hindex : index < ((simpleSynthUnit noteInHertz sine).getParameters state).length) :
    ((simpleSynthUnit noteInHertz sine).setValueNotifyingHost state index value).parameterValue
        index
      = SimpleSynth.storedValue index value := by
  have hzero : index = 0 := by
    have : index < 1 := hindex
    omega
  subst hzero
  rfl

theorem parameterUnit_contract : ParameterContract parameterUnit parameterValue where
  names_fixed := by
    intro state index value
    show List.map _ (storeValue state index value) = List.map _ state
    induction state generalizing index with
    | nil => rfl
    | cons parameter rest ih =>
      cases index with
      | zero => rfl
      | succ index => simp only [storeValue, List.map_cons, ih]
  value_set := by
    intro state index value hindex
    have hlength : index < state.length := by
      simpa [parameterUnit] using hindex
    show parameterValue (storeValue state index value) index = value
    clear hindex
    induction state generalizing index with
    | nil => simp at hlength
    | cons parameter rest ih =>
      cases index with
      | zero => simp [parameterValue, storeValue]
      | succ index =>
        have h := ih index (Nat.lt_of_succ_lt_succ hlength)
        simpa [parameterValue, storeValue] using h
  value_other := by
    intro state index value other hother
    show parameterValue (storeValue state index value) other = parameterValue state other
    induction state generalizing index other with
    | nil => rfl
    | cons parameter rest ih =>
      cases index with
      | zero =>
        cases other with
        | zero => exact absurd rfl hother
        | succ other => simp [parameterValue, storeValue]
      | succ index =>
        cases other with
        | zero => simp [parameterValue, storeValue]
        | succ other =>
          have h := ih index other (fun h => hother (congrArg Nat.succ h))
          simpa [parameterValue, storeValue] using h

end GoldenAudio

namespace GoldenAudio

open GoldenAudioTestCase

/-! ## The order of the setter calls, unmatched names, repeated names -/

/-- C11 (amended): `applyParametersToProcessor` takes the bindings one after the other in the
order of their declaration, not the parameters in the order in which the unit lists them.  On a
unit that logs its setter calls the log grows by exactly the calls of `bindingCalls`, and the
unit is left as without the log; when setter calls leave the parameter names as they are, these
calls are, binding by binding in declaration order, one call for each binding whose name is the
name of a parameter, made on the first parameter of that name with the value of the binding. -/
theorem applyParametersToProcessor_binding_order {σ : Type} (tc : GoldenAudioTestCase)
    (unit : AudioProcessor σ) (processor : σ) (log : List (Nat × ℚ)) :
    tc.applyParametersToProcessor unit.recordingSetters (processor, log)
        = (tc.applyParametersToProcessor unit processor,
            log ++ bindingCalls unit tc.parameterStates processor)
      ∧ ((∀ state index value,
            unit.getParameters (unit.setValueNotifyingHost state index value)
              = unit.getParameters state) →
          bindingCalls unit tc.parameterStates processor
            = tc.parameterStates.filterMap (fun binding =>
                ((unit.getParameters processor).indexOf? binding.parameterName).map
                  (fun index => (index, binding.value)))) :=
  ⟨foldl_applyParameter_recordingSetters unit tc.parameterStates processor log,
    fun hnames => bindingCalls_eq_filterMap unit hnames tc.parameterStates processor _ rfl⟩

/-- Witness for C11: the bindings `cutoff`, `gain` on a unit with the parameters `gain`,
`cutoff`. -/
theorem applyParametersToProcessor_binding_order_witness :
    (∀ state index value,
        parameterUnit.getParameters (parameterUnit.setValueNotifyingHost state index value)
          = parameterUnit.getParameters state)
      ∧ bindingCalls parameterUnit cutoffThenGainCase.parameterStates gainThenCutoff
          = cutoffThenGainCase.parameterStates.filterMap (fun binding =>
              ((parameterUnit.getParameters gainThenCutoff).indexOf? binding.parameterName).map
                (fun index => (index, binding.value)))
      ∧ bindingCalls parameterUnit cutoffThenGainCase.parameterStates gainThenCutoff
          = [(1, 1 / 2), (0, 7 / 10)] :=
  ⟨parameterUnit_contract.names_fixed,
    (applyParametersToProcessor_binding_order cutoffThenGainCase parameterUnit gainThenCutoff
      []).2 parameterUnit_contract.names_fixed,
    by decide!⟩

/-- Counterexample to C11 as stated: the unit lists `gain` (index 0) before `cutoff`
(index 1), the test case declares the binding for `cutoff` before the binding for `gain`; the
setter of `cutoff` is called first and the setter of `gain` second, so the calls follow the
bindings and are not ordered by parameter position. -/
theorem applyParametersToProcessor_unit_order_counterexample :
    parameterUnit.getParameters gainThenCutoff = ["gain", "cutoff"]
      ∧ cutoffThenGainCase.parameterStates = [⟨"cutoff", 1 / 2⟩, ⟨"gain", 7 / 10⟩]
      ∧ (cutoffThenGainCase.applyParametersToProcessor parameterUnit.recordingSetters
          (gainThenCutoff, [])).2 = [(1, 1 / 2), (0, 7 / 10)]
      ∧ (cutoffThenGainCase.applyParametersToProcessor parameterUnit.recordingSetters
          (gainThenCutoff, [])).2 ≠ [(0, 7 / 10), (1, 1 / 2)]
      ∧ ¬ List.Pairwise (fun earlier later : Nat × ℚ => earlier.1 ≤ later.1)
          (cutoffThenGainCase.applyParametersToProcessor parameterUnit.recordingSetters
            (gainThenCutoff, [])).2 := by
  have hcalls : (cutoffThenGainCase.applyParametersToProcessor parameterUnit.recordingSetters
      (gainThenCutoff, [])).2 = [(1, 1 / 2), (0, 7 / 10)] := by decide!
  refine ⟨by decide!, by decide!, hcalls, ?_, ?_⟩
  · rw [hcalls]
    decide!
  · rw [hcalls]
    simp

/-- C13 (amended): `addParameter` keeps every binding, repeated names included, in the order of
the declarations: the bindings of a test case after a series of `addParameter` calls are the
bindings it had, followed by the bindings of the calls in order.  When a name that is the name
of a parameter is bound several times, the parameter (the first one of that name) holds, after
`applyParametersToProcessor`, what the setter of the unit stores for the value of the last
binding of that name (for a unit whose setter calls keep the parameter names and change no
other parameter): that value itself where the setter stores it as it is, and the value limited
to the range of the parameter for the gain of `SimpleSynth`. -/
theorem applyParametersToProcessor_last_binding_wins {σ : Type} (tc : GoldenAudioTestCase)
    (unit : AudioProcessor σ) (getValue : σ → Nat → ℚ) (stored : Nat → ℚ → ℚ) (processor : σ) :
    (∀ (name : String) (value : ℚ),
        (tc.addParameter name value).parameterStates = tc.parameterStates ++ [⟨name, value⟩])
      ∧ (∀ bindings : List ParameterState,
          (bindings.foldl (fun testCase binding =>
            testCase.addParameter binding.parameterName binding.value) tc).parameterStates
            = tc.parameterStates ++ bindings)
      ∧ ((∀ state index value,
            unit.getParameters (unit.setValueNotifyingHost state index value)
              = unit.getParameters state) →
          (∀ state index value other, other ≠ index →
            getValue (unit.setValueNotifyingHost state index value) other
              = getValue state other) →
          (∀ state index value, index < (unit.getParameters state).length →
            getValue (unit.setValueNotifyingHost state index value) index
              = stored index value) →
          ∀ (earlier later : List ParameterState) (binding : ParameterState) (index : Nat),
            tc.parameterStates = earlier ++ binding :: later →
            (∀ other ∈ later, other.parameterName ≠ binding.parameterName) →
            (unit.getParameters processor).indexOf? binding.parameterName = some index →
            getValue (tc.applyParametersToProcessor unit processor) index
                = stored index binding.value
              ∧ (stored index binding.value = binding.value →
                getValue (tc.applyParametersToProcessor unit processor) index
                  = binding.value)) := by
  refine ⟨fun _ _ => rfl, ?_, ?_⟩
  · intro bindings
    induction bindings generalizing tc with
    | nil => simp
    | cons binding rest ih =>
      rw [List.foldl_cons, ih (tc.addParameter binding.parameterName binding.value)]
      simp [addParameter]
  · intro hnames hother hstored earlier later binding index hsplit hlater hfound
    have hlast : getValue (tc.applyParametersToProcessor unit processor) index
        = stored index binding.value := by
      rw [applyParametersToProcessor, hsplit]
      exact getValue_foldl_applyParameter_last unit getValue stored hnames hother hstored earlier
        later binding index processor hlater hfound
    exact ⟨hlast, fun hsame => hlast.trans hsame⟩

/-- Witness for C13: the bindings `Gain = 0.2`, `Gain = 0.5` on a `SimpleSynth`: both bindings
are kept, and the gain ends with 0.5.  And the bindings `gain = 0.2`, `cutoff = 0.5`,
`gain = 0.7` on a mock unit with the parameters `gain`, `cutoff` that stores every value as it
is: all three bindings are kept, and `gain` ends with 0.7. -/
theorem applyParametersToProcessor_last_binding_wins_witness :
    repeatedSynthGainCase.parameterStates
        = [⟨"Gain", roundToFloat (1 / 5)⟩] ++ ⟨"Gain", 1 / 2⟩ :: []
      ∧ ((simpleSynthUnit concertPitch sawtooth).getParameters SimpleSynth.new).indexOf? "Gain"
          = some 0
      ∧ (repeatedSynthGainCase.applyParametersToProcessor
          (simpleSynthUnit concertPitch sawtooth) SimpleSynth.new).parameterValue 0 = 1 / 2
      ∧ repeatedGainCase.parameterStates
          = [⟨"gain", 1 / 5⟩, ⟨"cutoff", 1 / 2⟩] ++ ⟨"gain", 7 / 10⟩ :: []
      ∧ (parameterUnit.getParameters gainThenCutoff).indexOf? "gain" = some 0
      ∧ parameterValue (repeatedGainCase.applyParametersToProcessor parameterUnit gainThenCutoff) 0
          = 7 / 10
      ∧ repeatedGainCase.applyParametersToProcessor parameterUnit gainThenCutoff
          = [⟨"gain", 7 / 10⟩, ⟨"cutoff", 1 / 2⟩] := by
  have hsynthSplit : repeatedSynthGainCase.parameterStates
      = [⟨"Gain", roundToFloat (1 / 5)⟩] ++ ⟨"Gain", 1 / 2⟩ :: [] := by decide!
  have hsynthFound :
      ((simpleSynthUnit concertPitch sawtooth).getParameters SimpleSynth.new).indexOf? "Gain"
        = some 0 := by decide!
  have hsplit : repeatedGainCase.parameterStates
      = [⟨"gain", 1 / 5⟩, ⟨"cutoff", 1 / 2⟩] ++ ⟨"gain", 7 / 10⟩ :: [] := by decide!
  have hfound : (parameterUnit.getParameters gainThenCutoff).indexOf? "gain" = some 0 := by
    decide!
  exact ⟨hsynthSplit, hsynthFound,
    ((applyParametersToProcessor_last_binding_wins repeatedSynthGainCase
      (simpleSynthUnit concertPitch sawtooth) SimpleSynth.parameterValue SimpleSynth.storedValue
      SimpleSynth.new).2.2 (fun _ _ _ => rfl)
      (simpleSynthUnit_value_other concertPitch sawtooth)
      (simpleSynthUnit_value_stored concertPitch sawtooth) _ _ ⟨"Gain", 1 / 2⟩ 0 hsynthSplit
      (by simp) hsynthFound).2 (by decide!),
    hsplit, hfound,
    ((applyParametersToProcessor_last_binding_wins repeatedGainCase parameterUnit parameterValue
      (fun _ value => value) gainThenCutoff).2.2 parameterUnit_contract.names_fixed
      parameterUnit_contract.value_other parameterUnit_contract.value_set _ _
      ⟨"gain", 7 / 10⟩ 0 hsplit (by simp) hfound).1,
    by decide!⟩

/-- C13, as stated, fails on the unit of the repository: with the bindings `Gain = 0.2` and
then `Gain = 1.5` the gain parameter of `SimpleSynth`, whose range ends at 1, holds the value 1
after `applyParametersToProcessor`, not the value 1.5 of the last binding. -/
theorem applyParametersToProcessor_stored_value_counterexample :
    outOfRangeGainCase.parameterStates
        = [⟨"Gain", roundToFloat (1 / 5)⟩, ⟨"Gain", 3 / 2⟩]
      ∧ (simpleSynthUnit concertPitch sawtooth).getParameters SimpleSynth.new = ["Gain"]
      ∧ (outOfRangeGainCase.applyParametersToProcessor
          (simpleSynthUnit concertPitch sawtooth) SimpleSynth.new).parameterValue 0 = 1
      ∧ (outOfRangeGainCase.applyParametersToProcessor
          (simpleSynthUnit concertPitch sawtooth) SimpleSynth.new).parameterValue 0 ≠ 3 / 2
      ∧ (outOfRangeGainCase.applyParametersToProcessor
          ((simpleSynthUnit concertPitch sawtooth).recordingSetters) (SimpleSynth.new, [])).2
          = [(0, roundToFloat (1 / 5)), (0, 3 / 2)] := by
  refine ⟨by decide!, rfl, by decide!, by decide!, by decide!⟩

end GoldenAudio

namespace GoldenAudio

open GoldenAudioTestCase GoldenAudioTestSuite

/-! ## Chords -/

/-- C18: `addChord (noteNumbers, velocity, startTime, duration)` leaves the test case as the
calls `addNote (n, velocity, startTime, duration)` made one after the other for the note
numbers `n` in the order given: the timeline grows by one note per note number, in that order,
all with the same velocity, start time and duration, and nothing else changes.  In
particular `addChord ({60, 64, 67}, 0.6, 0.5, 1.0)` is the three `addNote` calls for 60, 64
and 67. -/
theorem addChord_eq_addNote_sequence (tc : GoldenAudioTestCase) (noteNumbers : List Int)
    (velocity startTime duration : ℚ) :
    tc.addChord noteNumbers velocity startTime duration
        = noteNumbers.foldl
            (fun testCase noteNumber => testCase.addNote noteNumber velocity startTime duration)
            tc
      ∧ tc.addChord noteNumbers velocity startTime duration
        = { tc with midiSequence := tc.midiSequence
              ++ noteNumbers.map (fun noteNumber =>
                  MidiNote.mk noteNumber velocity startTime duration) }
      ∧ tc.addChord [60, 64, 67] (3 / 5) (1 / 2) 1
        = ((tc.addNote 60 (3 / 5) (1 / 2) 1).addNote 64 (3 / 5) (1 / 2) 1).addNote 67 (3 / 5)
            (1 / 2) 1
      ∧ SimpleSynthChordTest.midiSequence
        = [⟨60, 3 / 5, 1 / 2, 1⟩, ⟨64, 3 / 5, 1 / 2, 1⟩, ⟨67, 3 / 5, 1 / 2, 1⟩] := by
  refine ⟨rfl, ?_, rfl, by decide!⟩
  unfold addChord
  induction noteNumbers generalizing tc with
  | nil => simp
  | cons noteNumber rest ih =>
    rw [List.foldl_cons, ih]
    simp [addNote]

end GoldenAudio

namespace GoldenAudio

open GoldenAudioTestCase GoldenAudioTestSuite

/-! ## No validation of the configuration -/

theorem renderLoop_returns {σ : Type} (tc : GoldenAudioTestCase) (unit : AudioProcessor σ)
    (hunit : ∀ s b m, ∃ s' b', unit.processBlock s b m = BlockResult.ok s' b')
    (midiBuffer : MidiBuffer) (windows : List (Int × Int)) (processor : σ)
    (outputBuffer : AudioBuffer) :
    ∃ result, renderLoop tc unit midiBuffer windows processor outputBuffer
      = Except.ok result := by
  induction windows generalizing processor outputBuffer with
  | nil => exact ⟨_, rfl⟩
  | cons window rest ih =>
    obtain ⟨s', b', h⟩ := hunit processor (AudioBuffer.cleared tc.numOutputChannels window.2)
      (extractMidiForBuffer midiBuffer [] window.1 window.2)
    simp only [renderLoop, renderBlock, h]
    exact ih _ _

theorem numChannels_copyFrom_foldl (channels : List Nat) (outputBuffer tempBuffer : AudioBuffer)
    (sampleOffset currentBufferSize : Int) :
    (channels.foldl (fun outputBuffer channel =>
        outputBuffer.copyFrom channel sampleOffset tempBuffer channel 0 currentBufferSize)
      outputBuffer).getNumChannels = outputBuffer.getNumChannels := by
  induction channels generalizing outputBuffer with
  | nil => rfl
  | cons c rest ih =>
    rw [List.foldl_cons, ih]
    simp [AudioBuffer.copyFrom, AudioBuffer.getNumChannels]

theorem numChannels_renderLoop {σ : Type} (tc : GoldenAudioTestCase) (unit : AudioProcessor σ)
    (midiBuffer : MidiBuffer) (windows : List (Int × Int)) (processor finalState : σ)
    (outputBuffer finalBuffer : AudioBuffer)
    (h : renderLoop tc unit midiBuffer windows processor outputBuffer
      = Except.ok (finalState, finalBuffer)) :
    finalBuffer.getNumChannels = outputBuffer.getNumChannels := by
  induction windows generalizing processor outputBuffer with
  | nil =>
    simp only [renderLoop, Except.ok.injEq, Prod.mk.injEq] at h
    rw [h.2]
  | cons window rest ih =>
    simp only [renderLoop, renderBlock] at h
    cases hblock : unit.processBlock processor
        (AudioBuffer.cleared tc.numOutputChannels window.2)
        (extractMidiForBuffer midiBuffer [] window.1 window.2) with
    | threw s e => simp [hblock] at h
    | ok s tempBuffer =>
      simp only [hblock] at h
      rw [ih _ _ h, numChannels_copyFrom_foldl]

/-- On a unit whose `processBlock` always returns, and with a writer that can be created,
`generateGoldenAudio` returns `true` and leaves a file at the output path whose header holds
the integer part of the sample rate and the number of output channels, and whose length is the
length of the output buffer. -/
theorem generateGoldenAudio_saves {σ : Type} (tc : GoldenAudioTestCase)
    (unit : AudioProcessor σ) (wav : WavWriter) (processor : σ) (files : FileSystem)
    (outputPath : String)
    (hunit : ∀ s b m, ∃ s' b', unit.processBlock s b m = BlockResult.ok s' b')
    (hwriter : ∀ channels, wav.createWriterFor outputPath tc.sampleRate channels = true) :
    (tc.generateGoldenAudio unit wav processor files outputPath).completion
        = Completion.returned true
      ∧ ∃ data, (tc.generateGoldenAudio unit wav processor files outputPath).files outputPath
          = some (FileEntry.audio data)
        ∧ data.sampleRate = (castToInt tc.sampleRate : ℚ)
        ∧ data.numChannels = tc.numOutputChannels
        ∧ data.lengthInSamples = (tc.totalSamples.toNat : Int) := by
  obtain ⟨⟨rendered, outputBuffer⟩, hrender⟩ : ∃ result, tc.render unit processor
      = Except.ok result := renderLoop_returns tc unit hunit _ _ _ _
  have hlength : outputBuffer.getNumSamples = tc.totalSamples.toNat :=
    numSamples_renderLoop tc unit _ _ _ _ _ _ hrender
  have hchannels : outputBuffer.getNumChannels = tc.numOutputChannels := by
    rw [numChannels_renderLoop tc unit _ _ _ _ _ _ hrender]
    simp [AudioBuffer.cleared, AudioBuffer.getNumChannels]
  unfold generateGoldenAudio
  rw [hrender]
  simp [saveToWavFile, hwriter, FileSystem.write, hlength, hchannels]

theorem compareFiles_files (tc : GoldenAudioTestCase) (sqrt : ℚ → ℚ) (files : FileSystem)
    (goldenPath tempPath : String) :
    (tc.compareFiles sqrt files goldenPath tempPath).2 = files.deleteFile tempPath := by
  unfold compareFiles
  split
  · rfl
  · split
    · split <;> rfl
    · rfl

/-- C17 (the code departs from the claim): `compareWithGoldenAudio` deletes the scratch file
`goldenPath + ".temp.wav"` on every exit that follows a rendering call that returned `true`,
but not on the exit taken when the rendering call did not return `true`: there it leaves the
files exactly as the rendering call left them. -/
theorem compareWithGoldenAudio_scratch_file {σ : Type} (tc : GoldenAudioTestCase)
    (unit : AudioProcessor σ) (wav : WavWriter) (sqrt : ℚ → ℚ) (processor : σ)
    (files : FileSystem) (goldenPath : String) :
    ((tc.generateGoldenAudio unit wav processor files (goldenPath ++ ".temp.wav")).completion
          = Completion.returned true →
        (tc.compareWithGoldenAudio unit wav sqrt processor files goldenPath).files
          (goldenPath ++ ".temp.wav") = none)
      ∧ ((tc.generateGoldenAudio unit wav processor files (goldenPath ++ ".temp.wav")).completion
          ≠ Completion.returned true →
        (tc.compareWithGoldenAudio unit wav sqrt processor files goldenPath).files
          = (tc.generateGoldenAudio unit wav processor files (goldenPath ++ ".temp.wav")).files)
    := by
  constructor
  · intro hgenerated
    simp only [compareWithGoldenAudio, hgenerated, compareFiles_files]
    simp [FileSystem.deleteFile]
  · intro hgenerated
    cases hcompletion : (tc.generateGoldenAudio unit wav processor files
        (goldenPath ++ ".temp.wav")).completion with
    | propagated exception => simp only [compareWithGoldenAudio, hcompletion]
    | returned value =>
      cases value with
      | false => simp only [compareWithGoldenAudio, hcompletion]
      | true => exact absurd hcompletion hgenerated

/-- Witness for C17, and the input on which the scratch file survives the call: no file exists
before the call, the writer for the scratch file cannot be created after its output stream has
created the file; the comparison returns `false` and the scratch file is still there.  With a
writer that can be created the scratch file is gone after the call. -/
theorem compareWithGoldenAudio_scratch_file_witness :
    noFiles "golden.wav.temp.wav" = none
      ∧ (tinyCase.compareWithGoldenAudio (idleUnit Nat) refusingWriter Rat.sqrt 0 noFiles
          "golden.wav").completion = Completion.returned false
      ∧ (tinyCase.compareWithGoldenAudio (idleUnit Nat) refusingWriter Rat.sqrt 0 noFiles
          "golden.wav").files "golden.wav.temp.wav" = some FileEntry.unreadable
      ∧ (tinyCase.compareWithGoldenAudio (idleUnit Nat) exactWriter Rat.sqrt 0 noFiles
          "golden.wav").files ("golden.wav" ++ ".temp.wav") = none := by
  have hrefused : (tinyCase.generateGoldenAudio (idleUnit Nat) refusingWriter 0 noFiles
      ("golden.wav" ++ ".temp.wav")).completion ≠ Completion.returned true := by decide!
  have hleft := (compareWithGoldenAudio_scratch_file tinyCase (idleUnit Nat) refusingWriter
    Rat.sqrt 0 noFiles "golden.wav").2 hrefused
  refine ⟨rfl, by decide!, ?_,
    (compareWithGoldenAudio_scratch_file tinyCase (idleUnit Nat) exactWriter Rat.sqrt 0 noFiles
      "golden.wav").1 (by decide!)⟩
  rw [hleft]
  decide!

end GoldenAudio

namespace GoldenAudio

open GoldenAudioTestCase GoldenAudioTestSuite

/-! ## The paths of the golden files of a suite -/

theorem runLoop_wav_path {σ : Type}
    (compare : GoldenAudioTestCase → σ → FileSystem → String → CallResult σ)
    (goldenDirectory : String) (testCases : List GoldenAudioTestCase) (allPassed : Bool)
    (suite : GoldenAudioTestSuite) (processor : σ) (files : FileSystem) :
    runLoop compare goldenDirectory testCases allPassed suite processor files
      = runLoop
          (fun testCase processor files _ =>
            compare testCase processor files
              (goldenDirectory ++ "/" ++ testCase.testName ++ ".wav"))
          goldenDirectory testCases allPassed suite processor files := by
  induction testCases generalizing allPassed suite processor files with
  | nil => rfl
  | cons testCase rest ih =>
    simp only [runLoop]
    cases hcompletion : (compare testCase processor files
        (goldenDirectory ++ "/" ++ testCase.testName ++ ".wav")).completion with
    | propagated exception => rfl
    | returned value =>
      cases value with
      | false => exact ih _ _ _ _
      | true => exact ih _ _ _ _

theorem generateLoop_files_other {σ : Type} (unit : AudioProcessor σ) (wav : WavWriter)
    (outputDirectory : String) (testCases : List GoldenAudioTestCase) (processor : σ)
    (files : FileSystem) (path : String)
    (hpath : ∀ testCase ∈ testCases,
      path ≠ outputDirectory ++ "/" ++ testCase.testName ++ ".wav") :
    (generateLoop unit wav outputDirectory testCases processor files).files path
      = files path := by
  induction testCases generalizing processor files with
  | nil => rfl
  | cons testCase rest ih =>
    have hstep := generateGoldenAudio_files_other testCase unit wav processor files
      (outputDirectory ++ "/" ++ testCase.testName ++ ".wav") path
      (hpath testCase (List.mem_cons_self _ _))
    simp only [generateLoop]
    cases hcompletion : (testCase.generateGoldenAudio unit wav processor files
        (outputDirectory ++ "/" ++ testCase.testName ++ ".wav")).completion with
    | propagated exception => exact hstep
    | returned value =>
      simp only []
      rw [ih _ _ (fun other hother => hpath other (List.mem_cons_of_mem _ hother))]
      exact hstep

theorem generateLoop_keeps_audio {σ : Type} (unit : AudioProcessor σ) (wav : WavWriter)
    (hunit : ∀ s b m, ∃ s' b', unit.processBlock s b m = BlockResult.ok s' b')
    (hwriter : ∀ path rate channels, wav.createWriterFor path rate channels = true)
    (outputDirectory : String) (testCases : List GoldenAudioTestCase) (processor : σ)
    (files : FileSystem) (path : String)
    (hfile : (∃ data, files path = some (FileEntry.audio data))
      ∨ ∃ testCase ∈ testCases,
          path = outputDirectory ++ "/" ++ testCase.testName ++ ".wav") :
    ∃ data, (generateLoop unit wav outputDirectory testCases processor files).files path
      = some (FileEntry.audio data) := by
  induction testCases generalizing processor files with
  | nil =>
    rcases hfile with hfile | ⟨_, hmem, _⟩
    · exact hfile
    · simp at hmem
  | cons testCase rest ih =>
    have hsaved := generateGoldenAudio_saves testCase unit wav processor files
      (outputDirectory ++ "/" ++ testCase.testName ++ ".wav") hunit (fun _ => hwriter _ _ _)
    simp only [generateLoop, hsaved.1]
    apply ih
    by_cases hpath : path = outputDirectory ++ "/" ++ testCase.testName ++ ".wav"
    · obtain ⟨data, hdata, _⟩ := hsaved.2
      exact Or.inl ⟨data, by rw [hpath]; exact hdata⟩
    · rcases hfile with ⟨data, hdata⟩ | ⟨other, hmem, hother⟩
      · refine Or.inl ⟨data, ?_⟩
        rw [generateGoldenAudio_files_other testCase unit wav processor files _ path hpath]
        exact hdata
      · rcases List.mem_cons.mp hmem with rfl | hrest
        · exact absurd hother hpath
        · exact Or.inr ⟨other, hrest, hother⟩

end GoldenAudio

namespace GoldenAudio

open GoldenAudioTestCase

/-! ## Round trip: a rendering compared with its own golden file -/

theorem foldl_fixed {α β : Type} (f : α → β → α) (l : List β) (init : α)
    (h : ∀ b, f init b = init) : l.foldl f init = init := by
  induction l with
  | nil => rfl
  | cons b rest ih => rw [List.foldl_cons, h b, ih]

theorem accumulateDifference_self (buffer : AudioBuffer) :
    (accumulateDifference buffer buffer).1 = 0 := by
  unfold accumulateDifference
  have h := foldl_accumulate_channels
    (fun channel sum sample =>
      roundToFloat (sum + roundToFloat
        (roundToFloat (buffer.getSample channel sample - buffer.getSample channel sample)
          * roundToFloat (buffer.getSample channel sample - buffer.getSample channel sample))))
    (List.range buffer.getNumSamples) (List.range buffer.getNumChannels) (0, 0)
  rw [h]
  apply foldl_fixed
  intro channel
  apply foldl_fixed
  intro sample
  simp [roundToFloat_zero]

theorem calculateRMSDifference_self (sqrt : ℚ → ℚ) (hsqrt : sqrt 0 = 0) (buffer : AudioBuffer) :
    calculateRMSDifference sqrt buffer buffer = 0 := by
  unfold calculateRMSDifference
  rw [if_neg (by simp)]
  simp only [accumulateDifference_self, zero_div, roundToFloat_zero, hsqrt, ite_self]

/-- Two rendering calls from the same state of the unit that both return `true` write the same
content: the header holds the integer part of the sample rate and the number of output
channels. -/
theorem generateGoldenAudio_same_content {σ : Type} (tc : GoldenAudioTestCase)
    (unit : AudioProcessor σ) (wav : WavWriter) (processor : σ) (files₁ files₂ : FileSystem)
    (path₁ path₂ : String)
    (h₁ : (tc.generateGoldenAudio unit wav processor files₁ path₁).completion
      = Completion.returned true)
    (h₂ : (tc.generateGoldenAudio unit wav processor files₂ path₂).completion
      = Completion.returned true) :
    ∃ data, (tc.generateGoldenAudio unit wav processor files₁ path₁).files path₁
        = some (FileEntry.audio data)
      ∧ (tc.generateGoldenAudio unit wav processor files₂ path₂).files path₂
        = some (FileEntry.audio data)
      ∧ data.sampleRate = (castToInt tc.sampleRate : ℚ)
      ∧ data.numChannels = tc.numOutputChannels := by
  unfold generateGoldenAudio at h₁ h₂ ⊢
  cases hrender : tc.render unit processor with
  | error failure =>
    obtain ⟨p, e⟩ := failure
    rw [hrender] at h₁
    cases e <;> simp at h₁
  | ok result =>
    obtain ⟨p, out⟩ := result
    have hchannels : out.getNumChannels = tc.numOutputChannels := by
      rw [numChannels_renderLoop tc unit _ _ _ _ _ _ hrender]
      simp [AudioBuffer.cleared, AudioBuffer.getNumChannels]
    rw [hrender] at h₁ h₂
    simp only [saveToWavFile] at h₁ h₂ ⊢
    by_cases hw₁ : wav.createWriterFor path₁ tc.sampleRate out.getNumChannels = true
    · by_cases hw₂ : wav.createWriterFor path₂ tc.sampleRate out.getNumChannels = true
      · refine ⟨⟨(castToInt tc.sampleRate : ℚ), out.getNumChannels, out.getNumSamples,
          out.channels.map (fun samples => samples.map wav.pcm16)⟩, ?_, ?_, rfl, hchannels⟩
        · simp [hw₁, FileSystem.write]
        · simp [hw₂, FileSystem.write]
      · simp [hw₂] at h₂
    · simp [hw₁] at h₁

/-- A comparison whose golden file holds what the rendering call has written to the scratch
file returns `true` when a reader can be created for that content, and `false` when none can. -/
theorem compareWithGoldenAudio_same_content {σ : Type} (tc : GoldenAudioTestCase)
    (unit : AudioProcessor σ) (wav : WavWriter) (sqrt : ℚ → ℚ) (processor : σ)
    (files : FileSystem) (goldenPath : String) (rendered : AudioData)
    (hsqrt : sqrt 0 = 0) (htolerance : 0 ≤ tc.comparisonTolerance)
    (hgenerated : (tc.generateGoldenAudio unit wav processor files
      (goldenPath ++ ".temp.wav")).completion = Completion.returned true)
    (hrendered : (tc.generateGoldenAudio unit wav processor files
      (goldenPath ++ ".temp.wav")).files (goldenPath ++ ".temp.wav")
        = some (FileEntry.audio rendered))
    (hgolden : files goldenPath = some (FileEntry.audio rendered)) :
    (tc.compareWithGoldenAudio unit wav sqrt processor files goldenPath).completion
      = Completion.returned (decide (0 < rendered.sampleRate ∧ 0 < rendered.numChannels)) := by
  have hkept : (tc.generateGoldenAudio unit wav processor files
      (goldenPath ++ ".temp.wav")).files goldenPath = some (FileEntry.audio rendered) := by
    rw [generateGoldenAudio_files_other tc unit wav processor files _ goldenPath
      (append_temp_ne goldenPath)]
    exact hgolden
  have hshape : ¬ (rendered.sampleRate ≠ rendered.sampleRate
      ∨ rendered.numChannels ≠ rendered.numChannels
      ∨ rendered.lengthInSamples ≠ rendered.lengthInSamples) := by simp
  by_cases hreadable : 0 < rendered.sampleRate ∧ 0 < rendered.numChannels
  · simp only [compareWithGoldenAudio, hgenerated, compareFiles, hkept, hrendered,
      FileSystem.createReaderFor, Option.isNone_some, if_pos hreadable, if_neg hshape,
      calculateRMSDifference_self sqrt hsqrt, decide_eq_true hreadable]
    simp [htolerance]
  · simp only [compareWithGoldenAudio, hgenerated, compareFiles, hkept, hrendered,
      FileSystem.createReaderFor, Option.isNone_some, if_neg hreadable,
      decide_eq_false hreadable]
    simp

/-- C15 (amended): a rendering compared with a golden file saved from the same rendering
passes for every tolerance that is not negative (`std::sqrt (0) = 0` being given) whenever the
file saved can be read back, that is, when the integer part of the sample rate is positive and
there is at least one output channel; otherwise the comparison fails.
`calculateRMSDifference` of a buffer with itself is zero, whatever the buffer, a buffer
without samples included; a comparison whose golden file holds what the rendering call has
written to the scratch file returns `true` if a reader can be created for that content and
`false` if not; and the comparison that follows a `generateGoldenAudio` into the golden path,
run from the same state of the unit, returns `true` if the integer part of the sample rate is
positive and the test case has an output channel, and `false` if not, whenever both rendering
calls return `true`. -/
theorem compareWithGoldenAudio_round_trip {σ : Type} (tc : GoldenAudioTestCase)
    (unit : AudioProcessor σ) (wav : WavWriter) (sqrt : ℚ → ℚ) (processor : σ)
    (files : FileSystem) (goldenPath : String) :
    (sqrt 0 = 0 → ∀ buffer : AudioBuffer, calculateRMSDifference sqrt buffer buffer = 0)
      ∧ (sqrt 0 = 0 → 0 ≤ tc.comparisonTolerance →
          ∀ rendered : AudioData,
          (tc.generateGoldenAudio unit wav processor files
            (goldenPath ++ ".temp.wav")).completion = Completion.returned true →
          (tc.generateGoldenAudio unit wav processor files
            (goldenPath ++ ".temp.wav")).files (goldenPath ++ ".temp.wav")
              = some (FileEntry.audio rendered) →
          files goldenPath = some (FileEntry.audio rendered) →
          (tc.compareWithGoldenAudio unit wav sqrt processor files goldenPath).completion
            = Completion.returned
              (decide (0 < rendered.sampleRate ∧ 0 < rendered.numChannels)))
      ∧ (sqrt 0 = 0 → 0 ≤ tc.comparisonTolerance →
          (tc.generateGoldenAudio unit wav processor files goldenPath).completion
            = Completion.returned true →
          (tc.generateGoldenAudio unit wav processor
            (tc.generateGoldenAudio unit wav processor files goldenPath).files
            (goldenPath ++ ".temp.wav")).completion = Completion.returned true →
          (tc.compareWithGoldenAudio unit wav sqrt processor
              (tc.generateGoldenAudio unit wav processor files goldenPath).files
              goldenPath).completion
            = Completion.returned
              (decide (0 < castToInt tc.sampleRate ∧ 0 < tc.numOutputChannels))
          ∧ (0 < castToInt tc.sampleRate → 0 < tc.numOutputChannels →
            (tc.compareWithGoldenAudio unit wav sqrt processor
              (tc.generateGoldenAudio unit wav processor files goldenPath).files
              goldenPath).completion = Completion.returned true)) := by
  refine ⟨fun hsqrt => calculateRMSDifference_self sqrt hsqrt, ?_, ?_⟩
  · intro hsqrt htolerance rendered hgenerated hrendered hgolden
    exact compareWithGoldenAudio_same_content tc unit wav sqrt processor files goldenPath
      rendered hsqrt htolerance hgenerated hrendered hgolden
  · intro hsqrt htolerance hsaved hgenerated
    obtain ⟨data, hgolden, hrendered, hrate, hchannels⟩ := generateGoldenAudio_same_content tc
      unit wav processor files (tc.generateGoldenAudio unit wav processor files goldenPath).files
      goldenPath (goldenPath ++ ".temp.wav") hsaved hgenerated
    have hcompared := compareWithGoldenAudio_same_content tc unit wav sqrt processor _ goldenPath
      data hsqrt htolerance hgenerated hrendered hgolden
    have hsame : (0 < data.sampleRate ∧ 0 < data.numChannels)
        ↔ (0 < castToInt tc.sampleRate ∧ 0 < tc.numOutputChannels) := by
      rw [hrate, hchannels]
      exact and_congr_left' Int.cast_pos
    rw [decide_eq_decide.mpr hsame] at hcompared
    refine ⟨hcompared, ?_⟩
    intro hratePositive hchannelsPositive
    rw [hcompared, decide_eq_true (And.intro hratePositive hchannelsPositive)]

/-- Witness for C15: the ramp generator rendered by `tinyCase` (10 Hz, two channels) with a
tolerance of zero; the golden file is generated on a machine without files, and the comparison
run from the same state of the unit passes. -/
theorem compareWithGoldenAudio_round_trip_witness :
    sqrtToFloat 0 = 0
      ∧ zeroToleranceCase.comparisonTolerance = 0
      ∧ (zeroToleranceCase.generateGoldenAudio rampUnit exactWriter 0 noFiles
          "golden.wav").completion = Completion.returned true
      ∧ (zeroToleranceCase.compareWithGoldenAudio rampUnit exactWriter sqrtToFloat 0
          (zeroToleranceCase.generateGoldenAudio rampUnit exactWriter 0 noFiles
            "golden.wav").files "golden.wav").completion = Completion.returned true
      ∧ calculateRMSDifference sqrtToFloat (AudioBuffer.cleared 2 0) (AudioBuffer.cleared 2 0)
          = 0 := by
  have hsqrt : sqrtToFloat 0 = 0 := by decide!
  have htolerance : zeroToleranceCase.comparisonTolerance = 0 := by decide!
  have hsaved : (zeroToleranceCase.generateGoldenAudio rampUnit exactWriter 0 noFiles
      "golden.wav").completion = Completion.returned true := by decide!
  have h := compareWithGoldenAudio_round_trip zeroToleranceCase rampUnit exactWriter sqrtToFloat
    0 noFiles "golden.wav"
  exact ⟨hsqrt, htolerance, hsaved,
    (h.2.2 hsqrt (le_of_eq htolerance.symm) hsaved (by decide!)).2 (by decide!) (by decide!),
    h.1 hsqrt _⟩

/-- C15, as stated, fails for a test case with a sample rate of zero: the rendering into the
golden file returns `true`, the rendering of the comparison returns `true`, the two files hold
the same content, and the comparison returns `false`, because the files hold the sample rate 0
and no reader can be created for them. -/
theorem compareWithGoldenAudio_round_trip_counterexample :
    zeroRateCase.sampleRate = 0
      ∧ 0 ≤ zeroRateCase.comparisonTolerance
      ∧ (zeroRateCase.generateGoldenAudio (idleUnit Nat) exactWriter 0 noFiles
          "golden.wav").completion = Completion.returned true
      ∧ (zeroRateCase.generateGoldenAudio (idleUnit Nat) exactWriter 0
          (zeroRateCase.generateGoldenAudio (idleUnit Nat) exactWriter 0 noFiles
            "golden.wav").files ("golden.wav" ++ ".temp.wav")).completion
          = Completion.returned true
      ∧ (zeroRateCase.generateGoldenAudio (idleUnit Nat) exactWriter 0 noFiles
          "golden.wav").files "golden.wav"
          = some (FileEntry.audio ⟨0, 2, 0, [[], []]⟩)
      ∧ (zeroRateCase.generateGoldenAudio (idleUnit Nat) exactWriter 0 noFiles
          "golden.wav").files.createReaderFor "golden.wav" = none
      ∧ (zeroRateCase.compareWithGoldenAudio (idleUnit Nat) exactWriter sqrtToFloat 0
          (zeroRateCase.generateGoldenAudio (idleUnit Nat) exactWriter 0 noFiles
            "golden.wav").files "golden.wav").completion = Completion.returned false := by
  refine ⟨by decide!, by decide!, by decide!, by decide!, by decide!, by decide!, by decide!⟩

end GoldenAudio

namespace GoldenAudio

open GoldenAudioTestCase

/-! ## Which block receives which event -/

theorem window_iff_block (bufferSize totalSamples position : Int) (block : Nat)
    (hsize : 0 < bufferSize) :
    ((block : Int) * bufferSize ≤ position
        ∧ position < (block : Int) * bufferSize
            + min bufferSize (totalSamples - (block : Int) * bufferSize))
      ↔ (0 ≤ position ∧ position < totalSamples ∧ position / bufferSize = (block : Int)) := by
  have hblock : (0 : Int) ≤ (block : Int) * bufferSize :=
    Int.mul_nonneg (Int.ofNat_nonneg _) (le_of_lt hsize)
  have hleft := min_le_left bufferSize (totalSamples - (block : Int) * bufferSize)
  have hright := min_le_right bufferSize (totalSamples - (block : Int) * bufferSize)
  have hchoice := min_choice bufferSize (totalSamples - (block : Int) * bufferSize)
  generalize min bufferSize (totalSamples - (block : Int) * bufferSize) = size at *
  constructor
  · rintro ⟨hlow, hhigh⟩
    refine ⟨by omega, by omega, ?_⟩
    have hunique := (@Int.ediv_emod_unique position bufferSize
      (position - (block : Int) * bufferSize) (block : Int) hsize).mpr
      ⟨by rw [mul_comm]; omega, by omega, by omega⟩
    exact hunique.1
  · rintro ⟨hlow, hhigh, hdiv⟩
    have h1 := Int.ediv_mul_le position (ne_of_gt hsize)
    have h2 := Int.lt_ediv_add_one_mul_self position hsize
    rw [hdiv] at h1 h2
    have h3 : ((block : Int) + 1) * bufferSize = (block : Int) * bufferSize + bufferSize := by
      ring
    refine ⟨h1, ?_⟩
    rcases hchoice with h | h <;> omega

theorem renderWindows_getElem_opt (tc : GoldenAudioTestCase) (htotal : 0 ≤ tc.totalSamples)
    (hsize : 0 < tc.bufferSize) (block : Nat) (hblock : block < tc.totalBuffers.toNat) :
    tc.renderWindows[block]?
      = some ((block : Int) * tc.bufferSize,
          min tc.bufferSize (tc.totalSamples - (block : Int) * tc.bufferSize)) := by
  obtain ⟨hn0, hlow, _⟩ := totalBuffers_bounds tc htotal hsize
  have hfull : ∀ m : Int, 0 ≤ m → m + 1 < 0 + (tc.totalBuffers.toNat : Int) →
      (m + 1) * tc.bufferSize ≤ tc.totalSamples := by
    intro m _ hm
    have : (m + 1) * tc.bufferSize ≤ (tc.totalBuffers - 1) * tc.bufferSize :=
      Int.mul_le_mul_of_nonneg_right (by omega) (le_of_lt hsize)
    linarith
  have h := blockWindows_getElem_opt tc.bufferSize tc.totalSamples tc.totalBuffers.toNat 0
    hfull block hblock
  simpa [renderWindows] using h

theorem extractMidiForBuffer_eq_eventsOfBlock (tc : GoldenAudioTestCase)
    (source : MidiBuffer) (hsorted : source.Sorted) (hsize : 0 < tc.bufferSize) (block : Nat) :
    extractMidiForBuffer source [] ((block : Int) * tc.bufferSize)
        (min tc.bufferSize (tc.totalSamples - (block : Int) * tc.bufferSize))
      = tc.eventsOfBlock source block := by
  rw [extractMidiForBuffer_append _ _ _ _ hsorted (by simp), List.nil_append]
  unfold eventsOfBlock
  have hfilter : source.filter (fun e =>
        decide ((block : Int) * tc.bufferSize ≤ e.samplePosition
          ∧ e.samplePosition < (block : Int) * tc.bufferSize
              + min tc.bufferSize (tc.totalSamples - (block : Int) * tc.bufferSize)))
      = source.filter (fun event =>
        decide (0 ≤ event.samplePosition ∧ event.samplePosition < tc.totalSamples
          ∧ event.samplePosition / tc.bufferSize = (block : Int))) := by
    apply List.filter_congr
    intro e _
    exact decide_eq_decide.mpr
      (window_iff_block tc.bufferSize tc.totalSamples e.samplePosition block hsize)
  rw [hfilter]
  apply List.map_congr_left
  intro e he
  have hdiv : e.samplePosition / tc.bufferSize = (block : Int) := by
    have := (List.mem_filter.mp he).2
    simp only [decide_eq_true_eq] at this
    exact this.2.2
  rw [Int.emod_def, hdiv, mul_comm]

theorem renderWindows_map_extractMidiForBuffer (tc : GoldenAudioTestCase)
    (htotal : 0 ≤ tc.totalSamples) (hsize : 0 < tc.bufferSize) (source : MidiBuffer)
    (hsorted : source.Sorted) :
    tc.renderWindows.map (fun window => extractMidiForBuffer source [] window.1 window.2)
      = (List.range tc.totalBuffers.toNat).map (tc.eventsOfBlock source) := by
  apply List.ext_getElem?
  intro block
  by_cases hblock : block < tc.totalBuffers.toNat
  · simp [renderWindows_getElem_opt tc htotal hsize block hblock,
      List.getElem?_range hblock, extractMidiForBuffer_eq_eventsOfBlock tc source hsorted hsize]
  · have hlength : tc.renderWindows.length = tc.totalBuffers.toNat := by
      unfold renderWindows
      exact length_blockWindows _ _ _ _
    rw [List.getElem?_eq_none (by simp [hlength]; omega),
      List.getElem?_eq_none (by simp; omega)]

/-- C20: in a rendering with `totalSamples ≥ 0` and a positive block size, an event with
sample offset `p` is passed to the unit exactly if `0 ≤ p < totalSamples`, and then in the one
block `floor (p / blockSize)`, at the offset `p mod blockSize` relative to the start of that
block: for every event buffer `source` (a buffer of the library is sorted), the events that the
rendering loop passes in the successive `processBlock` calls are, block by block, the events
`eventsOfBlock` of `source`, and the block `floor (p / blockSize)` of an event with
`0 ≤ p < totalSamples` is one of the blocks rendered.  So it is for the timeline of the test
case in `generateGoldenAudio`.  An event with `p ≥ totalSamples`, such as the note-off of a
note that ends at or after the end of the rendering, is in the events of no block. -/
theorem blockInputs_eq_eventsOfBlock (tc : GoldenAudioTestCase) (htotal : 0 ≤ tc.totalSamples)
    (hsize : 0 < tc.bufferSize) :
    (∀ source : MidiBuffer, source.Sorted →
        ∃ finalBuffer, renderLoop tc callRecorder source tc.renderWindows []
            (AudioBuffer.cleared tc.numOutputChannels tc.totalSamples)
          = Except.ok (tc.renderWindows.map (fun window =>
              (AudioBuffer.cleared tc.numOutputChannels window.2,
                extractMidiForBuffer source [] window.1 window.2)), finalBuffer)
          ∧ tc.renderWindows.map
              (fun window => extractMidiForBuffer source [] window.1 window.2)
            = (List.range tc.totalBuffers.toNat).map (tc.eventsOfBlock source))
      ∧ tc.blockInputs.map Prod.snd
          = (List.range tc.totalBuffers.toNat).map (tc.eventsOfBlock tc.createMidiBuffer)
      ∧ (∃ finalBuffer, tc.render callRecorder [] = Except.ok (tc.blockInputs, finalBuffer))
      ∧ (∀ source : MidiBuffer, ∀ event ∈ source,
          0 ≤ event.samplePosition → event.samplePosition < tc.totalSamples →
          (event.samplePosition / tc.bufferSize).toNat < tc.totalBuffers.toNat
            ∧ MidiEvent.mk event.message (event.samplePosition % tc.bufferSize)
                ∈ tc.eventsOfBlock source (event.samplePosition / tc.bufferSize).toNat)
      ∧ (∀ (source : MidiBuffer) (block : Nat), ∀ delivered ∈ tc.eventsOfBlock source block,
          ∃ event ∈ source,
            0 ≤ event.samplePosition ∧ event.samplePosition < tc.totalSamples
              ∧ event.samplePosition / tc.bufferSize = (block : Int)
              ∧ delivered
                  = MidiEvent.mk event.message (event.samplePosition % tc.bufferSize)) := by
  obtain ⟨hn0, _, hhigh⟩ := totalBuffers_bounds tc htotal hsize
  refine ⟨?_, ?_, render_callRecorder tc, ?_, ?_⟩
  · intro source hsorted
    obtain ⟨finalBuffer, hloop⟩ := renderLoop_callRecorder tc source tc.renderWindows []
      (AudioBuffer.cleared tc.numOutputChannels tc.totalSamples)
    exact ⟨finalBuffer, by simpa using hloop,
      renderWindows_map_extractMidiForBuffer tc htotal hsize source hsorted⟩
  · have h := renderWindows_map_extractMidiForBuffer tc htotal hsize tc.createMidiBuffer
      (createMidiBuffer_sorted tc)
    rw [← h]
    simp [blockInputs]
  · intro source event hevent hlow hhigh2
    have hquot : 0 ≤ event.samplePosition / tc.bufferSize :=
      Int.ediv_nonneg hlow (le_of_lt hsize)
    have hlt : event.samplePosition / tc.bufferSize < tc.totalBuffers :=
      Int.ediv_lt_of_lt_mul hsize (lt_of_lt_of_le hhigh2 hhigh)
    refine ⟨by omega, ?_⟩
    unfold eventsOfBlock
    apply List.mem_map.mpr
    refine ⟨event, List.mem_filter.mpr ⟨hevent, ?_⟩, rfl⟩
    simp only [decide_eq_true_eq]
    exact ⟨hlow, hhigh2, (Int.toNat_of_nonneg hquot).symm⟩
  · intro source block delivered hdelivered
    unfold eventsOfBlock at hdelivered
    obtain ⟨event, hevent, hmap⟩ := List.mem_map.mp hdelivered
    have hin := List.mem_filter.mp hevent
    have hcond := hin.2
    simp only [decide_eq_true_eq] at hcond
    exact ⟨event, hin.1, hcond.1, hcond.2.1, hcond.2.2, hmap.symm⟩

/-- Witness for C20: ten samples in blocks of 4 with a note from sample 5 to sample 15: the
note-on goes to block 1 at offset 1, and the note-off, at sample 15, to no block. -/
theorem blockInputs_eq_eventsOfBlock_witness :
    0 ≤ lateEndCase.totalSamples
      ∧ 0 < lateEndCase.bufferSize
      ∧ lateEndCase.createMidiBuffer
          = [MidiEvent.mk (MidiMessage.noteOn 1 60 (4 / 5)) 5,
              MidiEvent.mk (MidiMessage.noteOff 1 60 0) 15]
      ∧ lateEndCase.blockInputs.map Prod.snd
          = (List.range lateEndCase.totalBuffers.toNat).map
              (lateEndCase.eventsOfBlock lateEndCase.createMidiBuffer)
      ∧ lateEndCase.blockInputs.map Prod.snd
          = [[], [MidiEvent.mk (MidiMessage.noteOn 1 60 (4 / 5)) 1], []] := by
  have htotal : 0 ≤ lateEndCase.totalSamples := by decide!
  have hsize : 0 < lateEndCase.bufferSize := by decide!
  exact ⟨htotal, hsize, by decide!,
    (blockInputs_eq_eventsOfBlock lateEndCase htotal hsize).2.1, by decide!⟩

end GoldenAudio

namespace GoldenAudio

open GoldenAudioTestCase

/-! ## The note-off of a note and its note-on -/

/-- C14 (amended): for a note with `startTime ≥ 0`, a sample rate `> 0` and
`duration * sampleRate ≥ 1`, the sample position of the note-off,
`floor ((startTime + duration) * sampleRate)`, is strictly greater than that of the note-on,
`floor (startTime * sampleRate)`, when the sum and the products are exact: in exact
arithmetic, and in rounded arithmetic whenever the three results are not changed by the
rounding, which includes the positions that `createMidiBuffer` computes whenever the sum and
the products are `double` values.  In rounded arithmetic in general (every operation rounded
by a monotone rounding such as the rounding to the nearest `double`, the start time being a
value that the rounding leaves as it is) the position of the note-off is not smaller than that
of the note-on, for every duration and sample rate that are not negative; the two positions
can be equal.  The positions of the two events of `createMidiBuffer` are those of the
arithmetic rounded to the nearest `double`. -/
theorem noteOff_after_noteOn (round : ℚ → ℚ) (sampleRate : ℚ) (note : MidiNote) :
    noteEvents sampleRate note
        = [MidiEvent.mk (MidiMessage.noteOn 1 note.noteNumber note.velocity)
            (roundedNoteSamples roundToDouble sampleRate note).1,
          MidiEvent.mk (MidiMessage.noteOff 1 note.noteNumber 0)
            (roundedNoteSamples roundToDouble sampleRate note).2]
      ∧ (0 ≤ note.startTime → 0 < sampleRate → 1 ≤ note.duration * sampleRate →
          (roundedNoteSamples id sampleRate note).1 = ⌊note.startTime * sampleRate⌋
            ∧ (roundedNoteSamples id sampleRate note).2
              = ⌊(note.startTime + note.duration) * sampleRate⌋
            ∧ (roundedNoteSamples id sampleRate note).1
              < (roundedNoteSamples id sampleRate note).2)
      ∧ (roundToDouble (note.startTime + note.duration) = note.startTime + note.duration →
          roundToDouble (note.startTime * sampleRate) = note.startTime * sampleRate →
          roundToDouble ((note.startTime + note.duration) * sampleRate)
            = (note.startTime + note.duration) * sampleRate →
          0 ≤ note.startTime → 0 < sampleRate → 1 ≤ note.duration * sampleRate →
          ∃ noteOn noteOff, noteEvents sampleRate note = [noteOn, noteOff]
            ∧ noteOn.samplePosition = ⌊note.startTime * sampleRate⌋
            ∧ noteOff.samplePosition = ⌊(note.startTime + note.duration) * sampleRate⌋
            ∧ noteOn.samplePosition < noteOff.samplePosition)
      ∧ (round (note.startTime + note.duration) = note.startTime + note.duration →
          round (note.startTime * sampleRate) = note.startTime * sampleRate →
          round ((note.startTime + note.duration) * sampleRate)
            = (note.startTime + note.duration) * sampleRate →
          0 ≤ note.startTime → 0 < sampleRate → 1 ≤ note.duration * sampleRate →
          (roundedNoteSamples round sampleRate note).1
            < (roundedNoteSamples round sampleRate note).2)
      ∧ (Monotone round → round note.startTime = note.startTime →
          0 ≤ note.duration → 0 ≤ sampleRate →
          (roundedNoteSamples round sampleRate note).1
            ≤ (roundedNoteSamples round sampleRate note).2) := by
  have hexact : 0 ≤ note.startTime → 0 < sampleRate → 1 ≤ note.duration * sampleRate →
      castToInt (note.startTime * sampleRate)
        < castToInt ((note.startTime + note.duration) * sampleRate) := by
    intro hstart hrate hduration
    apply castToInt_lt_of_add_one_le (mul_nonneg hstart (le_of_lt hrate))
    rw [add_mul]
    linarith
  have hon : 0 ≤ note.startTime → 0 < sampleRate →
      castToInt (note.startTime * sampleRate) = ⌊note.startTime * sampleRate⌋ :=
    fun hstart hrate => castToInt_of_nonneg _ (mul_nonneg hstart (le_of_lt hrate))
  have hoff : 0 ≤ note.startTime → 0 < sampleRate → 1 ≤ note.duration * sampleRate →
      castToInt ((note.startTime + note.duration) * sampleRate)
        = ⌊(note.startTime + note.duration) * sampleRate⌋ := by
    intro hstart hrate hduration
    apply castToInt_of_nonneg
    have := mul_nonneg hstart (le_of_lt hrate)
    rw [add_mul]
    linarith
  refine ⟨rfl, ?_, ?_, ?_, ?_⟩
  · intro hstart hrate hduration
    exact ⟨hon hstart hrate, hoff hstart hrate hduration, hexact hstart hrate hduration⟩
  · intro hsum hstartProduct hendProduct hstart hrate hduration
    refine ⟨_, _, rfl, ?_, ?_, ?_⟩
    · show castToInt (roundToDouble (note.startTime * sampleRate)) = _
      rw [hstartProduct]
      exact hon hstart hrate
    · show castToInt
        (roundToDouble (roundToDouble (note.startTime + note.duration) * sampleRate)) = _
      rw [hsum, hendProduct]
      exact hoff hstart hrate hduration
    · show castToInt (roundToDouble (note.startTime * sampleRate))
        < castToInt
          (roundToDouble (roundToDouble (note.startTime + note.duration) * sampleRate))
      rw [hsum, hstartProduct, hendProduct]
      exact hexact hstart hrate hduration
  · intro hsum hstartProduct hendProduct hstart hrate hduration
    simp only [roundedNoteSamples, hsum, hstartProduct, hendProduct]
    exact hexact hstart hrate hduration
  · intro hround hstart hduration hrate
    simp only [roundedNoteSamples]
    apply castToInt_mono
    apply hround
    apply mul_le_mul_of_nonneg_right _ hrate
    calc note.startTime = round note.startTime := hstart.symm
      _ ≤ round (note.startTime + note.duration) := hround (by linarith)

/-- Witness for C14: the note of `SimpleSynthBasicTest` (start 0.1 s, duration 1.5 s) at
44100 Hz in exact arithmetic; a note from 0.5 s to 2 s at 44100 Hz, whose sum and products
are `double` values, as `createMidiBuffer` schedules it; and the note of one sample period
that starts at 4 s, in `double` arithmetic. -/
theorem noteOff_after_noteOn_witness :
    ((roundedNoteSamples id 44100 ⟨60, 4 / 5, 1 / 10, 3 / 2⟩).1 = ⌊((1 / 10 : ℚ)) * 44100⌋
        ∧ (roundedNoteSamples id 44100 ⟨60, 4 / 5, 1 / 10, 3 / 2⟩).2
          = ⌊((1 / 10 : ℚ) + 3 / 2) * 44100⌋
        ∧ (roundedNoteSamples id 44100 ⟨60, 4 / 5, 1 / 10, 3 / 2⟩).1
          < (roundedNoteSamples id 44100 ⟨60, 4 / 5, 1 / 10, 3 / 2⟩).2)
      ∧ (∃ noteOn noteOff, noteEvents 44100 ⟨60, 4 / 5, 1 / 2, 3 / 2⟩ = [noteOn, noteOff]
        ∧ noteOn.samplePosition = ⌊((1 / 2 : ℚ)) * 44100⌋
        ∧ noteOff.samplePosition = ⌊((1 / 2 : ℚ) + 3 / 2) * 44100⌋
        ∧ noteOn.samplePosition < noteOff.samplePosition)
      ∧ (roundedNoteSamples roundToDouble 44100 ⟨60, 4 / 5, 1 / 2, 3 / 2⟩).1
          < (roundedNoteSamples roundToDouble 44100 ⟨60, 4 / 5, 1 / 2, 3 / 2⟩).2
      ∧ Monotone roundToDouble
      ∧ roundToDouble oneSampleNote.startTime = oneSampleNote.startTime
      ∧ (roundedNoteSamples roundToDouble 44100 oneSampleNote).1
          ≤ (roundedNoteSamples roundToDouble 44100 oneSampleNote).2 :=
  ⟨(noteOff_after_noteOn id 44100 ⟨60, 4 / 5, 1 / 10, 3 / 2⟩).2.1 (by decide!) (by decide!)
      (by decide!),
    (noteOff_after_noteOn id 44100 ⟨60, 4 / 5, 1 / 2, 3 / 2⟩).2.2.1 (by decide!) (by decide!)
      (by decide!) (by decide!) (by decide!) (by decide!),
    (noteOff_after_noteOn roundToDouble 44100 ⟨60, 4 / 5, 1 / 2, 3 / 2⟩).2.2.2.1 (by decide!)
      (by decide!) (by decide!) (by decide!) (by decide!) (by decide!),
    roundToDouble_monotone, by decide!,
    (noteOff_after_noteOn roundToDouble 44100 oneSampleNote).2.2.2.2 roundToDouble_monotone
      (by decide!) (by decide!) (by decide!)⟩

/-- Counterexample to C14 as stated, in `double` arithmetic: at 44100 Hz the note
`addNote (60, 0.8f, 4.0, 1.0 / 44100.0)` has `startTime ≥ 0` and
`duration * sampleRate ≥ 1` (the product is at least 1 exactly, and is 1 when rounded), its
note-on is at sample `4.0 * 44100 = 176400`, and its note-off is at sample 176400 as well: the
sum `4.0 + duration` is rounded down, and the product with 44100 is then
`176400.99999999997`, below 176401. -/
theorem oneSampleNote_positions_counterexample :
    roundToDouble (1 / 44100) = oneSampleNote.duration
      ∧ roundToDouble oneSampleNote.startTime = oneSampleNote.startTime
      ∧ 0 ≤ oneSampleNote.startTime
      ∧ 1 ≤ oneSampleNote.duration * 44100
      ∧ roundToDouble (oneSampleNote.duration * 44100) = 1
      ∧ roundToDouble (roundToDouble (oneSampleNote.startTime + oneSampleNote.duration) * 44100)
          = 6061092207853567 / 34359738368
      ∧ (6061092207853567 / 34359738368 : ℚ) < 176401
      ∧ roundedNoteSamples roundToDouble 44100 oneSampleNote = (176400, 176400)
      ∧ ¬ ((roundedNoteSamples roundToDouble 44100 oneSampleNote).1
          < (roundedNoteSamples roundToDouble 44100 oneSampleNote).2)
      ∧ noteEvents 44100 oneSampleNote
          = [MidiEvent.mk (MidiMessage.noteOn 1 60 (4 / 5)) 176400,
              MidiEvent.mk (MidiMessage.noteOff 1 60 0) 176400] := by
  refine ⟨by decide!, by decide!, by decide!, by decide!, by decide!, by decide!, by decide!,
    by decide!, by decide!, by decide!⟩

end GoldenAudio

namespace GoldenAudio

open GoldenAudioTestCase GoldenAudioTestSuite

/-! ## The state of `SimpleSynth` across blocks and across test cases -/

theorem SimpleSynth.handleMessage_congr (synth other : SimpleSynth) (message : MidiMessage)
    (hplaying : synth.isPlaying = other.isPlaying) (hnote : synth.currentNote = other.currentNote) :
    (synth.handleMessage message).isPlaying = (other.handleMessage message).isPlaying
      ∧ (synth.handleMessage message).currentNote
          = (other.handleMessage message).currentNote := by
  unfold SimpleSynth.handleMessage
  rw [hnote]
  split_ifs <;> simp [hplaying, hnote]

theorem SimpleSynth.foldl_handleMessage_congr (messages : MidiBuffer) (synth other : SimpleSynth)
    (hplaying : synth.isPlaying = other.isPlaying) (hnote : synth.currentNote = other.currentNote) :
    (messages.foldl (fun synth metadata => synth.handleMessage metadata.message)
          synth).isPlaying
        = (messages.foldl (fun synth metadata => synth.handleMessage metadata.message)
          other).isPlaying
      ∧ (messages.foldl (fun synth metadata => synth.handleMessage metadata.message)
          synth).currentNote
        = (messages.foldl (fun synth metadata => synth.handleMessage metadata.message)
          other).currentNote := by
  induction messages generalizing synth other with
  | nil => exact ⟨hplaying, hnote⟩
  | cons metadata rest ih =>
    rw [List.foldl_cons, List.foldl_cons]
    obtain ⟨h1, h2⟩ := SimpleSynth.handleMessage_congr synth other metadata.message hplaying
      hnote
    exact ih _ _ h1 h2

theorem SimpleSynth.foldl_writeSample (sine : ℚ → ℚ) (phaseIncrement gain : ℚ)
    (samples : List Nat) (state : SimpleSynth × AudioBuffer) :
    (samples.foldl (SimpleSynth.writeSample sine phaseIncrement gain) state).1.isPlaying
        = state.1.isPlaying
      ∧ (samples.foldl (SimpleSynth.writeSample sine phaseIncrement gain) state).1.currentNote
        = state.1.currentNote := by
  induction samples generalizing state with
  | nil => exact ⟨rfl, rfl⟩
  | cons sample rest ih =>
    rw [List.foldl_cons]
    obtain ⟨h1, h2⟩ := ih (SimpleSynth.writeSample sine phaseIncrement gain state sample)
    exact ⟨h1, h2⟩

/-- After a block, `isPlaying` and `currentNote` are what the messages of the block have made
of them: the loop over the samples changes neither. -/
theorem SimpleSynth.processBlock_note (noteInHertz : Int → ℚ) (sine : ℚ → ℚ)
    (synth : SimpleSynth) (buffer : AudioBuffer) (midiMessages : MidiBuffer) :
    (SimpleSynth.processBlock noteInHertz sine synth buffer midiMessages).1.isPlaying
        = (midiMessages.foldl (fun synth metadata => synth.handleMessage metadata.message)
          synth).isPlaying
      ∧ (SimpleSynth.processBlock noteInHertz sine synth buffer midiMessages).1.currentNote
        = (midiMessages.foldl (fun synth metadata => synth.handleMessage metadata.message)
          synth).currentNote := by
  unfold SimpleSynth.processBlock
  simp only
  split_ifs
  · exact SimpleSynth.foldl_writeSample sine _ _ _ _
  · exact ⟨rfl, rfl⟩

/-- The state of `SimpleSynth` after the rendering loop over some windows: the call returns,
and `isPlaying` and `currentNote` are what the messages delivered in these windows, taken in
order, make of the values at the start. -/
theorem renderLoop_simpleSynth_note (tc : GoldenAudioTestCase) (noteInHertz : Int → ℚ)
    (sine : ℚ → ℚ) (midiBuffer : MidiBuffer) (windows : List (Int × Int))
    (synth : SimpleSynth) (outputBuffer : AudioBuffer) :
    ∃ state output,
      renderLoop tc (simpleSynthUnit noteInHertz sine) midiBuffer windows synth outputBuffer
        = Except.ok (state, output)
      ∧ state.isPlaying
        = ((windows.flatMap (fun window =>
            extractMidiForBuffer midiBuffer [] window.1 window.2)).foldl
              (fun synth metadata => synth.handleMessage metadata.message) synth).isPlaying
      ∧ state.currentNote
        = ((windows.flatMap (fun window =>
            extractMidiForBuffer midiBuffer [] window.1 window.2)).foldl
              (fun synth metadata => synth.handleMessage metadata.message) synth).currentNote := by
  induction windows generalizing synth outputBuffer with
  | nil => exact ⟨synth, outputBuffer, rfl, rfl, rfl⟩
  | cons window rest ih =>
    obtain ⟨hplaying, hnote⟩ := SimpleSynth.processBlock_note noteInHertz sine synth
      (AudioBuffer.cleared tc.numOutputChannels window.2)
      (extractMidiForBuffer midiBuffer [] window.1 window.2)
    obtain ⟨state, output, hloop, h1, h2⟩ := ih
      (SimpleSynth.processBlock noteInHertz sine synth
        (AudioBuffer.cleared tc.numOutputChannels window.2)
        (extractMidiForBuffer midiBuffer [] window.1 window.2)).1
      ((List.range tc.numOutputChannels).foldl
        (fun outputBuffer channel =>
          outputBuffer.copyFrom channel window.1
            (SimpleSynth.processBlock noteInHertz sine synth
              (AudioBuffer.cleared tc.numOutputChannels window.2)
              (extractMidiForBuffer midiBuffer [] window.1 window.2)).2 channel 0 window.2)
        outputBuffer)
    obtain ⟨h3, h4⟩ := SimpleSynth.foldl_handleMessage_congr
      (rest.flatMap (fun window => extractMidiForBuffer midiBuffer [] window.1 window.2))
      _ _ hplaying hnote
    refine ⟨state, output, ?_, ?_, ?_⟩
    · simp only [renderLoop, renderBlock, simpleSynthUnit]
      exact hloop
    · rw [List.flatMap_cons, List.foldl_append, h1, h3]
    · rw [List.flatMap_cons, List.foldl_append, h2, h4]

theorem applyParameter_simpleSynth (noteInHertz : Int → ℚ) (sine : ℚ → ℚ)
    (synth : SimpleSynth) (paramName : String) (value : ℚ) :
    (applyParameter (simpleSynthUnit noteInHertz sine) synth paramName value).isPlaying
        = synth.isPlaying
      ∧ (applyParameter (simpleSynthUnit noteInHertz sine) synth paramName value).currentNote
        = synth.currentNote
      ∧ (applyParameter (simpleSynthUnit noteInHertz sine) synth paramName value).currentPhase
        = synth.currentPhase := by
  simp only [applyParameter, simpleSynthUnit, applyParameterFrom]
  split_ifs <;> exact ⟨rfl, rfl, rfl⟩

theorem applyParametersToProcessor_simpleSynth (tc : GoldenAudioTestCase)
    (noteInHertz : Int → ℚ) (sine : ℚ → ℚ) (synth : SimpleSynth) :
    (tc.applyParametersToProcessor (simpleSynthUnit noteInHertz sine) synth).isPlaying
        = synth.isPlaying
      ∧ (tc.applyParametersToProcessor (simpleSynthUnit noteInHertz sine) synth).currentNote
        = synth.currentNote
      ∧ (tc.applyParametersToProcessor (simpleSynthUnit noteInHertz sine) synth).currentPhase
        = synth.currentPhase := by
  unfold applyParametersToProcessor
  generalize tc.parameterStates = bindings
  induction bindings generalizing synth with
  | nil => exact ⟨rfl, rfl, rfl⟩
  | cons binding rest ih =>
    rw [List.foldl_cons]
    obtain ⟨h1, h2, h3⟩ := ih (applyParameter (simpleSynthUnit noteInHertz sine) synth
      binding.parameterName binding.value)
    obtain ⟨h4, h5, h6⟩ := applyParameter_simpleSynth noteInHertz sine synth
      binding.parameterName binding.value
    exact ⟨h1.trans h4, h2.trans h5, h3.trans h6⟩

theorem AudioBuffer.clear_cleared (numChannels : Nat) (numSamples : Int) :
    (AudioBuffer.cleared numChannels numSamples).clear
      = AudioBuffer.cleared numChannels numSamples := by
  simp [AudioBuffer.clear, AudioBuffer.cleared]

/-- A `SimpleSynth` that is not playing leaves a cleared block as it is when the block brings
no message, and stays as it is. -/
theorem SimpleSynth.processBlock_idle (noteInHertz : Int → ℚ) (sine : ℚ → ℚ)
    (synth : SimpleSynth) (hplaying : synth.isPlaying = false) (numChannels : Nat)
    (numSamples : Int) :
    SimpleSynth.processBlock noteInHertz sine synth
        (AudioBuffer.cleared numChannels numSamples) []
      = (synth, AudioBuffer.cleared numChannels numSamples) := by
  simp [SimpleSynth.processBlock, hplaying, AudioBuffer.clear_cleared]

/-- The output of a rendering in which every block stays cleared: the cleared blocks copied
into the output buffer window by window. -/
theorem renderLoop_simpleSynth_idle (tc : GoldenAudioTestCase) (noteInHertz : Int → ℚ)
    (sine : ℚ → ℚ) (windows : List (Int × Int)) (synth : SimpleSynth)
    (hplaying : synth.isPlaying = false) (outputBuffer : AudioBuffer) :
    renderLoop tc (simpleSynthUnit noteInHertz sine) [] windows synth outputBuffer
      = Except.ok (synth, windows.foldl
          (fun outputBuffer window =>
            (List.range tc.numOutputChannels).foldl
              (fun outputBuffer channel =>
                outputBuffer.copyFrom channel window.1
                  (AudioBuffer.cleared tc.numOutputChannels window.2) channel 0 window.2)
              outputBuffer)
          outputBuffer) := by
  induction windows generalizing outputBuffer with
  | nil => rfl
  | cons window rest ih =>
    have hextract : extractMidiForBuffer [] [] window.1 window.2 = [] := rfl
    simp only [renderLoop, renderBlock, simpleSynthUnit, hextract,
      SimpleSynth.processBlock_idle noteInHertz sine synth hplaying, List.foldl_cons]
    exact ih _

theorem AudioBuffer.silent_cleared (numChannels : Nat) (numSamples : Int) :
    (AudioBuffer.cleared numChannels numSamples).Silent := by
  intro samples hsamples sample hsample
  simp only [AudioBuffer.cleared] at hsamples
  rw [List.eq_of_mem_replicate hsamples] at hsample
  exact List.eq_of_mem_replicate hsample

theorem AudioBuffer.silent_copyFrom (dest source : AudioBuffer) (hdest : dest.Silent)
    (hsource : source.Silent) (destChannel : Nat) (destStartSample : Int) (sourceChannel : Nat)
    (sourceStartSample numSamples : Int) :
    (dest.copyFrom destChannel destStartSample source sourceChannel sourceStartSample
      numSamples).Silent := by
  have hchannel : ∀ (buffer : AudioBuffer), buffer.Silent → ∀ (c : Nat),
      ∀ sample ∈ buffer.channel c, sample = 0 := by
    intro buffer hbuffer c sample hsample
    unfold AudioBuffer.channel at hsample
    rw [List.getD_eq_getElem?_getD] at hsample
    cases hget : buffer.channels[c]? with
    | none => simp [hget] at hsample
    | some samples =>
      simp only [hget, Option.getD_some] at hsample
      exact hbuffer samples (List.getElem?_mem hget) sample hsample
  intro samples hsamples sample hsample
  simp only [AudioBuffer.copyFrom] at hsamples
  rcases List.mem_or_eq_of_mem_set hsamples with hold | hnew
  · exact hdest samples hold sample hsample
  · rw [hnew] at hsample
    rcases List.mem_append.mp hsample with h | h
    · rcases List.mem_append.mp h with h | h
      · exact hchannel dest hdest destChannel sample (List.mem_of_mem_take h)
      · exact hchannel source hsource sourceChannel sample
          (List.mem_of_mem_drop (List.mem_of_mem_take h))
    · exact hchannel dest hdest destChannel sample (List.mem_of_mem_drop h)

theorem AudioBuffer.silent_foldl_copyFrom (tc : GoldenAudioTestCase)
    (windows : List (Int × Int)) (outputBuffer : AudioBuffer) (houtput : outputBuffer.Silent) :
    (windows.foldl
      (fun outputBuffer window =>
        (List.range tc.numOutputChannels).foldl
          (fun outputBuffer channel =>
            outputBuffer.copyFrom channel window.1
              (AudioBuffer.cleared tc.numOutputChannels window.2) channel 0 window.2)
          outputBuffer)
      outputBuffer).Silent := by
  induction windows generalizing outputBuffer with
  | nil => exact houtput
  | cons window rest ih =>
    rw [List.foldl_cons]
    apply ih
    generalize List.range tc.numOutputChannels = channels
    induction channels generalizing outputBuffer with
    | nil => exact houtput
    | cons channel others ihc =>
      rw [List.foldl_cons]
      exact ihc _ (AudioBuffer.silent_copyFrom _ _ houtput
        (AudioBuffer.silent_cleared _ _) _ _ _ _ _)

theorem flatMap_extractMidiForBuffer_nil (windows : List (Int × Int)) :
    windows.flatMap (fun window => extractMidiForBuffer [] [] window.1 window.2) = [] := by
  induction windows with
  | nil => rfl
  | cons window rest ih =>
    rw [List.flatMap_cons, ih]
    rfl

theorem createMidiBuffer_of_no_note (tc : GoldenAudioTestCase) (hsilent : tc.midiSequence = []) :
    tc.createMidiBuffer = [] := by
  unfold createMidiBuffer
  rw [hsilent]
  rfl

/-- A test case without notes rendered on a `SimpleSynth`: after any number of blocks
`isPlaying` is what it was before the call. -/
theorem renderLoop_simpleSynth_no_note (tc : GoldenAudioTestCase)
    (hsilent : tc.midiSequence = []) (noteInHertz : Int → ℚ) (sine : ℚ → ℚ)
    (synth : SimpleSynth) (blocks : Nat) :
    ∃ state output,
      renderLoop tc (simpleSynthUnit noteInHertz sine) tc.createMidiBuffer
          (tc.renderWindows.take blocks)
          (tc.applyParametersToProcessor (simpleSynthUnit noteInHertz sine)
            (tc.setupProcessor (simpleSynthUnit noteInHertz sine) synth))
          (AudioBuffer.cleared tc.numOutputChannels tc.totalSamples)
        = Except.ok (state, output)
      ∧ state.isPlaying = synth.isPlaying := by
  obtain ⟨state, output, hloop, hplaying, _⟩ := renderLoop_simpleSynth_note tc noteInHertz sine
    tc.createMidiBuffer (tc.renderWindows.take blocks)
    (tc.applyParametersToProcessor (simpleSynthUnit noteInHertz sine)
      (tc.setupProcessor (simpleSynthUnit noteInHertz sine) synth))
    (AudioBuffer.cleared tc.numOutputChannels tc.totalSamples)
  refine ⟨state, output, hloop, ?_⟩
  rw [hplaying, createMidiBuffer_of_no_note tc hsilent, flatMap_extractMidiForBuffer_nil]
  exact (applyParametersToProcessor_simpleSynth tc noteInHertz sine _).1

theorem render_simpleSynth_no_note (tc : GoldenAudioTestCase)
    (hsilent : tc.midiSequence = []) (noteInHertz : Int → ℚ) (sine : ℚ → ℚ)
    (synth : SimpleSynth) :
    ∃ state output,
      tc.render (simpleSynthUnit noteInHertz sine) synth = Except.ok (state, output)
      ∧ state.isPlaying = synth.isPlaying := by
  obtain ⟨state, output, hloop, hplaying⟩ := renderLoop_simpleSynth_no_note tc hsilent
    noteInHertz sine synth tc.renderWindows.length
  rw [List.take_length] at hloop
  exact ⟨state, output, hloop, hplaying⟩

theorem compareWithGoldenAudio_processor {σ : Type} (tc : GoldenAudioTestCase)
    (unit : AudioProcessor σ) (wav : WavWriter) (sqrt : ℚ → ℚ) (processor : σ)
    (files : FileSystem) (goldenPath : String) (state : σ) (output : AudioBuffer)
    (hrender : tc.render unit processor = Except.ok (state, output)) :
    (tc.compareWithGoldenAudio unit wav sqrt processor files goldenPath).processor = state := by
  have hgenerated : (tc.generateGoldenAudio unit wav processor files
      (goldenPath ++ ".temp.wav")).processor = state := by
    simp only [generateGoldenAudio, hrender]
  rw [← hgenerated]
  cases hcompletion : (tc.generateGoldenAudio unit wav processor files
      (goldenPath ++ ".temp.wav")).completion with
  | propagated exception => simp only [compareWithGoldenAudio, hcompletion]
  | returned value =>
    cases value <;> simp only [compareWithGoldenAudio, hcompletion]

end GoldenAudio

namespace GoldenAudio

open GoldenAudioTestCase GoldenAudioTestSuite

/-- C21: nothing isolates the test cases that share one `SimpleSynth`.  `setupProcessor` and
`SimpleSynth::prepareToPlay` leave `isPlaying`, `currentNote` and `currentPhase` as they are.
So for every first test case whose delivered messages leave a note playing and every second
test case without notes: the rendering of the first case on a newly constructed `SimpleSynth`
ends with `isPlaying = true`; the second case rendered next on the same object has
`isPlaying = true` when its first block starts and after every number of blocks; a suite run
of the two cases leaves the object with `isPlaying = true`.  The same second case on a newly
constructed `SimpleSynth` has `isPlaying = false` throughout, and every sample of its output is
zero. -/
theorem simpleSynth_state_leaks (noteInHertz : Int → ℚ) (sine : ℚ → ℚ)
    (first second : GoldenAudioTestCase)
    (hfirst : ((first.renderWindows.flatMap (fun window =>
        extractMidiForBuffer first.createMidiBuffer [] window.1 window.2)).foldl
          (fun synth metadata => synth.handleMessage metadata.message)
          SimpleSynth.new).isPlaying = true)
    (hsecond : second.midiSequence = []) :
    (∀ (tc : GoldenAudioTestCase) (synth : SimpleSynth),
        (tc.setupProcessor (simpleSynthUnit noteInHertz sine) synth).isPlaying = synth.isPlaying
          ∧ (tc.setupProcessor (simpleSynthUnit noteInHertz sine) synth).currentNote
              = synth.currentNote
          ∧ (tc.setupProcessor (simpleSynthUnit noteInHertz sine) synth).currentPhase
              = synth.currentPhase)
      ∧ (∀ (synth : SimpleSynth) (sampleRate : ℚ) (samplesPerBlock : Int),
          (synth.prepareToPlay sampleRate samplesPerBlock).isPlaying = synth.isPlaying
          ∧ (synth.prepareToPlay sampleRate samplesPerBlock).currentNote = synth.currentNote
          ∧ (synth.prepareToPlay sampleRate samplesPerBlock).currentPhase = synth.currentPhase)
      ∧ (∃ left output,
          first.render (simpleSynthUnit noteInHertz sine) SimpleSynth.new
            = Except.ok (left, output)
          ∧ left.isPlaying = true
          ∧ (second.applyParametersToProcessor (simpleSynthUnit noteInHertz sine)
              (second.setupProcessor (simpleSynthUnit noteInHertz sine) left)).isPlaying = true
          ∧ ∀ blocks : Nat, ∃ state partialOutput,
              renderLoop second (simpleSynthUnit noteInHertz sine) second.createMidiBuffer
                  (second.renderWindows.take blocks)
                  (second.applyParametersToProcessor (simpleSynthUnit noteInHertz sine)
                    (second.setupProcessor (simpleSynthUnit noteInHertz sine) left))
                  (AudioBuffer.cleared second.numOutputChannels second.totalSamples)
                = Except.ok (state, partialOutput)
              ∧ state.isPlaying = true)
      ∧ (∀ blocks : Nat, ∃ state partialOutput,
          renderLoop second (simpleSynthUnit noteInHertz sine) second.createMidiBuffer
              (second.renderWindows.take blocks)
              (second.applyParametersToProcessor (simpleSynthUnit noteInHertz sine)
                (second.setupProcessor (simpleSynthUnit noteInHertz sine) SimpleSynth.new))
              (AudioBuffer.cleared second.numOutputChannels second.totalSamples)
            = Except.ok (state, partialOutput)
          ∧ state.isPlaying = false)
      ∧ (∃ state output,
          second.render (simpleSynthUnit noteInHertz sine) SimpleSynth.new
            = Except.ok (state, output)
          ∧ state.isPlaying = false ∧ output.Silent)
      ∧ (∀ (wav : WavWriter) (sqrt : ℚ → ℚ) (files : FileSystem) (goldenDirectory : String),
          ((GoldenAudioTestSuite.mk [first, second] 0 0).runAllTests
            (simpleSynthUnit noteInHertz sine) wav sqrt SimpleSynth.new files
            goldenDirectory).processor.isPlaying = true
          ∧ ((GoldenAudioTestSuite.mk [second] 0 0).runAllTests
            (simpleSynthUnit noteInHertz sine) wav sqrt SimpleSynth.new files
            goldenDirectory).processor.isPlaying = false) := by
  have hleft : ∃ left output,
      first.render (simpleSynthUnit noteInHertz sine) SimpleSynth.new = Except.ok (left, output)
      ∧ left.isPlaying = true := by
    obtain ⟨left, output, hloop, hplaying, _⟩ := renderLoop_simpleSynth_note first noteInHertz
      sine first.createMidiBuffer first.renderWindows
      (first.applyParametersToProcessor (simpleSynthUnit noteInHertz sine)
        (first.setupProcessor (simpleSynthUnit noteInHertz sine) SimpleSynth.new))
      (AudioBuffer.cleared first.numOutputChannels first.totalSamples)
    refine ⟨left, output, hloop, ?_⟩
    obtain ⟨h1, h2, _⟩ := applyParametersToProcessor_simpleSynth first noteInHertz sine
      (first.setupProcessor (simpleSynthUnit noteInHertz sine) SimpleSynth.new)
    rw [hplaying, (SimpleSynth.foldl_handleMessage_congr _ _ SimpleSynth.new h1 h2).1]
    exact hfirst
  have hreturns : ∀ (wav : WavWriter) (sqrt : ℚ → ℚ) (testCase : GoldenAudioTestCase)
      (processor : SimpleSynth) (files : FileSystem) (goldenPath : String),
      ∃ value, (testCase.compareWithGoldenAudio (simpleSynthUnit noteInHertz sine) wav sqrt
        processor files goldenPath).completion = Completion.returned value := by
    intro wav sqrt testCase processor files goldenPath
    exact compareWithGoldenAudio_returns testCase (simpleSynthUnit noteInHertz sine)
      (fun _ _ _ _ hthrew => by simp [simpleSynthUnit] at hthrew) wav sqrt processor files
      goldenPath
  refine ⟨fun _ _ => ⟨rfl, rfl, rfl⟩, fun _ _ _ => ⟨rfl, rfl, rfl⟩, ?_, ?_, ?_, ?_⟩
  · obtain ⟨left, output, hrender, hplaying⟩ := hleft
    refine ⟨left, output, hrender, hplaying, ?_, ?_⟩
    · rw [(applyParametersToProcessor_simpleSynth second noteInHertz sine _).1]
      exact hplaying
    · intro blocks
      obtain ⟨state, partialOutput, hloop, hstate⟩ := renderLoop_simpleSynth_no_note second
        hsecond noteInHertz sine left blocks
      exact ⟨state, partialOutput, hloop, hstate.trans hplaying⟩
  · intro blocks
    obtain ⟨state, partialOutput, hloop, hstate⟩ := renderLoop_simpleSynth_no_note second
      hsecond noteInHertz sine SimpleSynth.new blocks
    exact ⟨state, partialOutput, hloop, hstate⟩
  · have hstart : (second.applyParametersToProcessor (simpleSynthUnit noteInHertz sine)
        (second.setupProcessor (simpleSynthUnit noteInHertz sine) SimpleSynth.new)).isPlaying
        = false := (applyParametersToProcessor_simpleSynth second noteInHertz sine _).1
    have hrender : second.render (simpleSynthUnit noteInHertz sine) SimpleSynth.new
        = Except.ok
          (second.applyParametersToProcessor (simpleSynthUnit noteInHertz sine)
            (second.setupProcessor (simpleSynthUnit noteInHertz sine) SimpleSynth.new),
          second.renderWindows.foldl
            (fun outputBuffer window =>
              (List.range second.numOutputChannels).foldl
                (fun outputBuffer channel =>
                  outputBuffer.copyFrom channel window.1
                    (AudioBuffer.cleared second.numOutputChannels window.2) channel 0 window.2)
                outputBuffer)
            (AudioBuffer.cleared second.numOutputChannels second.totalSamples)) := by
      unfold render
      simp only [createMidiBuffer_of_no_note second hsecond]
      exact renderLoop_simpleSynth_idle second noteInHertz sine second.renderWindows _ hstart _
    exact ⟨_, _, hrender, hstart,
      AudioBuffer.silent_foldl_copyFrom second second.renderWindows _
        (AudioBuffer.silent_cleared _ _)⟩
  · intro wav sqrt files goldenDirectory
    constructor
    · obtain ⟨left, output, hrender, hplaying⟩ := hleft
      have hloop := (runLoop_eq_compareEveryCase
        (fun testCase processor files goldenPath =>
          testCase.compareWithGoldenAudio (simpleSynthUnit noteInHertz sine) wav sqrt processor
            files goldenPath)
        (hreturns wav sqrt) goldenDirectory [first, second] true
        (GoldenAudioTestSuite.mk [first, second] 0 0) SimpleSynth.new files).2.2.2.2.1
      unfold runAllTests runAllTestsWith
      rw [hloop]
      simp only [compareEveryCase]
      rw [compareWithGoldenAudio_processor first _ wav sqrt SimpleSynth.new files _ left output
        hrender]
      obtain ⟨state, output2, hrender2, hstate⟩ := render_simpleSynth_no_note second hsecond
        noteInHertz sine left
      rw [compareWithGoldenAudio_processor second _ wav sqrt left _ _ state output2 hrender2]
      exact hstate.trans hplaying
    · have hloop := (runLoop_eq_compareEveryCase
        (fun testCase processor files goldenPath =>
          testCase.compareWithGoldenAudio (simpleSynthUnit noteInHertz sine) wav sqrt processor
            files goldenPath)
        (hreturns wav sqrt) goldenDirectory [second] true
        (GoldenAudioTestSuite.mk [second] 0 0) SimpleSynth.new files).2.2.2.2.1
      unfold runAllTests runAllTestsWith
      rw [hloop]
      simp only [compareEveryCase]
      obtain ⟨state, output2, hrender2, hstate⟩ := render_simpleSynth_no_note second hsecond
        noteInHertz sine SimpleSynth.new
      rw [compareWithGoldenAudio_processor second _ wav sqrt SimpleSynth.new _ _ state output2
        hrender2]
      exact hstate

/-- Witness for C21: the test case `lateEndCase`, whose note-on is delivered in block 1 and
whose note-off, at sample 15, is never delivered, followed by the test case `tinyCase`, which
has no note; the oscillator is a stand-in (440 Hz, sawtooth).  On a newly constructed
`SimpleSynth` the second case leaves the object not playing and gives the cleared buffer of
two channels of ten samples; after the first case it ends with `isPlaying = true` and gives
another buffer. -/
theorem simpleSynth_state_leaks_witness :
    ((lateEndCase.renderWindows.flatMap (fun window =>
        extractMidiForBuffer lateEndCase.createMidiBuffer [] window.1 window.2)).foldl
          (fun synth metadata => synth.handleMessage metadata.message)
          SimpleSynth.new).isPlaying = true
      ∧ tinyCase.midiSequence = []
      ∧ (∃ left output,
          lateEndCase.render (simpleSynthUnit concertPitch sawtooth) SimpleSynth.new
            = Except.ok (left, output)
          ∧ left.isPlaying = true
          ∧ (tinyCase.applyParametersToProcessor (simpleSynthUnit concertPitch sawtooth)
              (tinyCase.setupProcessor (simpleSynthUnit concertPitch sawtooth)
                left)).isPlaying = true)
      ∧ (∃ state output,
          tinyCase.render (simpleSynthUnit concertPitch sawtooth) SimpleSynth.new
            = Except.ok (state, output)
          ∧ state.isPlaying = false ∧ output.Silent)
      ∧ tinyCase.render (simpleSynthUnit concertPitch sawtooth) SimpleSynth.new
          = Except.ok (SimpleSynth.mk (7 / 10) (0, 2, 10, 4) 10 8 1 10 0 60 false,
              AudioBuffer.cleared 2 10)
      ∧ (match lateEndCase.render (simpleSynthUnit concertPitch sawtooth) SimpleSynth.new with
          | Except.ok (left, _) =>
            match tinyCase.render (simpleSynthUnit concertPitch sawtooth) left with
            | Except.ok (state, output) =>
              state.isPlaying && decide (output ≠ AudioBuffer.cleared 2 10)
            | Except.error _ => false
          | Except.error _ => false) = true := by
  have hfirst : ((lateEndCase.renderWindows.flatMap (fun window =>
      extractMidiForBuffer lateEndCase.createMidiBuffer [] window.1 window.2)).foldl
        (fun synth metadata => synth.handleMessage metadata.message)
        SimpleSynth.new).isPlaying = true := by decide!
  have hsecond : tinyCase.midiSequence = [] := by decide!
  have h := simpleSynth_state_leaks concertPitch sawtooth lateEndCase tinyCase hfirst hsecond
  obtain ⟨left, output, hrender, hplaying, hstart, _⟩ := h.2.2.1
  exact ⟨hfirst, hsecond, ⟨left, output, hrender, hplaying, hstart⟩, h.2.2.2.2.1, by decide!,
    by decide!⟩

end GoldenAudio
